import Mathlib

/-!
# LatinIME typing-correction core (`native/src/correction.cpp`)

A shallow embedding of the correction engine: the saturating integer helpers,
the edit-distance kernel, the per-depth traversal state and the ranking
algorithm, followed by theorems about them.

Conventions of the embedding

* A C `int` is an `Int`. The arithmetic on scores and on the cells of the
  edit-distance table goes through `wrap32`, the two's-complement reduction
  modulo `2^32`; indices and counters, which are bounded by the capacity of the
  buffers, are plain integers. C division and remainder truncate towards zero:
  `Int.tdiv`, `Int.tmod`.
* A C pointer to a buffer is the memory seen from that pointer: a function
  from the (signed) index to the cell, so that `p[-1]` is the cell in front of
  the buffer, whatever it holds.
* The collaborators that are not part of `correction.cpp` (`ProximityInfo`,
  `Dictionary::toBaseLowerCase`, the constants of `defines.h`) are parameters.
-/

namespace latinime

/-! ## Machine integers -/

/-- Modelled from the spec: the saturation value `S_INT_MAX` of `defines.h` (not part of
the source under study) is the signed 32-bit maximum (section 6.4). -/
def S_INT_MAX : Int := 2147483647

/-- The smallest signed 32-bit integer. -/
def S_INT_MIN : Int := -2147483648

/-- Two's-complement reduction of an integer to the range of a 32-bit `int`. -/
def wrap32 (x : Int) : Int := (x + 2147483648) % 4294967296 - 2147483648

/-- Conversion of an `int32_t` to an `unsigned short` code unit. -/
def toUShort (c : Int) : Nat := (c % 65536).toNat

/-- The ASCII apostrophe, `static const char QUOTE`. -/
def QUOTE : Nat := 39

/-! ## Static inline utilities (correction.cpp, lines 349-399) -/

/-- The constant `TWO_31ST_DIV_255 = S_INT_MAX / 255`. -/
def TWO_31ST_DIV_255 : Int := Int.tdiv S_INT_MAX 255

/-- Source lines 350-352: the promotion by 255 for a full match. -/
def capped255MultForFullMatchAccentsOrCapitalizationDifference (num : Int) : Int :=
  if num < TWO_31ST_DIV_255 then wrap32 (255 * num) else S_INT_MAX

/-- The constant `TWO_31ST_DIV_2 = S_INT_MAX / 2`. -/
def TWO_31ST_DIV_2 : Int := Int.tdiv S_INT_MAX 2

/-- Source lines 355-366: `multiplyIntCapped(multiplier, &base)`; the result is the
value left in `*base`. The shift `temp << 1` is the doubling of `temp`. -/
def multiplyIntCapped (multiplier : Int) (base : Int) : Int :=
  let temp := base
  if temp ≠ S_INT_MAX then
    if multiplier = 2 then
      if TWO_31ST_DIV_2 ≥ temp then wrap32 (temp * 2) else S_INT_MAX
    else
      let tempRetval := wrap32 (temp * multiplier)
      if tempRetval ≥ temp then tempRetval else S_INT_MAX
  else base

/-- The loop `for (int i = 1; i < n; ++i) multiplyIntCapped(base, &ret)` of
`powerIntCapped`, as `count` successive iterations. -/
def powerIntCappedLoop (base : Int) : Nat → Int → Int
  | 0, ret => ret
  | count + 1, ret => powerIntCappedLoop base count (multiplyIntCapped base ret)

/-- Source lines 368-377: `powerIntCapped(base, n)`. The loop runs `n - 1` times
(not at all when `n ≤ 1`). A shift `1 << n` by a negative `n` is undefined in C;
the embedding shifts by `n.toNat`, that is by zero. -/
def powerIntCapped (base n : Int) : Int :=
  if n = 0 then 1
  else if base = 2 then
    if n < 31 then wrap32 (2 ^ n.toNat) else S_INT_MAX
  else powerIntCappedLoop base (n - 1).toNat base

/-- Source lines 379-389: `multiplyRate(rate, &freq)`; the result is the value left
in `*freq`. -/
def multiplyRate (rate : Int) (freq : Int) : Int :=
  if freq ≠ S_INT_MAX then
    if freq > 1000000 then
      multiplyIntCapped rate (Int.tdiv freq 100)
    else
      Int.tdiv (multiplyIntCapped rate freq) 100
  else freq

/-- The loop of `getQuoteCount` over the indices `0, 1, ..., length - 1`. -/
def getQuoteCountLoop (word : Int → Nat) : Nat → Int
  | 0 => 0
  | i + 1 => getQuoteCountLoop word i + (if word (i : Int) = QUOTE then 1 else 0)

/-- Source lines 391-399: the number of apostrophes in `word[0 .. length - 1]`. -/
def getQuoteCount (word : Int → Nat) (length : Int) : Int :=
  getQuoteCountLoop word length.toNat

/-! ## Edit-distance kernel (correction.cpp, lines 402-441) -/

/-- A buffer seen from the pointer to its first cell: `front` is what every cell in
front of the buffer holds, `cells` are the cells from index `0` on, and the cells
behind them hold `0`. -/
def bufferAt (front : Nat) (cells : List Nat) : Int → Nat :=
  fun k => if k < 0 then front else cells.getD k.toNat 0

/-- Source lines 409-411: `for (i = 0; i < li; ++i) dp[lo * i] = i`. -/
def editDistanceInitColumn (li lo : Int) (dp : Int → Int) : Int → Int :=
  (List.range li.toNat).foldl
    (fun (t : Int → Int) (i : Nat) => Function.update t (lo * (i : Int)) (i : Int)) dp

/-- Source lines 412-414: `for (i = 0; i < lo; ++i) dp[i] = i`. -/
def editDistanceInitRow (lo : Int) (dp : Int → Int) : Int → Int :=
  (List.range lo.toNat).foldl
    (fun (t : Int → Int) (i : Nat) => Function.update t (i : Int) (i : Int)) dp

/-- Source lines 418-428: the body of the inner loop at `(i, j)`. The guard of the
transposition clause is the one of the source, `li > 0 && lo > 0`; the clause reads
`output[j - 1]`, `input[i - 1]` and `dp[(i - 1) * lo + (j - 1)]` also at `i = 0` or
`j = 0`. -/
def editDistanceCell (toBaseLowerCase : Nat → Nat) (input output : Int → Nat)
    (li lo : Int) (dp : Int → Int) (i j : Int) : Int → Int :=
  let ci := toBaseLowerCase (input i)
  let co := toBaseLowerCase (output j)
  let cost : Int := if ci = co then 0 else 1
  let dp1 := Function.update dp ((i + 1) * lo + (j + 1))
    (min (wrap32 (dp (i * lo + (j + 1)) + 1))
      (min (wrap32 (dp ((i + 1) * lo + j) + 1)) (wrap32 (dp (i * lo + j) + cost))))
  if li > 0 ∧ lo > 0 ∧ ci = toBaseLowerCase (output (j - 1))
      ∧ co = toBaseLowerCase (input (i - 1)) then
    Function.update dp1 ((i + 1) * lo + (j + 1))
      (min (dp1 ((i + 1) * lo + (j + 1))) (wrap32 (dp1 ((i - 1) * lo + (j - 1)) + cost)))
  else dp1

/-- Source lines 417-429: the inner loop `for (j = 0; j < lo - 1; ++j)` of row `i`. -/
def editDistanceRow (toBaseLowerCase : Nat → Nat) (input output : Int → Nat)
    (li lo : Int) (dp : Int → Int) (i : Int) : Int → Int :=
  (List.range (lo - 1).toNat).foldl
    (fun (t : Int → Int) (j : Nat) =>
      editDistanceCell toBaseLowerCase input output li lo t i (j : Int)) dp

/-- Source lines 406-430: the table after the two initialising loops and the double
loop `for (i = 0; i < li - 1; ++i)`. -/
def editDistanceFill (toBaseLowerCase : Nat → Nat) (editDistanceTable : Int → Int)
    (input : Int → Nat) (inputLength : Int) (output : Int → Nat) (outputLength : Int) :
    Int → Int :=
  let li := inputLength + 1
  let lo := outputLength + 1
  let dp := editDistanceInitRow lo (editDistanceInitColumn li lo editDistanceTable)
  (List.range (li - 1).toNat).foldl
    (fun (t : Int → Int) (i : Nat) =>
      editDistanceRow toBaseLowerCase input output li lo t (i : Int)) dp

/-- Source lines 402-441: `editDistance(editDistanceTable, input, inputLength, output,
outputLength)`, the cell `dp[li * lo - 1]` of the filled table. -/
def editDistance (toBaseLowerCase : Nat → Nat) (editDistanceTable : Int → Int)
    (input : Int → Nat) (inputLength : Int) (output : Int → Nat) (outputLength : Int) : Int :=
  editDistanceFill toBaseLowerCase editDistanceTable input inputLength output outputLength
    ((inputLength + 1) * (outputLength + 1) - 1)

/-! ### The distance matrix as the specification words it -/

/-- The substitution cost of the specification: `0` when the folded code units agree. -/
def specCost (fold : Nat → Nat) (input output : List Nat) (i j : Nat) : Int :=
  if fold (input.getD i 0) = fold (output.getD j 0) then 0 else 1

/-- Row `i + 1` of the specification matrix from row `i` (`cur`) and row `i - 1`
(`prev`): `dp[i+1][0] = i + 1`, `dp[i+1][j+1] = min(dp[i][j+1]+1, dp[i+1][j]+1,
dp[i][j]+cost)`, lowered to `min(., dp[i-1][j-1]+cost)` exactly when `i ≥ 1`, `j ≥ 1`,
`fold(input[i]) = fold(output[j-1])` and `fold(output[j]) = fold(input[i-1])`. -/
def specNextRow (fold : Nat → Nat) (input output : List Nat) (i : Nat)
    (cur prev : Nat → Int) : Nat → Int
  | 0 => (i : Int) + 1
  | j + 1 =>
    let cost := specCost fold input output i j
    let plain := min (cur (j + 1) + 1)
      (min (specNextRow fold input output i cur prev j + 1) (cur j + cost))
    if 1 ≤ i ∧ 1 ≤ j ∧ fold (input.getD i 0) = fold (output.getD (j - 1) 0)
        ∧ fold (output.getD j 0) = fold (input.getD (i - 1) 0) then
      min plain (prev (j - 1) + cost)
    else plain

/-- Rows `i` and `i - 1` of the specification matrix; row `0` is `dp[0][j] = j`. -/
def specRows (fold : Nat → Nat) (input output : List Nat) : Nat → (Nat → Int) × (Nat → Int)
  | 0 => (fun j => (j : Int), fun _ => 0)
  | i + 1 =>
    let rows := specRows fold input output i
    (specNextRow fold input output i rows.1 rows.2, rows.1)

/-- The entry `dp[i][j]` of the specification matrix. -/
def specDp (fold : Nat → Nat) (input output : List Nat) (i j : Nat) : Int :=
  (specRows fold input output i).1 j

/-- The entry `dp[Li][Lo]` of the specification matrix, for `input` of length `Li`
and `output` of length `Lo`. -/
def specEditDistance (fold : Nat → Nat) (input output : List Nat) : Int :=
  specDp fold input output input.length output.length

/-! ## Collaborators and constants that `correction.cpp` includes -/

/-- Modelled from the spec: the three-valued classification returned by
`ProximityInfo::getMatchedProximityId` (declared in `proximity_info.h`, which is not
part of the source under study). -/
inductive ProximityType where
  | SAME_OR_ACCENTED_OR_CAPITALIZED_CHAR
  | NEAR_PROXIMITY_CHAR
  | UNRELATED_CHAR
  deriving DecidableEq, Repr

/-- Modelled from the spec: the proximity-info collaborator (`proximity_info.h` is not
part of the source under study), as the pure functions of section 3.1 of the
specification. `getPrimaryInputWord` is a pointer: the memory seen from the first
primary character. -/
structure ProximityInfo where
  getPrimaryCharAt : Int → Nat
  getPrimaryInputWord : Int → Nat
  getMatchedProximityId : Int → Nat → Bool → ProximityType
  existsAdjacentProximityChars : Int → Bool
  sameAsTyped : (Int → Nat) → Int → Bool

/-- Modelled from the spec: the tuning constants of `defines.h` (not part of the source
under study), taken as configuration as section 6.3 of the specification requires. -/
structure Defines where
  MIN_SUGGEST_DEPTH : Int
  WORDS_WITH_MISSING_CHARACTER_DEMOTION_RATE : Int
  WORDS_WITH_MISSING_CHARACTER_DEMOTION_START_POS_10X : Int
  WORDS_WITH_MISSING_SPACE_CHARACTER_DEMOTION_RATE : Int
  WORDS_WITH_EXCESSIVE_CHARACTER_DEMOTION_RATE : Int
  WORDS_WITH_EXCESSIVE_CHARACTER_OUT_OF_PROXIMITY_DEMOTION_RATE : Int
  WORDS_WITH_TRANSPOSED_CHARACTERS_DEMOTION_RATE : Int
  FULL_MATCHED_WORDS_PROMOTION_RATE : Int
  WORDS_WITH_PROXIMITY_CHARACTER_DEMOTION_RATE : Int
  WORDS_WITH_MATCH_SKIP_PROMOTION_RATE : Int
  WORDS_WITH_JUST_ONE_CORRECTION_PROMOTION_RATE : Int
  CORRECTION_COUNT_RATE_DEMOTION_RATE_BASE : Int

/-- Modelled from the spec: the classification `Correction::CorrectionType` returned per
trie edge (declared in `correction.h`, which is not part of the source under study),
with the five values of section 4.3 under the names `correction.cpp` uses. -/
inductive CorrectionType where
  | TRAVERSE_ALL_ON_TERMINAL
  | TRAVERSE_ALL_NOT_ON_TERMINAL
  | UNRELATED
  | ON_TERMINAL
  | NOT_ON_TERMINAL
  deriving DecidableEq, Repr

/-- Modelled from the spec: the per-depth frame `CorrectionState` (declared in
`correction_state.h`, which is not part of the source under study), with the fields
of section 3.2 of the specification under the names `correction.cpp` uses. -/
structure CorrectionState where
  mParentIndex : Int
  mSiblingPos : Int
  mChildCount : Int
  mInputIndex : Int
  mProximityCount : Int
  mTransposedCount : Int
  mExcessiveCount : Int
  mSkippedCount : Int
  mTransposedPos : Int
  mExcessivePos : Int
  mSkipPos : Int
  mNeedsToTraverseAllNodes : Bool
  mLastCharExceeded : Bool
  mMatching : Bool
  mProximityMatching : Bool
  mExceeding : Bool
  mTransposing : Bool
  mSkipping : Bool

/-- Modelled from the spec: the free function `latinime::initCorrectionState` of
`correction_state.h` (not part of the source under study), which seeds a frame with
the trie root, its child count and the completion mode; all counters are zero, no
correction position is set and no edge flag is raised. -/
def initCorrectionStateFrame (rootPos childCount : Int) (traverseAll : Bool) :
    CorrectionState :=
  { mParentIndex := -1
    mSiblingPos := rootPos
    mChildCount := childCount
    mInputIndex := 0
    mProximityCount := 0
    mTransposedCount := 0
    mExcessiveCount := 0
    mSkippedCount := 0
    mTransposedPos := -1
    mExcessivePos := -1
    mSkipPos := -1
    mNeedsToTraverseAllNodes := traverseAll
    mLastCharExceeded := false
    mMatching := false
    mProximityMatching := false
    mExceeding := false
    mTransposing := false
    mSkipping := false }

/-! ## The `Correction` object -/

/-- Modelled from the spec: class `Correction` is declared in `correction.h` (not part of
the source under study); these are the members `correction.cpp` reads and writes. The
arrays are memories indexed from their first cell: `mWord` the candidate buffer,
`mEditDistanceTable` the scratch matrix, `mCorrectionStates` the frame stack, which is
not bounded here. -/
structure Correction where
  TYPED_LETTER_MULTIPLIER : Int
  FULL_WORD_MULTIPLIER : Int
  mProximityInfo : ProximityInfo
  mInputLength : Int
  mMaxDepth : Int
  mMaxEditDistance : Int
  mSpaceProximityPos : Int
  mMissingSpacePos : Int
  mTerminalInputIndex : Int
  mTerminalOutputIndex : Int
  mWord : Int → Nat
  mEditDistanceTable : Int → Int
  mCorrectionStates : Int → CorrectionState
  mOutputIndex : Int
  mInputIndex : Int
  mNeedsToTraverseAllNodes : Bool
  mProximityCount : Int
  mTransposedCount : Int
  mExcessiveCount : Int
  mSkippedCount : Int
  mTransposedPos : Int
  mExcessivePos : Int
  mSkipPos : Int
  mLastCharExceeded : Bool
  mMatching : Bool
  mProximityMatching : Bool
  mExceeding : Bool
  mTransposing : Bool
  mSkipping : Bool

namespace Correction

/-- Source lines 34-37: `isQuote(c)`. -/
def isQuote (self : Correction) (c : Nat) : Bool :=
  let userTypedChar := self.mProximityInfo.getPrimaryCharAt self.mInputIndex
  decide (c = QUOTE) && decide (userTypedChar ≠ QUOTE)

/-- Source lines 47-53: `initCorrection(pi, inputLength, maxDepth)`. -/
def initCorrection (self : Correction) (pi : ProximityInfo) (inputLength maxDepth : Int) :
    Correction :=
  { self with
    mProximityInfo := pi
    mInputLength := inputLength
    mMaxDepth := maxDepth
    mMaxEditDistance := if inputLength < 5 then 2 else Int.tdiv inputLength 2 }

/-- Source lines 55-62: `initCorrectionState(rootPos, childCount, traverseAll)`: frame
`0` is seeded, then given the three correction positions of the session. -/
def initCorrectionState (self : Correction) (rootPos childCount : Int) (traverseAll : Bool) :
    Correction :=
  { self with
    mCorrectionStates := Function.update self.mCorrectionStates 0
      { initCorrectionStateFrame rootPos childCount traverseAll with
        mTransposedPos := self.mTransposedPos
        mExcessivePos := self.mExcessivePos
        mSkipPos := self.mSkipPos } }

/-- Source lines 64-77: `setCorrectionParams(skipPos, excessivePos, transposedPos,
spaceProximityPos, missingSpacePos)`. -/
def setCorrectionParams (self : Correction)
    (skipPos excessivePos transposedPos spaceProximityPos missingSpacePos : Int) : Correction :=
  { self with
    mTransposedPos := transposedPos
    mExcessivePos := excessivePos
    mSkipPos := skipPos
    mCorrectionStates := Function.update self.mCorrectionStates 0
      { self.mCorrectionStates 0 with
        mTransposedPos := transposedPos
        mExcessivePos := excessivePos
        mSkipPos := skipPos }
    mSpaceProximityPos := spaceProximityPos
    mMissingSpacePos := missingSpacePos }

/-- Source lines 79-88: the number `inputCount` that `checkState` counts. -/
def checkStateInputCount (self : Correction) : Nat :=
  (if self.mSkipPos ≥ 0 then 1 else 0) + (if self.mExcessivePos ≥ 0 then 1 else 0)
    + (if self.mTransposedPos ≥ 0 then 1 else 0)

/-- Source lines 79-88: `checkState()`; the result tells whether the debug assertion
`inputCount <= 1` holds. -/
def checkState (self : Correction) : Bool :=
  decide (self.checkStateInputCount ≤ 1)

/-- Source lines 107-133: `initProcessState(outputIndex)`; the boolean is the value
returned. -/
def initProcessState (self : Correction) (outputIndex : Int) : Bool × Correction :=
  if (self.mCorrectionStates outputIndex).mChildCount ≤ 0 then
    (false, self)
  else
    let frame := self.mCorrectionStates outputIndex
    (true,
      { self with
        mOutputIndex := outputIndex
        mCorrectionStates := Function.update self.mCorrectionStates outputIndex
          { frame with mChildCount := frame.mChildCount - 1 }
        mInputIndex := frame.mInputIndex
        mNeedsToTraverseAllNodes := frame.mNeedsToTraverseAllNodes
        mProximityCount := frame.mProximityCount
        mTransposedCount := frame.mTransposedCount
        mExcessiveCount := frame.mExcessiveCount
        mSkippedCount := frame.mSkippedCount
        mLastCharExceeded := frame.mLastCharExceeded
        mTransposedPos := frame.mTransposedPos
        mExcessivePos := frame.mExcessivePos
        mSkipPos := frame.mSkipPos
        mMatching := false
        mProximityMatching := false
        mTransposing := false
        mExceeding := false
        mSkipping := false })

/-- Source lines 135-141: `goDownTree(parentIndex, childCount, firstChildPos)`; the
integer is the value returned. -/
def goDownTree (self : Correction) (parentIndex childCount firstChildPos : Int) :
    Int × Correction :=
  (self.mOutputIndex,
    { self with
      mCorrectionStates := Function.update self.mCorrectionStates self.mOutputIndex
        { self.mCorrectionStates self.mOutputIndex with
          mParentIndex := parentIndex
          mChildCount := childCount
          mSiblingPos := firstChildPos } })

/-- Source lines 144-146. -/
def getOutputIndex (self : Correction) : Int := self.mOutputIndex

/-- Source lines 149-151. -/
def getInputIndex (self : Correction) : Int := self.mInputIndex

/-- Source lines 154-156. -/
def needsToTraverseAllNodes (self : Correction) : Bool := self.mNeedsToTraverseAllNodes

/-- Source lines 158-160. -/
def incrementInputIndex (self : Correction) : Correction :=
  { self with mInputIndex := self.mInputIndex + 1 }

/-- Modelled from the spec: `incrementProximityCount` is defined in `correction.h` (not
part of the source under study); the specification has `proximity_count += 1`. -/
def incrementProximityCount (self : Correction) : Correction :=
  { self with mProximityCount := self.mProximityCount + 1 }

/-- Modelled from the spec: the accessor `getExcessivePos` of `correction.h` (not part of
the source under study) yields the running `excessive_pos`. -/
def getExcessivePos (self : Correction) : Int := self.mExcessivePos

/-- Modelled from the spec: the accessor `getTransposedPos` of `correction.h` (not part
of the source under study) yields the running `transposed_pos`. -/
def getTransposedPos (self : Correction) : Int := self.mTransposedPos

/-- Source lines 162-186: `incrementOutputIndex()`: the new top frame takes the trie
cursor of the frame below and the working fields. -/
def incrementOutputIndex (self : Correction) : Correction :=
  let below := self.mCorrectionStates self.mOutputIndex
  { self with
    mOutputIndex := self.mOutputIndex + 1
    mCorrectionStates := Function.update self.mCorrectionStates (self.mOutputIndex + 1)
      { mParentIndex := below.mParentIndex
        mChildCount := below.mChildCount
        mSiblingPos := below.mSiblingPos
        mInputIndex := self.mInputIndex
        mNeedsToTraverseAllNodes := self.mNeedsToTraverseAllNodes
        mProximityCount := self.mProximityCount
        mTransposedCount := self.mTransposedCount
        mExcessiveCount := self.mExcessiveCount
        mSkippedCount := self.mSkippedCount
        mSkipPos := self.mSkipPos
        mTransposedPos := self.mTransposedPos
        mExcessivePos := self.mExcessivePos
        mLastCharExceeded := self.mLastCharExceeded
        mMatching := self.mMatching
        mProximityMatching := self.mProximityMatching
        mTransposing := self.mTransposing
        mExceeding := self.mExceeding
        mSkipping := self.mSkipping } }

/-- Source lines 188-190. -/
def startToTraverseAllNodes (self : Correction) : Correction :=
  { self with mNeedsToTraverseAllNodes := true }

/-- Source lines 192-195: `needsToPrune()`. -/
def needsToPrune (self : Correction) : Bool :=
  decide (self.mOutputIndex - 1 ≥
      (if self.mTransposedPos ≥ 0 then self.mInputLength - 1 else self.mMaxDepth))
    || decide (self.mProximityCount > self.mMaxEditDistance)

/-- Source lines 197-209: `processSkipChar(c, isTerminal)`. -/
def processSkipChar (self : Correction) (c : Int) (isTerminal : Bool) :
    CorrectionType × Correction :=
  let s1 := { self with mWord := Function.update self.mWord self.mOutputIndex (toUShort c) }
  if s1.needsToTraverseAllNodes && isTerminal then
    let s2 := { s1 with
      mTerminalInputIndex := s1.mInputIndex
      mTerminalOutputIndex := s1.mOutputIndex }
    (CorrectionType.TRAVERSE_ALL_ON_TERMINAL, s2.incrementOutputIndex)
  else
    (CorrectionType.TRAVERSE_ALL_NOT_ON_TERMINAL, s1.incrementOutputIndex)

/-- Source lines 215-222: the drift of `mExcessivePos` and the flag `mExceeding`. -/
def updateExcessive (self : Correction) : Correction :=
  if self.mExcessivePos ≥ 0 then
    let s1 :=
      if self.mExcessiveCount = 0 ∧ self.mExcessivePos < self.mOutputIndex then
        { self with mExcessivePos := self.mExcessivePos + 1 }
      else self
    if s1.mExcessivePos < s1.mInputLength - 1 then
      { s1 with mExceeding := decide (s1.mExcessivePos = s1.mInputIndex) }
    else s1
  else self

/-- Source lines 224-232: the drift of `mSkipPos` and the flag `mSkipping` (the debug
assertion is `skipDriftAssertion`). -/
def updateSkip (self : Correction) : Correction :=
  if self.mSkipPos ≥ 0 then
    let s1 :=
      if self.mSkippedCount = 0 ∧ self.mSkipPos < self.mOutputIndex then
        { self with mSkipPos := self.mSkipPos + 1 }
      else self
    { s1 with mSkipping := decide (s1.mSkipPos = s1.mOutputIndex) }
  else self

/-- Source lines 225-228: whether the debug assertion `mSkipPos == mOutputIndex - 1`
holds when the skip drift is applied (true when no drift is applied). -/
def skipDriftAssertion (self : Correction) : Bool :=
  if self.mSkipPos ≥ 0 ∧ self.mSkippedCount = 0 ∧ self.mSkipPos < self.mOutputIndex then
    decide (self.mSkipPos = self.mOutputIndex - 1)
  else true

/-- Source lines 234-241: the drift of `mTransposedPos` and the flag `mTransposing`. -/
def updateTransposed (self : Correction) : Correction :=
  if self.mTransposedPos ≥ 0 then
    let s1 :=
      if self.mTransposedCount = 0 ∧ self.mTransposedPos < self.mOutputIndex then
        { self with mTransposedPos := self.mTransposedPos + 1 }
      else self
    if s1.mTransposedPos < s1.mInputLength - 1 then
      { s1 with mTransposing := decide (s1.mInputIndex = s1.mTransposedPos) }
    else s1
  else self

/-- Source lines 307-339: the tail of `processCharAndCalcState` once the edge is taken
as a match: emit `c`, settle `mLastCharExceeded`, snapshot the terminal, switch to
completion mode, advance both indices. -/
def emitAndAdvance (self : Correction) (c : Int) (isTerminal : Bool) :
    CorrectionType × Correction :=
  let s1 := { self with mWord := Function.update self.mWord self.mOutputIndex (toUShort c) }
  let lastCharExceeded : Bool :=
    decide (s1.mExcessiveCount = 0) && decide (s1.mSkippedCount = 0)
      && decide (s1.mProximityCount = 0) && decide (s1.mTransposedCount = 0)
      && decide (s1.mExcessivePos ≥ 0) && decide (s1.mInputIndex = s1.mInputLength - 2)
  let s2 := { s1 with mLastCharExceeded := lastCharExceeded }
  let isSameAsUserTypedLength : Bool :=
    decide (s2.mInputLength = s2.mInputIndex + 1) || s2.mLastCharExceeded
  let s3 := if s2.mLastCharExceeded then
      { s2 with mExcessiveCount := s2.mExcessiveCount + 1 }
    else s2
  let s4 := if isSameAsUserTypedLength && isTerminal then
      { s3 with
        mTerminalInputIndex := s3.mInputIndex
        mTerminalOutputIndex := s3.mOutputIndex }
    else s3
  let currentStateType := if isSameAsUserTypedLength && isTerminal then
      CorrectionType.ON_TERMINAL
    else CorrectionType.NOT_ON_TERMINAL
  let s5 := if isSameAsUserTypedLength then s4.startToTraverseAllNodes else s4
  (currentStateType, s5.incrementInputIndex.incrementOutputIndex)

/-- Source lines 262-305: the primary proximity match and the dispatch on its result,
entered with the outcome `secondTransposing` of the second half of a transposition. -/
def matchAndDispatch (self : Correction) (c : Int) (isTerminal : Bool)
    (secondTransposing : Bool) : CorrectionType × Correction :=
  let pi := self.mProximityInfo
  let checkProximityChars : Bool :=
    !(decide (self.mSkippedCount > 0) || decide (self.mExcessivePos ≥ 0)
      || decide (self.mTransposedPos ≥ 0))
  let matchedProximityCharId :=
    pi.getMatchedProximityId self.mInputIndex (toUShort c) checkProximityChars
  if !secondTransposing && decide (ProximityType.UNRELATED_CHAR = matchedProximityCharId) then
    if decide (self.mInputIndex - 1 < self.mInputLength)
        && (self.mExceeding || self.mTransposing)
        && decide (pi.getMatchedProximityId (self.mInputIndex + 1) (toUShort c) false
            = ProximityType.SAME_OR_ACCENTED_OR_CAPITALIZED_CHAR) then
      if self.mTransposing then
        emitAndAdvance { self with mTransposedCount := self.mTransposedCount + 1 } c isTerminal
      else
        emitAndAdvance
          ({ self with mExcessiveCount := self.mExcessiveCount + 1 }).incrementInputIndex
          c isTerminal
    else if self.mSkipping && decide (self.mProximityCount = 0) then
      processSkipChar { self with mSkippedCount := self.mSkippedCount + 1 } c isTerminal
    else if checkProximityChars
        && decide (self.mInputIndex > 0)
        && (self.mCorrectionStates self.mOutputIndex).mProximityMatching
        && (self.mCorrectionStates self.mOutputIndex).mSkipping
        && decide (pi.getMatchedProximityId (self.mInputIndex - 1) (toUShort c) false
            = ProximityType.SAME_OR_ACCENTED_OR_CAPITALIZED_CHAR) then
      processSkipChar
        { self with
          mSkippedCount := self.mSkippedCount + 1
          mProximityCount := self.mProximityCount - 1 } c isTerminal
    else
      (CorrectionType.UNRELATED, self)
  else if secondTransposing
      || decide (ProximityType.SAME_OR_ACCENTED_OR_CAPITALIZED_CHAR = matchedProximityCharId) then
    emitAndAdvance { self with mMatching := true } c isTerminal
  else if decide (ProximityType.NEAR_PROXIMITY_CHAR = matchedProximityCharId) then
    emitAndAdvance ({ self with mProximityMatching := true }).incrementProximityCount c isTerminal
  else
    emitAndAdvance self c isTerminal

/-- Source lines 211-340: `processCharAndCalcState(c, isTerminal)`. The remainder
`mTransposedCount % 2` is the truncating one of C. -/
def processCharAndCalcState (self : Correction) (c : Int) (isTerminal : Bool) :
    CorrectionType × Correction :=
  let s := self.updateExcessive.updateSkip.updateTransposed
  if s.mNeedsToTraverseAllNodes || s.isQuote (toUShort c) then
    s.processSkipChar c isTerminal
  else
    if Int.tmod s.mTransposedCount 2 = 1 then
      if s.mProximityInfo.getMatchedProximityId (s.mInputIndex - 1) (toUShort c) false
          = ProximityType.SAME_OR_ACCENTED_OR_CAPITALIZED_CHAR then
        matchAndDispatch { s with mTransposedCount := s.mTransposedCount + 1 } c isTerminal true
      else if (s.mCorrectionStates s.mOutputIndex).mExceeding then
        matchAndDispatch
          ({ s with
            mTransposedCount := s.mTransposedCount - 1
            mExcessiveCount := s.mExcessiveCount + 1 }).incrementInputIndex
          c isTerminal false
      else
        (CorrectionType.UNRELATED, { s with mTransposedCount := s.mTransposedCount - 1 })
    else
      matchAndDispatch s c isTerminal false

end Correction

/-! ## Ranking algorithm (correction.cpp, lines 448-668) -/

namespace RankingAlgorithm

/-- Source lines 461-473: the three early returns of `calculateFinalFreq`. -/
def isRejected (correction : Correction) : Bool :=
  let excessivePos := correction.getExcessivePos
  let transposedPos := correction.getTransposedPos
  let inputLength := correction.mInputLength
  let skippedCount := correction.mSkippedCount
  let transposedCount := correction.mTransposedCount
  let excessiveCount := correction.mExcessiveCount
  (decide (skippedCount ≥ inputLength) || decide (inputLength = 0))
    || (decide (transposedPos ≥ 0) && decide (transposedCount = 0))
    || (decide (excessivePos ≥ 0) && decide (excessiveCount = 0))

/-- Source line 479: `matchCount`. -/
def matchCount (correction : Correction) : Int :=
  correction.mInputLength - correction.mProximityCount
    - (if correction.getExcessivePos ≥ 0 then 1 else 0)

/-- Source lines 484-485: `quoteDiffCount`. -/
def quoteDiffCount (outputIndex : Int) (correction : Correction) : Int :=
  max 0 (getQuoteCount correction.mWord (outputIndex + 1)
    - getQuoteCount correction.mProximityInfo.getPrimaryInputWord correction.mInputLength)

/-- Source lines 488-507: the pair `(matchWeight, adJustedProximityMatchedCount)`. -/
def matchWeightAndProximity (d : Defines) (toBaseLowerCase : Nat → Nat) (outputIndex : Int)
    (editDistanceTable : Int → Int) (correction : Correction) : Int × Int :=
  let excessivePos := correction.getExcessivePos
  let transposedPos := correction.getTransposedPos
  let inputLength := correction.mInputLength
  let typedLetterMultiplier := correction.TYPED_LETTER_MULTIPLIER
  let proximityMatchedCount := correction.mProximityCount
  let skipped : Bool := decide (correction.mSkippedCount > 0)
  if decide (excessivePos < 0) && decide (transposedPos < 0)
      && (decide (proximityMatchedCount > 0) || skipped) then
    let primaryInputWord := correction.mProximityInfo.getPrimaryInputWord
    let ed := editDistance toBaseLowerCase editDistanceTable primaryInputWord inputLength
      correction.mWord (outputIndex + 1)
    let matchWeight := powerIntCapped typedLetterMultiplier (wrap32 (outputIndex + 1 - ed))
    let matchWeight1 :=
      if ed = 1 ∧ inputLength = outputIndex then
        multiplyRate d.WORDS_WITH_JUST_ONE_CORRECTION_PROMOTION_RATE matchWeight
      else matchWeight
    let ed1 := max 0 (wrap32 (ed - quoteDiffCount outputIndex correction))
    (matchWeight1,
      min (max 0 (wrap32 (ed1 - (outputIndex + 1 - inputLength)))) proximityMatchedCount)
  else
    (powerIntCapped typedLetterMultiplier (matchCount correction), proximityMatchedCount)

/-- Source line 510: `int finalFreq = freq * matchWeight`, the value from which the
promotions and demotions start. -/
def initialFinalFreq (d : Defines) (toBaseLowerCase : Nat → Nat) (outputIndex freq : Int)
    (editDistanceTable : Int → Int) (correction : Correction) : Int :=
  wrap32 (freq *
    (matchWeightAndProximity d toBaseLowerCase outputIndex editDistanceTable correction).1)

/-- Source lines 542-549: the loop that promotes once per adjusted proximity match. -/
def proximityPromotionLoop (d : Defines) (typedLetterMultiplier : Int) : Nat → Int → Int
  | 0, finalFreq => finalFreq
  | count + 1, finalFreq =>
    proximityPromotionLoop d typedLetterMultiplier count
      (multiplyRate d.WORDS_WITH_PROXIMITY_CHARACTER_DEMOTION_RATE
        (multiplyIntCapped typedLetterMultiplier finalFreq))

/-- Source lines 512-596: the promotions and demotions applied, in the order of the
source, to the starting value `finalFreq`. -/
def promoteAndDemote (d : Defines) (inputIndex outputIndex : Int)
    (adJustedProximityMatchedCount : Int) (correction : Correction) (finalFreq : Int) : Int :=
  let excessivePos := correction.getExcessivePos
  let transposedPos := correction.getTransposedPos
  let inputLength := correction.mInputLength
  let typedLetterMultiplier := correction.TYPED_LETTER_MULTIPLIER
  let fullWordMultiplier := correction.FULL_WORD_MULTIPLIER
  let proximityInfo := correction.mProximityInfo
  let skippedCount := correction.mSkippedCount
  let proximityMatchedCount := correction.mProximityCount
  let lastCharExceeded := correction.mLastCharExceeded
  let sameLength : Bool :=
    if lastCharExceeded then decide (inputLength = inputIndex + 2)
    else decide (inputLength = inputIndex + 1)
  let matchCount := matchCount correction
  let word := correction.mWord
  let skipped : Bool := decide (skippedCount > 0)
  let f1 :=
    if skipped then
      let demotionRate := Int.tdiv
        (wrap32 (d.WORDS_WITH_MISSING_CHARACTER_DEMOTION_RATE
          * (10 * inputLength - d.WORDS_WITH_MISSING_CHARACTER_DEMOTION_START_POS_10X)))
        (10 * inputLength - d.WORDS_WITH_MISSING_CHARACTER_DEMOTION_START_POS_10X + 10)
      multiplyRate demotionRate finalFreq
    else finalFreq
  let f2 :=
    if transposedPos ≥ 0 then
      multiplyRate d.WORDS_WITH_TRANSPOSED_CHARACTERS_DEMOTION_RATE f1
    else f1
  let f3 :=
    if excessivePos ≥ 0 then
      let g := multiplyRate d.WORDS_WITH_EXCESSIVE_CHARACTER_DEMOTION_RATE f2
      if !proximityInfo.existsAdjacentProximityChars inputIndex then
        multiplyRate d.WORDS_WITH_EXCESSIVE_CHARACTER_OUT_OF_PROXIMITY_DEMOTION_RATE g
      else g
    else f2
  let f4 := proximityPromotionLoop d typedLetterMultiplier
    adJustedProximityMatchedCount.toNat f3
  let errorCount := proximityMatchedCount + skippedCount
  let f5 := multiplyRate
    (100 - Int.tdiv (d.CORRECTION_COUNT_RATE_DEMOTION_RATE_BASE * errorCount) inputLength) f4
  let f6 :=
    if matchCount = outputIndex + 1 then
      if sameLength && decide (transposedPos < 0) && !skipped && decide (excessivePos < 0) then
        capped255MultForFullMatchAccentsOrCapitalizationDifference f5
      else f5
    else f5
  let f7 :=
    if decide (proximityMatchedCount = 0) && decide (transposedPos < 0) && !skipped
        && decide (excessivePos < 0) then
      multiplyRate d.FULL_MATCHED_WORDS_PROMOTION_RATE f6
    else f6
  let f8 :=
    if decide (matchCount = inputLength) && decide (matchCount ≥ 2) && !skipped
        && decide (word matchCount = word (matchCount - 1)) then
      multiplyRate d.WORDS_WITH_MATCH_SKIP_PROMOTION_RATE f7
    else f7
  if sameLength then multiplyIntCapped fullWordMultiplier f8 else f8

/-- Source lines 448-597: `calculateFinalFreq(inputIndex, outputIndex, freq,
editDistanceTable, correction)`. The kernel reads, of the cells of the table at
non-negative indices, only those it has written in the same call, so the table is
not threaded from one call to the next. -/
def calculateFinalFreq (d : Defines) (toBaseLowerCase : Nat → Nat)
    (inputIndex outputIndex freq : Int) (editDistanceTable : Int → Int)
    (correction : Correction) : Int :=
  if isRejected correction then -1
  else
    promoteAndDemote d inputIndex outputIndex
      (matchWeightAndProximity d toBaseLowerCase outputIndex editDistanceTable correction).2
      correction
      (initialFinalFreq d toBaseLowerCase outputIndex freq editDistanceTable correction)

/-- Source lines 600-668: `calcFreqForSplitTwoWords(firstFreq, secondFreq, correction)`. -/
def calcFreqForSplitTwoWords (d : Defines) (firstFreq secondFreq : Int)
    (correction : Correction) : Int :=
  let spaceProximityPos := correction.mSpaceProximityPos
  let missingSpacePos := correction.mMissingSpacePos
  let isSpaceProximity : Bool := decide (spaceProximityPos ≥ 0)
  let inputLength := correction.mInputLength
  let firstWordLength := if isSpaceProximity then spaceProximityPos else missingSpacePos
  let secondWordLength :=
    if isSpaceProximity then inputLength - spaceProximityPos - 1
    else inputLength - missingSpacePos
  let typedLetterMultiplier := correction.TYPED_LETTER_MULTIPLIER
  if firstWordLength = 0 ∨ secondWordLength = 0 then 0
  else
    let firstDemotionRate := 100 - Int.tdiv 100 (firstWordLength + 1)
    let tempFirstFreq := multiplyRate firstDemotionRate firstFreq
    let secondDemotionRate := 100 - Int.tdiv 100 (secondWordLength + 1)
    let tempSecondFreq := multiplyRate secondDemotionRate secondFreq
    let totalLength := firstWordLength + secondWordLength
    let totalFreq := wrap32 (tempFirstFreq + tempSecondFreq)
    let normalizedScoreNotEnoughDemotionAdjustment :=
      100 - Int.tdiv 100 (totalLength * totalLength)
    let totalFreq1 := multiplyRate normalizedScoreNotEnoughDemotionAdjustment totalFreq
    let totalFreq2 :=
      multiplyIntCapped (powerIntCapped typedLetterMultiplier totalLength) totalFreq1
    let normalizedScoreDemotionRateOffset := 100 + Int.tdiv 100 totalLength
    let totalFreq3 := multiplyRate normalizedScoreDemotionRateOffset totalFreq2
    let totalFreq4 :=
      if isSpaceProximity then
        multiplyRate d.WORDS_WITH_PROXIMITY_CHARACTER_DEMOTION_RATE
          (multiplyIntCapped typedLetterMultiplier totalFreq3)
      else totalFreq3
    multiplyRate d.WORDS_WITH_MISSING_SPACE_CHARACTER_DEMOTION_RATE totalFreq4

end RankingAlgorithm

namespace Correction

/-- What `getFinalFreq` hands back: the value returned and the two output parameters.
A candidate reference is `none` for a null pointer and `some buffer` for a pointer to
a word buffer. -/
structure FinalFreqResult where
  freq : Int
  word : Option (Int → Nat)
  wordLength : Int

/-- Source lines 90-92: `getFreqForSplitTwoWords(firstFreq, secondFreq)`. -/
def getFreqForSplitTwoWords (self : Correction) (d : Defines) (firstFreq secondFreq : Int) :
    Int :=
  RankingAlgorithm.calcFreqForSplitTwoWords d firstFreq secondFreq self

/-- Source lines 94-105: `getFinalFreq(freq, word, wordLength)`. The argument `word` is
what the caller's `*word` holds on entry; it is overwritten only on the path that
reaches `calculateFinalFreq`. -/
def getFinalFreq (self : Correction) (d : Defines) (toBaseLowerCase : Nat → Nat)
    (freq : Int) (word : Option (Int → Nat)) : FinalFreqResult :=
  let outputIndex := self.mTerminalOutputIndex
  let inputIndex := self.mTerminalInputIndex
  if self.mProximityInfo.sameAsTyped self.mWord (outputIndex + 1)
      || decide (outputIndex < d.MIN_SUGGEST_DEPTH) then
    { freq := -1, word := word, wordLength := outputIndex + 1 }
  else
    { freq := RankingAlgorithm.calculateFinalFreq d toBaseLowerCase inputIndex outputIndex freq
        self.mEditDistanceTable self
      word := some self.mWord
      wordLength := outputIndex + 1 }

end Correction

/-! ## Predicates and sample data used by the theorems -/

/-- A cell holds a 32-bit `int`. -/
def IsInt32 (x : Int) : Prop := S_INT_MIN ≤ x ∧ x ≤ S_INT_MAX

instance (x : Int) : Decidable (IsInt32 x) := by
  unfold IsInt32; infer_instance

/-- The state of the edit-distance table before the loop body runs at `(i, j)`: every
cell holds at least `S_INT_MIN`, and every cell `(a, b)` of the matrix that has been
filled so far (row `0`, column `0`, the rows up to `i`, and row `i + 1` up to column
`j`) holds at most `max a b`. -/
def EdBounded (Li Lo : Nat) (t : Int → Int) (i j : Nat) : Prop :=
  (∀ k, S_INT_MIN ≤ t k) ∧
  ∀ a b : Nat, a ≤ Li → b ≤ Lo → (a = 0 ∨ b = 0 ∨ a ≤ i ∨ (a = i + 1 ∧ b ≤ j)) →
    t ((a : Int) * ((Lo : Int) + 1) + (b : Int)) ≤ max (a : Int) (b : Int)

/-- At most one of the session's three correction positions is non-negative. -/
def SingleCorrection (s : Correction) : Prop :=
  ¬(0 ≤ s.mSkipPos ∧ 0 ≤ s.mExcessivePos) ∧ ¬(0 ≤ s.mSkipPos ∧ 0 ≤ s.mTransposedPos)
    ∧ ¬(0 ≤ s.mExcessivePos ∧ 0 ≤ s.mTransposedPos)

instance (s : Correction) : Decidable (SingleCorrection s) := by
  unfold SingleCorrection; infer_instance

/-- The four counters stored in a frame are non-negative. -/
def FrameCountersNonneg (f : CorrectionState) : Prop :=
  0 ≤ f.mProximityCount ∧ 0 ≤ f.mTransposedCount ∧ 0 ≤ f.mExcessiveCount
    ∧ 0 ≤ f.mSkippedCount

instance (f : CorrectionState) : Decidable (FrameCountersNonneg f) := by
  unfold FrameCountersNonneg; infer_instance

/-- The four counters are non-negative, the working ones and those of every frame. -/
def CountersNonneg (s : Correction) : Prop :=
  (0 ≤ s.mProximityCount ∧ 0 ≤ s.mTransposedCount ∧ 0 ≤ s.mExcessiveCount
    ∧ 0 ≤ s.mSkippedCount)
  ∧ ∀ depth, FrameCountersNonneg (s.mCorrectionStates depth)

/-- A frame whose counters are non-negative and whose `mProximityMatching` flag, when
nothing has been skipped, is backed by a counted proximity match. -/
def FrameSound (f : CorrectionState) : Prop :=
  FrameCountersNonneg f
    ∧ (f.mProximityMatching = true → f.mSkippedCount = 0 → 1 ≤ f.mProximityCount)

/-- The working fields and every frame are sound in the sense of `FrameSound`. -/
def StateSound (s : Correction) : Prop :=
  (0 ≤ s.mProximityCount ∧ 0 ≤ s.mTransposedCount ∧ 0 ≤ s.mExcessiveCount
    ∧ 0 ≤ s.mSkippedCount)
  ∧ (s.mProximityMatching = true → s.mSkippedCount = 0 → 1 ≤ s.mProximityCount)
  ∧ ∀ depth, FrameSound (s.mCorrectionStates depth)

/-- The invariant of the traversal: `StateSound`, and the `mProximityMatching` flag of
the frame at the working output index is backed by the working proximity count. -/
def CountersSound (s : Correction) : Prop :=
  StateSound s
  ∧ ((s.mCorrectionStates s.mOutputIndex).mProximityMatching = true →
      s.mSkippedCount = 0 → 1 ≤ s.mProximityCount)

/-- One call of the trie walker on the traversal state. -/
inductive DriverStep : Correction → Correction → Prop where
  | initProcessState (s : Correction) (outputIndex : Int) :
      DriverStep s (s.initProcessState outputIndex).2
  | processCharAndCalcState (s : Correction) (c : Int) (isTerminal : Bool) :
      DriverStep s (s.processCharAndCalcState c isTerminal).2
  | goDownTree (s : Correction) (parentIndex childCount firstChildPos : Int) :
      DriverStep s (s.goDownTree parentIndex childCount firstChildPos).2

/-- The states reached from `start` by any sequence of `initProcessState`,
`processCharAndCalcState` and `goDownTree` calls. -/
inductive ReachableFrom (start : Correction) : Correction → Prop where
  | start : ReachableFrom start start
  | step {s t : Correction} : ReachableFrom start s → DriverStep s t → ReachableFrom start t

/-- A proximity oracle for the typed word `typed`: a candidate character is the same
as the tap when equal to its primary character and unrelated otherwise; no tap has a
near neighbour; a candidate is the same as typed when it has the length of `typed`
and its characters. -/
def exactProximityInfo (typed : List Nat) : ProximityInfo :=
  { getPrimaryCharAt := fun i => bufferAt 0 typed i
    getPrimaryInputWord := bufferAt 0 typed
    getMatchedProximityId := fun i c _ =>
      if bufferAt 0 typed i = c then ProximityType.SAME_OR_ACCENTED_OR_CAPITALIZED_CHAR
      else ProximityType.UNRELATED_CHAR
    existsAdjacentProximityChars := fun _ => false
    sameAsTyped := fun word length =>
      decide (length = (typed.length : Int))
        && (List.range typed.length).all (fun k => decide (word (k : Int) = typed.getD k 0)) }

/-- A configuration of the tuning constants for the examples. -/
def sampleDefines : Defines :=
  { MIN_SUGGEST_DEPTH := 1
    WORDS_WITH_MISSING_CHARACTER_DEMOTION_RATE := 80
    WORDS_WITH_MISSING_CHARACTER_DEMOTION_START_POS_10X := 12
    WORDS_WITH_MISSING_SPACE_CHARACTER_DEMOTION_RATE := 67
    WORDS_WITH_EXCESSIVE_CHARACTER_DEMOTION_RATE := 75
    WORDS_WITH_EXCESSIVE_CHARACTER_OUT_OF_PROXIMITY_DEMOTION_RATE := 75
    WORDS_WITH_TRANSPOSED_CHARACTERS_DEMOTION_RATE := 60
    FULL_MATCHED_WORDS_PROMOTION_RATE := 120
    WORDS_WITH_PROXIMITY_CHARACTER_DEMOTION_RATE := 90
    WORDS_WITH_MATCH_SKIP_PROMOTION_RATE := 105
    WORDS_WITH_JUST_ONE_CORRECTION_PROMOTION_RATE := 160
    CORRECTION_COUNT_RATE_DEMOTION_RATE_BASE := 45 }

/-- A frame with every counter zero, no position set and no flag raised. -/
def zeroFrame : CorrectionState := initCorrectionStateFrame 0 0 false

/-- A `Correction` object for the typed word `typed` with both multipliers `2`, the
session set up as by `initCorrection` with depth bound `maxDepth`, no correction
position set, zeroed counters, flags, buffers and frames. -/
def zeroCorrection (typed : List Nat) (maxDepth : Int) : Correction :=
  { TYPED_LETTER_MULTIPLIER := 2
    FULL_WORD_MULTIPLIER := 2
    mProximityInfo := exactProximityInfo typed
    mInputLength := typed.length
    mMaxDepth := maxDepth
    mMaxEditDistance := if (typed.length : Int) < 5 then 2 else Int.tdiv typed.length 2
    mSpaceProximityPos := -1
    mMissingSpacePos := -1
    mTerminalInputIndex := 0
    mTerminalOutputIndex := 0
    mWord := fun _ => 0
    mEditDistanceTable := fun _ => 0
    mCorrectionStates := fun _ => zeroFrame
    mOutputIndex := 0
    mInputIndex := 0
    mNeedsToTraverseAllNodes := false
    mProximityCount := 0
    mTransposedCount := 0
    mExcessiveCount := 0
    mSkippedCount := 0
    mTransposedPos := -1
    mExcessivePos := -1
    mSkipPos := -1
    mLastCharExceeded := false
    mMatching := false
    mProximityMatching := false
    mExceeding := false
    mTransposing := false
    mSkipping := false }

/-- The scoring state at the terminal of a 25-letter candidate that matches the 25
typed letters up to capitalisation: no correction, all counters zero. -/
def longWordState : Correction :=
  { zeroCorrection (List.replicate 25 97) 48 with
    mTerminalInputIndex := 24
    mTerminalOutputIndex := 24
    mInputIndex := 25
    mOutputIndex := 25
    mNeedsToTraverseAllNodes := true
    mMatching := true
    mWord := bufferAt 0 (List.replicate 25 65) }

/-- A scoring state for the typed word "hte" in a session that hints a transposition
at position 0 which the candidate "hta" has not used. -/
def unusedTranspositionState : Correction :=
  { zeroCorrection [104, 116, 101] 48 with
    mTransposedPos := 0
    mTerminalInputIndex := 2
    mTerminalOutputIndex := 2
    mInputIndex := 3
    mOutputIndex := 3
    mNeedsToTraverseAllNodes := true
    mWord := bufferAt 0 [104, 116, 97] }

/-- A `Correction` object for the typed word "ab" as the constructor, which sets the two
multipliers only, may leave it: all counters are zero, and the memory of frame `1`,
which `initCorrectionState` does not write, holds a child count of `1`, the input
index `1` and the flags `mProximityMatching` and `mSkipping` raised. -/
def unwrittenFrameState : Correction :=
  { zeroCorrection [97, 98] 48 with
    mCorrectionStates := fun depth =>
      if depth = 1 then
        { zeroFrame with
          mChildCount := 1
          mInputIndex := 1
          mProximityMatching := true
          mSkipping := true }
      else zeroFrame }

/-- The state `initCorrectionState(0, 1, false)` makes of `unwrittenFrameState`. -/
def unwrittenFrameStart : Correction := unwrittenFrameState.initCorrectionState 0 1 false

/-- The state of the edit-distance table before the loop body runs at `(i, j)`, for
buffers holding `input` and `output`: every cell of the matrix that has been filled so
far holds the entry of the specification matrix. -/
def EdExact (fold : Nat → Nat) (input output : List Nat) (t : Int → Int) (i j : Nat) : Prop :=
  ∀ a b : Nat, a ≤ input.length → b ≤ output.length →
    (a = 0 ∨ b = 0 ∨ a ≤ i ∨ (a = i + 1 ∧ b ≤ j)) →
    t ((a : Int) * ((output.length : Int) + 1) + (b : Int)) = specDp fold input output a b

/-! ## Further predicates and sample data -/

/-- A proximity oracle for the typed word `typed` on a keyboard where `near a b` tells
that the key `b` is a neighbour of the key `a`: a candidate character is the same as
the tap when equal to its primary character, near when proximity is checked and it
is a neighbour of the primary character, and unrelated otherwise. -/
def keyboardProximityInfo (typed : List Nat) (near : Nat → Nat → Bool) : ProximityInfo :=
  { exactProximityInfo typed with
    getMatchedProximityId := fun i c checkProximityChars =>
      if bufferAt 0 typed i = c then ProximityType.SAME_OR_ACCENTED_OR_CAPITALIZED_CHAR
      else if checkProximityChars && near (bufferAt 0 typed i) c then
        ProximityType.NEAR_PROXIMITY_CHAR
      else ProximityType.UNRELATED_CHAR }

/-- The session for the typed word "st" with `skip_pos = 0` on a keyboard where 'a' is
a neighbour of 's', as `initCorrection`, `setCorrectionParams` and
`initCorrectionState(0, 1, false)` leave a zeroed object. -/
def reclassifyStart : Correction :=
  (((zeroCorrection [115, 116] 48).initCorrection
      (keyboardProximityInfo [115, 116] (fun a b => decide (a = 115) && decide (b = 97))) 2 48
    ).setCorrectionParams 0 (-1) (-1) (-1) (-1)).initCorrectionState 0 1 false

/-- The state of the session `reclassifyStart` before the second edge of the candidate
"as...": the edge 'a' has been taken as a proximity match of the tap 's', the walker
has descended and loaded frame `1`. -/
def reclassifyBefore : Correction :=
  ((((reclassifyStart.initProcessState 0).2.processCharAndCalcState 97 false).2.goDownTree
    0 1 0).2.initProcessState 1).2

/-- What one per-edge call may do to the counters: `excessive_count` and
`skipped_count` do not decrease, `proximity_count` decreases by at most one and only
together with an increase of `skipped_count`, `transposed_count` decreases by at most
one. -/
def CountersStep (before after : Correction) : Prop :=
  before.mExcessiveCount ≤ after.mExcessiveCount
    ∧ before.mSkippedCount ≤ after.mSkippedCount
    ∧ before.mProximityCount + before.mSkippedCount
      ≤ after.mProximityCount + after.mSkippedCount
    ∧ before.mProximityCount - 1 ≤ after.mProximityCount
    ∧ before.mTransposedCount - 1 ≤ after.mTransposedCount

/-- A session with an empty typed word (`L = 0`), `TYPED_LETTER_MULTIPLIER = 3`,
`space_proximity_pos = 1` and `missing_space_pos = -1`. -/
def emptyInputSplitState : Correction :=
  { zeroCorrection [] 48 with
    TYPED_LETTER_MULTIPLIER := 3
    mSpaceProximityPos := 1 }

/-- The state in which the traversal of a session starts: `initCorrection`,
`setCorrectionParams` and `initCorrectionState` applied, in this order, to `object`. -/
def sessionStart (object : Correction) (pi : ProximityInfo) (inputLength maxDepth : Int)
    (skipPos excessivePos transposedPos spaceProximityPos missingSpacePos : Int)
    (rootPos childCount : Int) (traverseAll : Bool) : Correction :=
  ((object.initCorrection pi inputLength maxDepth).setCorrectionParams skipPos excessivePos
    transposedPos spaceProximityPos missingSpacePos).initCorrectionState rootPos childCount
    traverseAll

/-- The driver protocol of the trie walker from the state `start` of a session. The
second index is the deepest frame the session has written so far (`initCorrectionState`
writes frame `0`, every edge taken writes the frame above the current one), the third
tells whether a frame has been loaded. `initProcessState(d)` is called on a frame the
session has written; `processCharAndCalcState` and `goDownTree` are called once a
frame has been loaded. -/
inductive DriverProtocol (start : Correction) : Correction → Int → Bool → Prop where
  | start : DriverProtocol start start 0 false
  | initProcessState {s : Correction} {top : Int} {loaded : Bool} (outputIndex : Int) :
      DriverProtocol start s top loaded → 0 ≤ outputIndex → outputIndex ≤ top →
      DriverProtocol start (s.initProcessState outputIndex).2 top
        (loaded || (s.initProcessState outputIndex).1)
  | processCharAndCalcState {s : Correction} {top : Int} (c : Int) (isTerminal : Bool) :
      DriverProtocol start s top true →
      DriverProtocol start (s.processCharAndCalcState c isTerminal).2
        (max top (s.processCharAndCalcState c isTerminal).2.mOutputIndex) true
  | goDownTree {s : Correction} {top : Int} (parentIndex childCount firstChildPos : Int) :
      DriverProtocol start s top true →
      DriverProtocol start (s.goDownTree parentIndex childCount firstChildPos).2 top true

/-- A frame at depth `d` in which at most one character has been skipped, and in which a
skip or a raised `mSkipping` flag comes with a skip position below `d`. -/
def SkipFrameSound (d : Int) (f : CorrectionState) : Prop :=
  0 ≤ f.mSkippedCount ∧ f.mSkippedCount ≤ 1
    ∧ (f.mSkippedCount = 1 → f.mSkipPos < d)
    ∧ (f.mSkipping = true → f.mSkipPos < d)

/-- Every frame the session has written is sound in the sense of `SkipFrameSound`. -/
def SkipFramesSound (top : Int) (s : Correction) : Prop :=
  ∀ d, 0 ≤ d → d ≤ top → SkipFrameSound d (s.mCorrectionStates d)

/-- The working fields between two calls of the walker, once a frame has been loaded. -/
def SkipWorkingSound (top : Int) (s : Correction) : Prop :=
  0 ≤ s.mOutputIndex ∧ s.mOutputIndex ≤ top
    ∧ 0 ≤ s.mSkippedCount ∧ s.mSkippedCount ≤ 1
    ∧ (s.mSkippedCount = 1 → s.mSkipPos < s.mOutputIndex)
    ∧ (s.mSkipPos < 0 → s.mSkipping = false)
    ∧ ((s.mCorrectionStates s.mOutputIndex).mSkipping = true → s.mSkipPos ≤ s.mOutputIndex)

/-- The working fields inside `processCharAndCalcState`, after the positional drift. -/
def SkipDrifted (top : Int) (s : Correction) : Prop :=
  0 ≤ s.mOutputIndex ∧ s.mOutputIndex ≤ top
    ∧ 0 ≤ s.mSkippedCount ∧ s.mSkippedCount ≤ 1
    ∧ (s.mSkippedCount = 1 → s.mSkipPos < s.mOutputIndex ∧ s.mSkipping = false)
    ∧ (s.mSkipPos < 0 → s.mSkipping = false)
    ∧ (s.mSkipping = true → s.mSkipPos = s.mOutputIndex)
    ∧ ((s.mCorrectionStates s.mOutputIndex).mSkipping = true → s.mSkipPos ≤ s.mOutputIndex)

/-- The working fields right before `incrementOutputIndex` pushes a frame. -/
def SkipPushable (top : Int) (s : Correction) : Prop :=
  0 ≤ s.mOutputIndex ∧ s.mOutputIndex ≤ top
    ∧ 0 ≤ s.mSkippedCount ∧ s.mSkippedCount ≤ 1
    ∧ (s.mSkippedCount = 1 → s.mSkipPos ≤ s.mOutputIndex)
    ∧ (s.mSkipPos < 0 → s.mSkipping = false)
    ∧ (s.mSkipping = true → s.mSkipPos = s.mOutputIndex)

/-- The invariant of the driver protocol for the skip bookkeeping. -/
def SkipSound (s : Correction) (top : Int) (loaded : Bool) : Prop :=
  0 ≤ top ∧ SkipFramesSound top s ∧ (loaded = true → SkipWorkingSound top s)

/-- An object whose working `skipped_count`, left as it was by `initCorrectionState`,
is `5`: the session for the typed word "a" (`L = 1`) before any frame is loaded. -/
def unloadedStart : Correction :=
  sessionStart ({ zeroCorrection [97] 48 with mSkippedCount := 5 } : Correction)
    (exactProximityInfo [97]) 1 48 0 (-1) (-1) (-1) (-1) 0 1 false

/-- The session for the typed word "ac" (`L = 2`) with `skip_pos = 1` and no other
correction position. -/
def skipSessionStart : Correction :=
  sessionStart (zeroCorrection [97, 99] 48) (exactProximityInfo [97, 99]) 2 48 1 (-1) (-1)
    (-1) (-1) 0 1 false

/-- The state of `skipSessionStart` after the edges `a` and `b`: the second edge is
taken as a skipped character. -/
def skipSessionState : Correction :=
  (((((skipSessionStart.initProcessState 0).2.processCharAndCalcState 97 false).2.goDownTree
    0 1 0).2.initProcessState 1).2.processCharAndCalcState 98 false).2

/-- Modelled from the spec: the driver (`unigram_dictionary.cpp`, not part of the
source under study) walks a path of the trie edge by edge: `initProcessState` at the
current depth, `processCharAndCalcState` on the edge and, unless the edge is
`UNRELATED` or the node has no child, `goDownTree` with the depth of the parent.
`walkPath s depth edges` is the list of the state types returned together with the
state after the last edge processed; every node of the path but the last has one
child. -/
def walkPath (s : Correction) (depth : Int) :
    List (Int × Bool) → List CorrectionType × Correction
  | [] => ([], s)
  | edge :: rest =>
    let r := (s.initProcessState depth).2.processCharAndCalcState edge.1 edge.2
    if r.1 = CorrectionType.UNRELATED then ([r.1], r.2)
    else
      match rest with
      | [] => ([r.1], r.2)
      | next :: more =>
        let k := walkPath (r.2.goDownTree depth 1 0).2 r.2.mOutputIndex (next :: more)
        (r.1 :: k.1, k.2)

/-- The session for the typed word "hte" (`L = 3`) with `transposed_pos = 0`, no other
correction position and the exact-match proximity oracle, on a zeroed object whose
multipliers are both `2`. -/
def transpositionStart : Correction :=
  sessionStart (zeroCorrection [104, 116, 101] 48) (exactProximityInfo [104, 116, 101]) 3 48
    (-1) (-1) 0 (-1) (-1) 0 1 false

/-- The candidate "the" walked from `transpositionStart`. -/
def transpositionWalk : List CorrectionType × Correction :=
  walkPath transpositionStart 0 [(116, false), (104, false), (101, true)]

/-- The exact-match proximity oracle for `typed` with the adjacency answers `adjacent`. -/
def adjacencyProximityInfo (typed : List Nat) (adjacent : Int → Bool) : ProximityInfo :=
  { exactProximityInfo typed with existsAdjacentProximityChars := adjacent }

/-- The session for the typed word "woord" (`L = 5`) with `excessive_pos = 1` and no
other correction position, on a zeroed object whose multipliers are both `2`; the
oracle answers `a1` for `exists_adjacent_proximity_chars(1)`, `a4` for index `4` and
`false` elsewhere. -/
def excessiveStart (a1 a4 : Bool) : Correction :=
  sessionStart (zeroCorrection [119, 111, 111, 114, 100] 48)
    (adjacencyProximityInfo [119, 111, 111, 114, 100]
      (fun i => if i = 1 then a1 else if i = 4 then a4 else false))
    5 48 (-1) 1 (-1) (-1) (-1) 0 1 false

/-- The candidate "word" walked from `excessiveStart`. -/
def excessiveWalk (a1 a4 : Bool) : List CorrectionType × Correction :=
  walkPath (excessiveStart a1 a4) 0 [(119, false), (111, false), (114, false), (100, true)]

/-- The session for the typed word "shel" (`L = 4`) with the skip position `skipPos`,
no other correction position and the exact-match proximity oracle, on a zeroed
object whose multipliers are both `2`. -/
def missingCharStart (skipPos : Int) : Correction :=
  sessionStart (zeroCorrection [115, 104, 101, 108] 48) (exactProximityInfo [115, 104, 101, 108])
    4 48 skipPos (-1) (-1) (-1) (-1) 0 1 false

/-- The candidate "shell" walked from `missingCharStart`. -/
def missingCharWalk (skipPos : Int) : List CorrectionType × Correction :=
  walkPath (missingCharStart skipPos) 0
    [(115, false), (104, false), (101, false), (108, false), (108, true)]

/-! ## The split formula in the words of the specification -/

/-- Source lines 612-615: the length of the first word of a split, `firstWordLength`. -/
def RankingAlgorithm.firstWordLength (correction : Correction) : Int :=
  if correction.mSpaceProximityPos ≥ 0 then correction.mSpaceProximityPos
  else correction.mMissingSpacePos

/-- Source lines 612-615: the length of the second word of a split, `secondWordLength`. -/
def RankingAlgorithm.secondWordLength (correction : Correction) : Int :=
  if correction.mSpaceProximityPos ≥ 0 then
    correction.mInputLength - correction.mSpaceProximityPos - 1
  else correction.mInputLength - correction.mMissingSpacePos

/-- A read that `editDistance` performs: the array and the index. -/
inductive EdRead where
  | input (index : Int)
  | output (index : Int)
  | table (index : Int)
  deriving DecidableEq, Repr

/-- Source lines 418-428: the reads of the body of the inner loop at `(i, j)`, in the
order of evaluation. The operands of `&&` are evaluated from left to right and only as
far as needed: `output[j - 1]` is read once `li > 0 && lo > 0` holds, `input[i - 1]`
once the first comparison holds, and the two cells of the table once both hold. -/
def editDistanceCellReads (toBaseLowerCase : Nat → Nat) (input output : Int → Nat)
    (li lo i j : Int) : List EdRead :=
  let ci := toBaseLowerCase (input i)
  let co := toBaseLowerCase (output j)
  [EdRead.input i, EdRead.output j, EdRead.table (i * lo + (j + 1)),
    EdRead.table ((i + 1) * lo + j), EdRead.table (i * lo + j)]
  ++ (if li > 0 ∧ lo > 0 then
        EdRead.output (j - 1) ::
          (if ci = toBaseLowerCase (output (j - 1)) then
            EdRead.input (i - 1) ::
              (if co = toBaseLowerCase (input (i - 1)) then
                [EdRead.table ((i + 1) * lo + (j + 1)), EdRead.table ((i - 1) * lo + (j - 1))]
              else [])
          else [])
      else [])

/-- Source lines 402-441: the reads of `editDistance`, in order: those of the double
loop (the two initialising loops only write) and the read of `dp[li * lo - 1]`. -/
def editDistanceReads (toBaseLowerCase : Nat → Nat) (input : Int → Nat) (inputLength : Int)
    (output : Int → Nat) (outputLength : Int) : List EdRead :=
  let li := inputLength + 1
  let lo := outputLength + 1
  ((List.range (li - 1).toNat).flatMap (fun (i : Nat) =>
      (List.range (lo - 1).toNat).flatMap (fun (j : Nat) =>
        editDistanceCellReads toBaseLowerCase input output li lo (i : Int) (j : Int))))
  ++ [EdRead.table (li * lo - 1)]

/-- A read within the bounds of its array, for an input of `inputLength` code units, an
output of `outputLength` code units and a table of `(inputLength + 1) * (outputLength +
1)` cells. -/
def EdRead.InBounds (inputLength outputLength : Int) : EdRead → Prop
  | EdRead.input k => 0 ≤ k ∧ k < inputLength
  | EdRead.output k => 0 ≤ k ∧ k < outputLength
  | EdRead.table k => 0 ≤ k ∧ k < (inputLength + 1) * (outputLength + 1)

instance (inputLength outputLength : Int) (r : EdRead) :
    Decidable (EdRead.InBounds inputLength outputLength r) := by
  cases r <;> unfold EdRead.InBounds <;> infer_instance

/-! ## The skip drift under the driver protocol -/

/-- A frame at depth `d` whose skip position, while nothing has been skipped, is not
more than one behind `d`. -/
def DriftFrameSound (d : Int) (f : CorrectionState) : Prop :=
  0 ≤ f.mSkippedCount ∧ (f.mSkippedCount = 0 → 0 ≤ f.mSkipPos → d - 1 ≤ f.mSkipPos)

/-- Every frame the session has written is sound in the sense of `DriftFrameSound`. -/
def DriftFramesSound (top : Int) (s : Correction) : Prop :=
  ∀ d, 0 ≤ d → d ≤ top → DriftFrameSound d (s.mCorrectionStates d)

/-- The working fields between two calls of the walker, once a frame has been loaded:
while nothing has been skipped the skip position is not more than one behind the
output index. -/
def DriftWorkingSound (top : Int) (s : Correction) : Prop :=
  0 ≤ s.mOutputIndex ∧ s.mOutputIndex ≤ top ∧ 0 ≤ s.mSkippedCount
    ∧ (s.mSkippedCount = 0 → 0 ≤ s.mSkipPos → s.mOutputIndex - 1 ≤ s.mSkipPos)

/-- The working fields inside `processCharAndCalcState`, after the skip drift: while
nothing has been skipped the skip position is not behind the output index. -/
def DriftDone (top : Int) (s : Correction) : Prop :=
  0 ≤ s.mOutputIndex ∧ s.mOutputIndex ≤ top ∧ 0 ≤ s.mSkippedCount
    ∧ (s.mSkippedCount = 0 → 0 ≤ s.mSkipPos → s.mOutputIndex ≤ s.mSkipPos)

/-- The invariant of the driver protocol for the skip drift. -/
def DriftSound (s : Correction) (top : Int) (loaded : Bool) : Prop :=
  0 ≤ top ∧ DriftFramesSound top s ∧ (loaded = true → DriftWorkingSound top s)

/-- The session for the typed word "ab" (`L = 2`) with `skip_pos = 0` and no other
correction position. -/
def driftSessionStart : Correction :=
  sessionStart (zeroCorrection [97, 98] 48) (exactProximityInfo [97, 98]) 2 48 0 (-1) (-1)
    (-1) (-1) 0 1 false

/-- The state of `driftSessionStart` after the edge `a`, with the frame at depth `1`
loaded: the next call applies the skip drift. -/
def driftSessionState : Correction :=
  ((((driftSessionStart.initProcessState 0).2.processCharAndCalcState 97 false).2.goDownTree
    0 1 0).2.initProcessState 1).2

/-! ## Sessions with an excessive position: no proximity match -/

/-- The oracle answers only `SAME_OR_ACCENTED_OR_CAPITALIZED_CHAR` or `UNRELATED_CHAR`
when it is asked without the proximity check. -/
def OracleExactWithoutCheck (pi : ProximityInfo) : Prop :=
  ∀ (i : Int) (c : Nat), pi.getMatchedProximityId i c false ≠ ProximityType.NEAR_PROXIMITY_CHAR

/-- A frame with an excessive position and no proximity match counted. -/
def ExcessiveFrameSound (f : CorrectionState) : Prop :=
  0 ≤ f.mExcessivePos ∧ f.mProximityCount = 0

/-- The working fields of a session with an excessive position, once a frame has been
loaded: the position is still non-negative and no proximity match is counted. -/
def ExcessiveWorkingSound (top : Int) (s : Correction) : Prop :=
  0 ≤ s.mOutputIndex ∧ s.mOutputIndex ≤ top ∧ 0 ≤ s.mExcessivePos ∧ s.mProximityCount = 0

/-- The invariant of the driver protocol for a session with an excessive position, the
oracle `pi` and the input length `inputLength`. -/
def ExcessiveSound (pi : ProximityInfo) (inputLength : Int) (s : Correction) (top : Int)
    (loaded : Bool) : Prop :=
  0 ≤ top ∧ s.mProximityInfo = pi ∧ s.mInputLength = inputLength
    ∧ (∀ d, 0 ≤ d → d ≤ top → ExcessiveFrameSound (s.mCorrectionStates d))
    ∧ (loaded = true → ExcessiveWorkingSound top s)

/-- An object after an earlier session: the typed letter `s` was matched by the near
key `a`, which left `proximity_count = 1` in the working fields. -/
def usedObject : Correction :=
  ((sessionStart (zeroCorrection [115] 48)
      (keyboardProximityInfo [115] (fun a b => decide (a = 115) && decide (b = 97)))
      1 48 (-1) (-1) (-1) (-1) (-1) 0 1 false).initProcessState 0).2.processCharAndCalcState
    97 true |>.2

/-- On `usedObject`, the start of a session for the typed word "s" (`L = 1`) with
`excessive_pos = 0` and the exact-match oracle. -/
def usedObjectStart : Correction :=
  sessionStart usedObject (exactProximityInfo [115]) 1 48 (-1) 0 (-1) (-1) (-1) 0 1 false

/-- The state of the session `usedObjectStart` after its only edge, `s`. -/
def usedObjectState : Correction :=
  ((usedObjectStart.initProcessState 0).2.processCharAndCalcState 115 true).2

/-! ## The score and the cells of the word buffer behind the candidate -/

/-- Two scoring states agree on what the ranking is meant to read: the input length, the
terminal indices, the counters, the positional hints, `last_char_exceeded`, the
oracle, the two multipliers, the edit-distance table and the candidate characters
`word[0 ..= terminal_output_index]`. -/
def ScoringAgree (a b : Correction) : Prop :=
  a.mInputLength = b.mInputLength
    ∧ a.mTerminalInputIndex = b.mTerminalInputIndex
    ∧ a.mTerminalOutputIndex = b.mTerminalOutputIndex
    ∧ a.mProximityCount = b.mProximityCount
    ∧ a.mTransposedCount = b.mTransposedCount
    ∧ a.mExcessiveCount = b.mExcessiveCount
    ∧ a.mSkippedCount = b.mSkippedCount
    ∧ a.mSkipPos = b.mSkipPos
    ∧ a.mExcessivePos = b.mExcessivePos
    ∧ a.mTransposedPos = b.mTransposedPos
    ∧ a.mSpaceProximityPos = b.mSpaceProximityPos
    ∧ a.mMissingSpacePos = b.mMissingSpacePos
    ∧ a.mLastCharExceeded = b.mLastCharExceeded
    ∧ a.mProximityInfo = b.mProximityInfo
    ∧ a.TYPED_LETTER_MULTIPLIER = b.TYPED_LETTER_MULTIPLIER
    ∧ a.FULL_WORD_MULTIPLIER = b.FULL_WORD_MULTIPLIER
    ∧ a.mEditDistanceTable = b.mEditDistanceTable
    ∧ ∀ k ∈ List.range (a.mTerminalOutputIndex + 1).toNat, a.mWord (k : Int) = b.mWord (k : Int)

/-- An object after an earlier pass over the typed word "hte" without any correction
position, in which the path "htee" of the trie was walked: its fourth edge has written
`word[3] = 'e'`. -/
def earlierPassObject : Correction :=
  (walkPath
    (sessionStart (zeroCorrection [104, 116, 101] 48) (exactProximityInfo [104, 116, 101]) 3 48
      (-1) (-1) (-1) (-1) (-1) 0 1 false)
    0 [(104, false), (116, false), (101, false), (101, true)]).2

/-- On `earlierPassObject`, the session of `transpositionStart`: the typed word "hte"
with `transposed_pos = 0` and no other correction position. -/
def stalePassStart : Correction :=
  sessionStart earlierPassObject (exactProximityInfo [104, 116, 101]) 3 48
    (-1) (-1) 0 (-1) (-1) 0 1 false

/-- The candidate "the" walked from `stalePassStart`. -/
def stalePassWalk : List CorrectionType × Correction :=
  walkPath stalePassStart 0 [(116, false), (104, false), (101, true)]

/-- What a traversal leaves alone: the oracle, the edit-distance table, the two
multipliers and the input length. -/
def sessionConstants (s : Correction) : ProximityInfo × (Int → Int) × Int × Int × Int :=
  (s.mProximityInfo, s.mEditDistanceTable, s.TYPED_LETTER_MULTIPLIER, s.FULL_WORD_MULTIPLIER,
    s.mInputLength)

/-! ## A terminal whose edit distance is read from in front of the table -/

/-- The oracle for the typed word "as" on a keyboard where `b` is a neighbour of `a`;
the code unit in front of the primary input word is `b`. -/
def frontedProximityInfo : ProximityInfo :=
  { keyboardProximityInfo [97, 115] (fun a b => decide (a = 97) && decide (b = 98)) with
    getPrimaryInputWord := bufferAt 98 [97, 115] }

/-- An object with the typed-letter multiplier `3`, whose word buffer has the code unit
`a` in front of it and whose edit-distance table has `INT_MIN` four cells in front of
it; everything else is zeroed. -/
def frontedObject : Correction :=
  { zeroCorrection [97, 115] 48 with
    TYPED_LETTER_MULTIPLIER := 3
    mWord := bufferAt 97 []
    mEditDistanceTable := Function.update (fun _ => 0) (-4) S_INT_MIN }

/-- The candidate "bs" walked for the typed word "as" (`L = 2`) without correction
position on `frontedObject`: the first edge is a proximity match, the second a match
and the terminal. -/
def frontedWalk : List CorrectionType × Correction :=
  walkPath
    (sessionStart frontedObject frontedProximityInfo 2 48 (-1) (-1) (-1) (-1) (-1) 0 1 false)
    0 [(98, false), (115, true)]

/-! # Theorems -/
/-! ## Auxiliary lemmas -/

theorem wrap32_le (x : Int) (h : S_INT_MIN ≤ x) : wrap32 x ≤ x := by
  unfold wrap32; unfold S_INT_MIN at h; omega

theorem wrap32_ge (x : Int) : S_INT_MIN ≤ wrap32 x := by
  unfold wrap32 S_INT_MIN; omega

theorem wrap32_of_range (x : Int) (h1 : S_INT_MIN ≤ x) (h2 : x ≤ S_INT_MAX) : wrap32 x = x := by
  unfold wrap32; unfold S_INT_MIN at h1; unfold S_INT_MAX at h2; omega

/-- Induction over a counted loop: an invariant that holds before the loop and is
carried by every iteration holds after it. -/
theorem foldl_range_invariant {α : Type} (f : α → Nat → α) (P : Nat → α → Prop) (n : Nat)
    (a : α) (h0 : P 0 a) (hstep : ∀ k, k < n → ∀ x, P k x → P (k + 1) (f x k)) :
    P n ((List.range n).foldl f a) := by
  induction n with
  | zero => simpa using h0
  | succ m ih =>
    rw [List.range_succ, List.foldl_append]
    simp only [List.foldl_cons, List.foldl_nil]
    exact hstep m (Nat.lt_succ_self m) _
      (ih (fun k hk x hx => hstep k (Nat.lt_succ_of_lt hk) x hx))

/-- The flat index `a * lo + b` with `0 ≤ b < lo` determines the row and the column. -/
theorem flat_index_inj (lo a b a1 b1 : Int) (hb : 0 ≤ b) (hb1 : 0 ≤ b1)
    (hlo : b < lo) (hlo1 : b1 < lo) (h : a * lo + b = a1 * lo + b1) : a = a1 ∧ b = b1 := by
  have ha : a = a1 := by
    rcases lt_trichotomy a a1 with hlt | heq | hgt
    · exfalso
      have : (a + 1) * lo ≤ a1 * lo := by
        apply mul_le_mul_of_nonneg_right _ (by linarith)
        omega
      nlinarith
    · exact heq
    · exfalso
      have : (a1 + 1) * lo ≤ a * lo := by
        apply mul_le_mul_of_nonneg_right _ (by linarith)
        omega
      nlinarith
  subst ha
  exact ⟨rfl, by linarith⟩


/-! ## Bounds on the edit-distance table -/

theorem edBounded_update (Li Lo : Nat) (t : Int → Int) (i j : Nat) (hj : j < Lo)
    (h : EdBounded Li Lo t i j) (v : Int) (hv1 : S_INT_MIN ≤ v)
    (hv2 : v ≤ max ((i : Int) + 1) ((j : Int) + 1)) :
    EdBounded Li Lo
      (Function.update t (((i : Int) + 1) * ((Lo : Int) + 1) + ((j : Int) + 1)) v) i (j + 1) := by
  obtain ⟨hlb, hub⟩ := h
  refine ⟨?_, ?_⟩
  · intro k
    by_cases hk : k = ((i : Int) + 1) * ((Lo : Int) + 1) + ((j : Int) + 1)
    · subst hk; simpa using hv1
    · simpa [Function.update_noteq hk] using hlb k
  · intro a b ha hb hab
    by_cases hk : (a : Int) * ((Lo : Int) + 1) + (b : Int)
        = ((i : Int) + 1) * ((Lo : Int) + 1) + ((j : Int) + 1)
    · have hinj := flat_index_inj ((Lo : Int) + 1) a b ((i : Int) + 1) ((j : Int) + 1)
        (by omega) (by omega) (by omega) (by omega) hk
      rw [hk, Function.update_same, hinj.1, hinj.2]
      exact hv2
    · rw [Function.update_noteq hk]
      apply hub a b ha hb
      rcases hab with h0 | h0 | h0 | ⟨h1, h2⟩
      · exact Or.inl h0
      · exact Or.inr (Or.inl h0)
      · exact Or.inr (Or.inr (Or.inl h0))
      · rcases Nat.lt_or_ge b (j + 1) with hlt | hge
        · exact Or.inr (Or.inr (Or.inr ⟨h1, by omega⟩))
        · exfalso
          apply hk
          have hbj : b = j + 1 := by omega
          subst h1; subst hbj
          push_cast; ring

theorem editDistanceCell_bounded (fold : Nat → Nat) (input output : Int → Nat)
    (Li Lo : Nat) (t : Int → Int) (i j : Nat) (hi : i < Li) (hj : j < Lo)
    (h : EdBounded Li Lo t i j) :
    EdBounded Li Lo
      (editDistanceCell fold input output ((Li : Int) + 1) ((Lo : Int) + 1) t (i : Int) (j : Int))
      i (j + 1) := by
  have hdiag : t ((i : Int) * ((Lo : Int) + 1) + (j : Int)) ≤ max (i : Int) (j : Int) :=
    h.2 i j (by omega) (by omega) (Or.inr (Or.inr (Or.inl (le_refl i))))
  have hlow := h.1 ((i : Int) * ((Lo : Int) + 1) + (j : Int))
  have hcell : ∀ cost : Int, 0 ≤ cost → cost ≤ 1 →
      wrap32 (t ((i : Int) * ((Lo : Int) + 1) + (j : Int)) + cost)
        ≤ max ((i : Int) + 1) ((j : Int) + 1) := by
    intro cost h0 h1
    have := wrap32_le (t ((i : Int) * ((Lo : Int) + 1) + (j : Int)) + cost) (by linarith)
    have hm : max (i : Int) (j : Int) + 1 = max ((i : Int) + 1) ((j : Int) + 1) :=
      (max_add_add_right (i : Int) (j : Int) 1).symm
    linarith
  have hcost : ∀ p : Prop, ∀ _ : Decidable p,
      (0 : Int) ≤ (if p then 0 else 1) ∧ ((if p then 0 else 1) : Int) ≤ 1 := by
    intro p _; split_ifs <;> simp
  obtain ⟨hc0, hc1⟩ := hcost (fold (input (i : Int)) = fold (output (j : Int))) inferInstance
  unfold editDistanceCell
  simp only []
  generalize (if fold (input (i : Int)) = fold (output (j : Int)) then (0 : Int) else 1) = cost
    at hc0 hc1 ⊢
  split_ifs with hcond
  · rw [Function.update_idem]
    apply edBounded_update Li Lo t i j hj h
    · rw [Function.update_same]
      exact le_min (le_min (wrap32_ge _) (le_min (wrap32_ge _) (wrap32_ge _))) (wrap32_ge _)
    · rw [Function.update_same]
      exact le_trans (min_le_left _ _) (le_trans (min_le_right _ _)
        (le_trans (min_le_right _ _) (hcell cost hc0 hc1)))
  · apply edBounded_update Li Lo t i j hj h
    · exact le_min (wrap32_ge _) (le_min (wrap32_ge _) (wrap32_ge _))
    · exact le_trans (min_le_right _ _)
        (le_trans (min_le_right _ _) (hcell cost hc0 hc1))

theorem editDistanceRow_bounded (fold : Nat → Nat) (input output : Int → Nat)
    (Li Lo : Nat) (t : Int → Int) (i : Nat) (hi : i < Li)
    (h : EdBounded Li Lo t i 0) :
    EdBounded Li Lo
      (editDistanceRow fold input output ((Li : Int) + 1) ((Lo : Int) + 1) t (i : Int))
      (i + 1) 0 := by
  have hrow : EdBounded Li Lo
      (editDistanceRow fold input output ((Li : Int) + 1) ((Lo : Int) + 1) t (i : Int)) i Lo := by
    unfold editDistanceRow
    have hn : ((Lo : Int) + 1 - 1).toNat = Lo := by omega
    rw [hn]
    exact foldl_range_invariant _ (fun j x => EdBounded Li Lo x i j) Lo t h
      (fun k hk x hx => editDistanceCell_bounded fold input output Li Lo x i k hi hk hx)
  refine ⟨hrow.1, ?_⟩
  intro a b ha hb hab
  apply hrow.2 a b ha hb
  rcases hab with h0 | h0 | h0 | ⟨_, h2⟩
  · exact Or.inl h0
  · exact Or.inr (Or.inl h0)
  · rcases Nat.lt_or_ge a (i + 1) with hlt | hge
    · exact Or.inr (Or.inr (Or.inl (by omega)))
    · exact Or.inr (Or.inr (Or.inr ⟨by omega, hb⟩))
  · exact Or.inr (Or.inl (by omega))

/-- After the two initialising loops row `0` holds `0, 1, ..., Lo` and column `0` holds
`0, 1, ..., Li`. -/
theorem editDistanceInit_values (Li Lo : Nat) (t : Int → Int) :
    (∀ b : Nat, b < Lo + 1 → editDistanceInitRow ((Lo : Int) + 1)
        (editDistanceInitColumn ((Li : Int) + 1) ((Lo : Int) + 1) t) (b : Int) = (b : Int))
      ∧ ∀ a : Nat, a < Li + 1 → editDistanceInitRow ((Lo : Int) + 1)
        (editDistanceInitColumn ((Li : Int) + 1) ((Lo : Int) + 1) t)
          (((Lo : Int) + 1) * (a : Int)) = (a : Int) := by
  have hcol : ∀ a : Nat, a < Li + 1 →
      editDistanceInitColumn ((Li : Int) + 1) ((Lo : Int) + 1) t (((Lo : Int) + 1) * (a : Int))
        = (a : Int) := by
    unfold editDistanceInitColumn
    have hn : ((Li : Int) + 1).toNat = Li + 1 := by omega
    rw [hn]
    apply foldl_range_invariant _
      (fun (n : Nat) (x : Int → Int) =>
        ∀ a : Nat, a < n → x (((Lo : Int) + 1) * (a : Int)) = (a : Int))
      (Li + 1) t (fun a ha => absurd ha (Nat.not_lt_zero a))
    intro n _ x hx a ha
    by_cases hk : a = n
    · subst hk; rw [Function.update_same]
    · have hne : ((Lo : Int) + 1) * (a : Int) ≠ ((Lo : Int) + 1) * (n : Int) := by
        intro heq
        have := mul_left_cancel₀ (by omega : ((Lo : Int) + 1) ≠ 0) heq
        exact hk (by exact_mod_cast this)
      rw [Function.update_noteq hne]
      exact hx a (by omega)
  unfold editDistanceInitRow
  have hn : ((Lo : Int) + 1).toNat = Lo + 1 := by omega
  rw [hn]
  apply foldl_range_invariant _
    (fun (n : Nat) (x : Int → Int) =>
      (∀ b : Nat, b < n → x (b : Int) = (b : Int))
      ∧ ∀ a : Nat, a < Li + 1 → x (((Lo : Int) + 1) * (a : Int)) = (a : Int))
    (Lo + 1) _ ⟨fun b hb => absurd hb (Nat.not_lt_zero b), hcol⟩
  intro n hnlt x hx
  refine ⟨?_, ?_⟩
  · intro b hb
    by_cases hk : b = n
    · subst hk; rw [Function.update_same]
    · have hne : (b : Int) ≠ (n : Int) := by exact_mod_cast hk
      rw [Function.update_noteq hne]
      exact hx.1 b (by omega)
  · intro a ha
    by_cases hk : ((Lo : Int) + 1) * (a : Int) = (n : Int)
    · rw [hk, Function.update_same]
      rcases Nat.eq_zero_or_pos a with h0 | hpos
      · subst h0; simpa using hk.symm
      · exfalso
        have : ((Lo : Int) + 1) * 1 ≤ ((Lo : Int) + 1) * (a : Int) :=
          mul_le_mul_of_nonneg_left (by omega) (by omega)
        omega
    · rw [Function.update_noteq hk]
      exact hx.2 a ha

/-- The initialising loops store only non-negative values. -/
theorem editDistanceInit_lower (Li Lo : Nat) (t : Int → Int) (ht : ∀ k, S_INT_MIN ≤ t k) :
    ∀ k, S_INT_MIN ≤ editDistanceInitRow ((Lo : Int) + 1)
      (editDistanceInitColumn ((Li : Int) + 1) ((Lo : Int) + 1) t) k := by
  have hstore : ∀ (x : Int → Int) (idx : Int) (n : Nat), (∀ k, S_INT_MIN ≤ x k) →
      ∀ k, S_INT_MIN ≤ Function.update x idx (n : Int) k := by
    intro x idx n hx k
    by_cases hk : k = idx
    · subst hk; rw [Function.update_same]; unfold S_INT_MIN; omega
    · rw [Function.update_noteq hk]; exact hx k
  have hcol : ∀ k, S_INT_MIN ≤ editDistanceInitColumn ((Li : Int) + 1) ((Lo : Int) + 1) t k := by
    unfold editDistanceInitColumn
    exact foldl_range_invariant _ (fun (_ : Nat) (x : Int → Int) => ∀ k, S_INT_MIN ≤ x k) _ t ht
      (fun n _ x hx => hstore x _ n hx)
  unfold editDistanceInitRow
  exact foldl_range_invariant _ (fun (_ : Nat) (x : Int → Int) => ∀ k, S_INT_MIN ≤ x k) _ _ hcol
    (fun n _ x hx => hstore x _ n hx)

theorem editDistanceInit_bounded (Li Lo : Nat) (t : Int → Int) (ht : ∀ k, S_INT_MIN ≤ t k) :
    EdBounded Li Lo
      (editDistanceInitRow ((Lo : Int) + 1)
        (editDistanceInitColumn ((Li : Int) + 1) ((Lo : Int) + 1) t)) 0 0 := by
  have hval := editDistanceInit_values Li Lo t
  refine ⟨editDistanceInit_lower Li Lo t ht, ?_⟩
  intro a b ha hb hab
  have hzero : a = 0 ∨ b = 0 := by omega
  rcases hzero with h0 | h0
  · subst h0
    have := hval.1 b (by omega)
    simp only [Nat.cast_zero, zero_mul, zero_add]
    rw [this]; exact le_max_right _ _
  · subst h0
    have := hval.2 a (by omega)
    simp only [Nat.cast_zero, add_zero]
    rw [mul_comm, this]; exact le_max_left _ _

/-- The filled table bounds every cell of the matrix by the larger of its row and
column. -/
theorem editDistanceFill_bounded (fold : Nat → Nat) (t : Int → Int) (input output : Int → Nat)
    (Li Lo : Nat) (ht : ∀ k, S_INT_MIN ≤ t k) :
    EdBounded Li Lo (editDistanceFill fold t input (Li : Int) output (Lo : Int)) Li 0 := by
  unfold editDistanceFill
  simp only []
  have hn : ((Li : Int) + 1 - 1).toNat = Li := by omega
  rw [hn]
  exact foldl_range_invariant _ (fun i x => EdBounded Li Lo x i 0) Li _
    (editDistanceInit_bounded Li Lo t ht)
    (fun k hk x hx => editDistanceRow_bounded fold input output Li Lo x k hk hx)

/-! ## Edit-distance kernel: agreement with the specification matrix inside the buffers -/

theorem specDp_zero_left (fold : Nat → Nat) (input output : List Nat) (j : Nat) :
    specDp fold input output 0 j = (j : Int) := rfl

theorem specDp_succ_zero (fold : Nat → Nat) (input output : List Nat) (i : Nat) :
    specDp fold input output (i + 1) 0 = (i : Int) + 1 := rfl

/-- The recurrence of the specification matrix. -/
theorem specDp_succ_succ (fold : Nat → Nat) (input output : List Nat) (i j : Nat) :
    specDp fold input output (i + 1) (j + 1) =
      if 1 ≤ i ∧ 1 ≤ j ∧ fold (input.getD i 0) = fold (output.getD (j - 1) 0)
          ∧ fold (output.getD j 0) = fold (input.getD (i - 1) 0) then
        min (min (specDp fold input output i (j + 1) + 1)
            (min (specDp fold input output (i + 1) j + 1)
              (specDp fold input output i j + specCost fold input output i j)))
          (specDp fold input output (i - 1) (j - 1) + specCost fold input output i j)
      else
        min (specDp fold input output i (j + 1) + 1)
          (min (specDp fold input output (i + 1) j + 1)
            (specDp fold input output i j + specCost fold input output i j)) := by
  cases i with
  | zero =>
    have hc : ¬(1 ≤ 0 ∧ 1 ≤ j ∧ fold (input.getD 0 0) = fold (output.getD (j - 1) 0)
        ∧ fold (output.getD j 0) = fold (input.getD (0 - 1) 0)) := by
      intro h; exact absurd h.1 (by decide)
    rw [if_neg hc]
    show specNextRow fold input output 0 _ _ (j + 1) = _
    unfold specNextRow
    simp only []
    rw [if_neg hc]
    rfl
  | succ k =>
    show specNextRow fold input output (k + 1) _ _ (j + 1) = _
    conv_lhs => unfold specNextRow
    rfl

theorem specDp_nonneg (fold : Nat → Nat) (input output : List Nat) (i j : Nat) :
    0 ≤ specDp fold input output i j := by
  induction i using Nat.strong_induction_on generalizing j with
  | _ i ihi =>
    cases i with
    | zero => rw [specDp_zero_left]; omega
    | succ k =>
      induction j with
      | zero => rw [specDp_succ_zero]; omega
      | succ m ihm =>
        have hc : 0 ≤ specCost fold input output k m := by
          unfold specCost; split_ifs <;> decide
        have h1 := ihi k (Nat.lt_succ_self k) (m + 1)
        have h2 := ihi k (Nat.lt_succ_self k) m
        have h3 := ihi (k - 1) (by omega) (m - 1)
        rw [specDp_succ_succ]
        split_ifs
        · exact le_min (le_min (by omega) (le_min (by omega) (by omega))) (by omega)
        · exact le_min (by omega) (le_min (by omega) (by omega))

theorem specDp_le_max (fold : Nat → Nat) (input output : List Nat) (i j : Nat) :
    specDp fold input output i j ≤ max (i : Int) (j : Int) := by
  induction i generalizing j with
  | zero => rw [specDp_zero_left]; exact le_max_right _ _
  | succ k ih =>
    cases j with
    | zero => rw [specDp_succ_zero]; push_cast; exact le_max_left _ _
    | succ m =>
      have hc : specCost fold input output k m ≤ 1 := by
        unfold specCost; split_ifs <;> decide
      have h := ih m
      have hm : max (k : Int) (m : Int) + 1 = max ((k : Int) + 1) ((m : Int) + 1) :=
        (max_add_add_right (k : Int) (m : Int) 1).symm
      have hdiag : specDp fold input output k m + specCost fold input output k m
          ≤ max (((k + 1 : Nat) : Int)) (((m + 1 : Nat) : Int)) := by
        push_cast; linarith
      rw [specDp_succ_succ]
      split_ifs
      · exact le_trans (min_le_left _ _)
          (le_trans (min_le_right _ _) (le_trans (min_le_right _ _) hdiag))
      · exact le_trans (min_le_right _ _) (le_trans (min_le_right _ _) hdiag)


theorem bufferAt_natCast (front : Nat) (cells : List Nat) (k : Nat) :
    bufferAt front cells (k : Int) = cells.getD k 0 := by
  unfold bufferAt
  have h : ¬((k : Int) < 0) := by omega
  rw [if_neg h, Int.toNat_ofNat]

theorem bufferAt_pred (front : Nat) (cells : List Nat) (k : Nat) :
    bufferAt front cells ((k : Int) - 1) = if k = 0 then front else cells.getD (k - 1) 0 := by
  cases k with
  | zero =>
    unfold bufferAt
    simp
  | succ m =>
    have h : (((m + 1 : Nat) : Int) - 1) = (m : Int) := by push_cast; ring
    rw [h, bufferAt_natCast]
    simp

theorem edExact_update (fold : Nat → Nat) (input output : List Nat) (t : Int → Int)
    (i j : Nat) (hj : j < output.length) (h : EdExact fold input output t i j) (v : Int)
    (hv : v = specDp fold input output (i + 1) (j + 1)) :
    EdExact fold input output
      (Function.update t (((i : Int) + 1) * ((output.length : Int) + 1) + ((j : Int) + 1)) v)
      i (j + 1) := by
  intro a b ha hb hab
  by_cases hk : (a : Int) * ((output.length : Int) + 1) + (b : Int)
      = ((i : Int) + 1) * ((output.length : Int) + 1) + ((j : Int) + 1)
  · have hinj := flat_index_inj ((output.length : Int) + 1) a b ((i : Int) + 1) ((j : Int) + 1)
      (by omega) (by omega) (by omega) (by omega) hk
    have ha' : a = i + 1 := by exact_mod_cast hinj.1
    have hb' : b = j + 1 := by exact_mod_cast hinj.2
    rw [hk, Function.update_same, ha', hb']
    exact hv
  · rw [Function.update_noteq hk]
    apply h a b ha hb
    rcases hab with h0 | h0 | h0 | ⟨h1, h2⟩
    · exact Or.inl h0
    · exact Or.inr (Or.inl h0)
    · exact Or.inr (Or.inr (Or.inl h0))
    · rcases Nat.lt_or_ge b (j + 1) with hlt | hge
      · exact Or.inr (Or.inr (Or.inr ⟨h1, by omega⟩))
      · exfalso
        apply hk
        have hbj : b = j + 1 := by omega
        subst h1; subst hbj
        push_cast; ring

theorem editDistanceCell_exact (fold : Nat → Nat) (input output : List Nat)
    (frontIn frontOut : Nat) (t : Int → Int) (i j : Nat)
    (hLi : (input.length : Int) < S_INT_MAX) (hLo : (output.length : Int) < S_INT_MAX)
    (hfrontOut : ∀ k, k < input.length → fold (input.getD k 0) ≠ fold frontOut)
    (hfrontIn : ∀ k, k < output.length → fold (output.getD k 0) ≠ fold frontIn)
    (hi : i < input.length) (hj : j < output.length)
    (h : EdExact fold input output t i j) :
    EdExact fold input output
      (editDistanceCell fold (bufferAt frontIn input) (bufferAt frontOut output)
        ((input.length : Int) + 1) ((output.length : Int) + 1) t (i : Int) (j : Int))
      i (j + 1) := by
  -- the three cells the plain recurrence reads
  have hup : t ((i : Int) * ((output.length : Int) + 1) + ((j : Int) + 1))
      = specDp fold input output i (j + 1) := by
    have := h i (j + 1) (by omega) (by omega) (Or.inr (Or.inr (Or.inl (le_refl i))))
    push_cast at this
    exact this
  have hleft : t (((i : Int) + 1) * ((output.length : Int) + 1) + (j : Int))
      = specDp fold input output (i + 1) j := by
    have := h (i + 1) j (by omega) (by omega) (Or.inr (Or.inr (Or.inr ⟨rfl, le_refl j⟩)))
    push_cast at this
    exact this
  have hdiag : t ((i : Int) * ((output.length : Int) + 1) + (j : Int))
      = specDp fold input output i j :=
    h i j (by omega) (by omega) (Or.inr (Or.inr (Or.inl (le_refl i))))
  -- no addition overflows
  have hrange : ∀ a b : Nat, a ≤ input.length → b ≤ output.length → ∀ c : Int, 0 ≤ c → c ≤ 1 →
      wrap32 (specDp fold input output a b + c) = specDp fold input output a b + c := by
    intro a b ha hb c hc0 hc1
    have h0 := specDp_nonneg fold input output a b
    have h1 := specDp_le_max fold input output a b
    have h2 : max (a : Int) (b : Int) < S_INT_MAX := by
      apply max_lt
      · have : (a : Int) ≤ (input.length : Int) := by exact_mod_cast ha
        linarith
      · have : (b : Int) ≤ (output.length : Int) := by exact_mod_cast hb
        linarith
    apply wrap32_of_range
    · unfold S_INT_MIN; linarith
    · linarith
  have hcost0 : 0 ≤ specCost fold input output i j := by
    unfold specCost; split_ifs <;> decide
  have hcost1 : specCost fold input output i j ≤ 1 := by
    unfold specCost; split_ifs <;> decide
  have hcost : (if fold (bufferAt frontIn input (i : Int)) = fold (bufferAt frontOut output (j : Int))
      then (0 : Int) else 1) = specCost fold input output i j := by
    rw [bufferAt_natCast, bufferAt_natCast]; rfl
  -- the guard of the source agrees with the guard of the specification
  have hguard : ((input.length : Int) + 1 > 0 ∧ (output.length : Int) + 1 > 0
        ∧ fold (bufferAt frontIn input (i : Int)) = fold (bufferAt frontOut output ((j : Int) - 1))
        ∧ fold (bufferAt frontOut output (j : Int)) = fold (bufferAt frontIn input ((i : Int) - 1)))
      ↔ (1 ≤ i ∧ 1 ≤ j ∧ fold (input.getD i 0) = fold (output.getD (j - 1) 0)
        ∧ fold (output.getD j 0) = fold (input.getD (i - 1) 0)) := by
    rw [bufferAt_natCast, bufferAt_natCast, bufferAt_pred, bufferAt_pred]
    constructor
    · rintro ⟨_, _, h3, h4⟩
      by_cases hj0 : j = 0
      · rw [if_pos hj0] at h3
        exact absurd h3 (hfrontOut i hi)
      · rw [if_neg hj0] at h3
        by_cases hi0 : i = 0
        · rw [if_pos hi0] at h4
          exact absurd h4 (hfrontIn j hj)
        · rw [if_neg hi0] at h4
          exact ⟨by omega, by omega, h3, h4⟩
    · rintro ⟨h1, h2, h3, h4⟩
      have hj0 : ¬ j = 0 := by omega
      have hi0 : ¬ i = 0 := by omega
      rw [if_neg hj0, if_neg hi0]
      exact ⟨by omega, by omega, h3, h4⟩
  unfold editDistanceCell
  simp only []
  rw [hcost, hup, hleft, hdiag,
    hrange i (j + 1) (by omega) (by omega) 1 (by decide) (by decide),
    hrange (i + 1) j (by omega) (by omega) 1 (by decide) (by decide),
    hrange i j (by omega) (by omega) _ hcost0 hcost1]
  by_cases hg : 1 ≤ i ∧ 1 ≤ j ∧ fold (input.getD i 0) = fold (output.getD (j - 1) 0)
      ∧ fold (output.getD j 0) = fold (input.getD (i - 1) 0)
  · rw [if_pos (hguard.mpr hg), Function.update_idem, Function.update_same]
    apply edExact_update fold input output t i j hj h
    have hne : ((i : Int) - 1) * ((output.length : Int) + 1) + ((j : Int) - 1)
        ≠ ((i : Int) + 1) * ((output.length : Int) + 1) + ((j : Int) + 1) := by
      intro heq
      have : ((i : Int) + 1) * ((output.length : Int) + 1) + ((j : Int) + 1)
          - (((i : Int) - 1) * ((output.length : Int) + 1) + ((j : Int) - 1))
          = 2 * (output.length : Int) + 4 := by ring
      rw [← heq] at this
      omega
    have hprev : t (((i : Int) - 1) * ((output.length : Int) + 1) + ((j : Int) - 1))
        = specDp fold input output (i - 1) (j - 1) := by
      have := h (i - 1) (j - 1) (by omega) (by omega)
        (Or.inr (Or.inr (Or.inl (Nat.sub_le i 1))))
      have hci : ((i - 1 : Nat) : Int) = (i : Int) - 1 := by omega
      have hcj : ((j - 1 : Nat) : Int) = (j : Int) - 1 := by omega
      rw [hci, hcj] at this
      exact this
    rw [Function.update_noteq hne, hprev,
      hrange (i - 1) (j - 1) (by omega) (by omega) _ hcost0 hcost1,
      specDp_succ_succ, if_pos hg]
  · rw [if_neg (fun hc => hg (hguard.mp hc))]
    apply edExact_update fold input output t i j hj h
    rw [specDp_succ_succ, if_neg hg]


theorem editDistanceRow_exact (fold : Nat → Nat) (input output : List Nat)
    (frontIn frontOut : Nat) (t : Int → Int) (i : Nat)
    (hLi : (input.length : Int) < S_INT_MAX) (hLo : (output.length : Int) < S_INT_MAX)
    (hfrontOut : ∀ k, k < input.length → fold (input.getD k 0) ≠ fold frontOut)
    (hfrontIn : ∀ k, k < output.length → fold (output.getD k 0) ≠ fold frontIn)
    (hi : i < input.length) (h : EdExact fold input output t i 0) :
    EdExact fold input output
      (editDistanceRow fold (bufferAt frontIn input) (bufferAt frontOut output)
        ((input.length : Int) + 1) ((output.length : Int) + 1) t (i : Int))
      (i + 1) 0 := by
  have hrow : EdExact fold input output
      (editDistanceRow fold (bufferAt frontIn input) (bufferAt frontOut output)
        ((input.length : Int) + 1) ((output.length : Int) + 1) t (i : Int))
      i output.length := by
    unfold editDistanceRow
    have hn : ((output.length : Int) + 1 - 1).toNat = output.length := by omega
    rw [hn]
    exact foldl_range_invariant _ (fun j x => EdExact fold input output x i j) output.length t h
      (fun k hk x hx => editDistanceCell_exact fold input output frontIn frontOut x i k
        hLi hLo hfrontOut hfrontIn hi hk hx)
  intro a b ha hb hab
  apply hrow a b ha hb
  rcases hab with h0 | h0 | h0 | ⟨_, h2⟩
  · exact Or.inl h0
  · exact Or.inr (Or.inl h0)
  · rcases Nat.lt_or_ge a (i + 1) with hlt | hge
    · exact Or.inr (Or.inr (Or.inl (by omega)))
    · exact Or.inr (Or.inr (Or.inr ⟨by omega, hb⟩))
  · exact Or.inr (Or.inl (by omega))

theorem editDistanceInit_exact (fold : Nat → Nat) (input output : List Nat) (t : Int → Int) :
    EdExact fold input output
      (editDistanceInitRow ((output.length : Int) + 1)
        (editDistanceInitColumn ((input.length : Int) + 1) ((output.length : Int) + 1) t)) 0 0 := by
  have hval := editDistanceInit_values input.length output.length t
  intro a b ha hb hab
  have hzero : a = 0 ∨ b = 0 := by omega
  rcases hzero with h0 | h0
  · subst h0
    have := hval.1 b (by omega)
    simp only [Nat.cast_zero, zero_mul, zero_add]
    rw [this, specDp_zero_left]
  · subst h0
    have := hval.2 a (by omega)
    simp only [Nat.cast_zero, add_zero]
    rw [mul_comm, this]
    cases a with
    | zero => rw [specDp_zero_left]
    | succ k => rw [specDp_succ_zero]; push_cast; ring

/-- Inside the buffers the kernel computes the matrix of the specification: when the
cell in front of each buffer folds to a code unit that occurs nowhere in the other
word, so that the transposition clause never fires at `i = 0` or `j = 0`, and the
lengths are below `INT_MAX`, `editDistance` returns `dp[Li][Lo]` of the specification
matrix, whatever the table held before. -/
theorem editDistance_eq_spec_of_fronts (fold : Nat → Nat) (table : Int → Int)
    (input output : List Nat) (frontIn frontOut : Nat)
    (hLi : (input.length : Int) < S_INT_MAX) (hLo : (output.length : Int) < S_INT_MAX)
    (hfrontOut : ∀ k, k < input.length → fold (input.getD k 0) ≠ fold frontOut)
    (hfrontIn : ∀ k, k < output.length → fold (output.getD k 0) ≠ fold frontIn) :
    editDistance fold table (bufferAt frontIn input) (input.length : Int)
        (bufferAt frontOut output) (output.length : Int)
      = specEditDistance fold input output := by
  have hfill : EdExact fold input output
      (editDistanceFill fold table (bufferAt frontIn input) (input.length : Int)
        (bufferAt frontOut output) (output.length : Int)) input.length 0 := by
    unfold editDistanceFill
    simp only []
    have hn : ((input.length : Int) + 1 - 1).toNat = input.length := by omega
    rw [hn]
    exact foldl_range_invariant _ (fun i x => EdExact fold input output x i 0) input.length _
      (editDistanceInit_exact fold input output table)
      (fun k hk x hx => editDistanceRow_exact fold input output frontIn frontOut x k
        hLi hLo hfrontOut hfrontIn hk hx)
  have hcell := hfill input.length output.length (le_refl _) (le_refl _)
    (Or.inr (Or.inr (Or.inl (le_refl _))))
  have hidx : ((input.length : Int) + 1) * ((output.length : Int) + 1) - 1
      = (input.length : Int) * ((output.length : Int) + 1) + (output.length : Int) := by ring
  unfold editDistance specEditDistance
  rw [hidx]
  exact hcell


theorem specCost_symm (fold : Nat → Nat) (input output : List Nat) (i j : Nat) :
    specCost fold input output i j = specCost fold output input j i := by
  unfold specCost
  by_cases h : fold (input.getD i 0) = fold (output.getD j 0)
  · rw [if_pos h, if_pos h.symm]
  · rw [if_neg h, if_neg (fun h1 => h h1.symm)]

/-- The specification matrix of `(output, input)` is the transpose of the one of
`(input, output)`. -/
theorem specDp_symm (fold : Nat → Nat) (input output : List Nat) :
    ∀ n i j : Nat, i + j ≤ n →
      specDp fold input output i j = specDp fold output input j i := by
  intro n
  induction n with
  | zero =>
    intro i j h
    have hi : i = 0 := by omega
    have hj : j = 0 := by omega
    subst hi; subst hj; rfl
  | succ m ih =>
    intro i j h
    cases i with
    | zero =>
      cases j with
      | zero => rfl
      | succ l => rw [specDp_zero_left, specDp_succ_zero]; push_cast; ring
    | succ k =>
      cases j with
      | zero => rw [specDp_zero_left, specDp_succ_zero]; push_cast; ring
      | succ l =>
        have h1 := ih k (l + 1) (by omega)
        have h2 := ih (k + 1) l (by omega)
        have h3 := ih k l (by omega)
        have h4 := ih (k - 1) (l - 1) (by omega)
        have hc := specCost_symm fold input output k l
        rw [specDp_succ_succ, specDp_succ_succ, h1, h2, h3, h4, hc]
        by_cases hg : 1 ≤ k ∧ 1 ≤ l ∧ fold (input.getD k 0) = fold (output.getD (l - 1) 0)
            ∧ fold (output.getD l 0) = fold (input.getD (k - 1) 0)
        · have hg' : 1 ≤ l ∧ 1 ≤ k ∧ fold (output.getD l 0) = fold (input.getD (k - 1) 0)
              ∧ fold (input.getD k 0) = fold (output.getD (l - 1) 0) :=
            ⟨hg.2.1, hg.1, hg.2.2.2, hg.2.2.1⟩
          rw [if_pos hg, if_pos hg', min_left_comm]
        · have hg' : ¬(1 ≤ l ∧ 1 ≤ k ∧ fold (output.getD l 0) = fold (input.getD (k - 1) 0)
              ∧ fold (input.getD k 0) = fold (output.getD (l - 1) 0)) :=
            fun hc' => hg ⟨hc'.2.1, hc'.1, hc'.2.2.2, hc'.2.2.1⟩
          rw [if_neg hg, if_neg hg', min_left_comm]

/-- The distance of the specification is symmetric. -/
theorem specEditDistance_symm (fold : Nat → Nat) (input output : List Nat) :
    specEditDistance fold input output = specEditDistance fold output input :=
  specDp_symm fold input output (input.length + output.length) input.length output.length
    (le_refl _)

/-- Inside the buffers the kernel is symmetric: when the cell in front of each word
folds to a code unit that occurs nowhere in the other word, the two orders of the
arguments give the same distance, whatever the tables held before. -/
theorem editDistance_symm_of_fronts (fold : Nat → Nat) (table1 table2 : Int → Int)
    (a b : List Nat) (frontA frontB : Nat)
    (hLa : (a.length : Int) < S_INT_MAX) (hLb : (b.length : Int) < S_INT_MAX)
    (hfrontB : ∀ k, k < a.length → fold (a.getD k 0) ≠ fold frontB)
    (hfrontA : ∀ k, k < b.length → fold (b.getD k 0) ≠ fold frontA) :
    editDistance fold table1 (bufferAt frontA a) (a.length : Int)
        (bufferAt frontB b) (b.length : Int)
      = editDistance fold table2 (bufferAt frontB b) (b.length : Int)
        (bufferAt frontA a) (a.length : Int) := by
  rw [editDistance_eq_spec_of_fronts fold table1 a b frontA frontB hLa hLb hfrontB hfrontA,
    editDistance_eq_spec_of_fronts fold table2 b a frontB frontA hLb hLa hfrontA hfrontB]
  exact specEditDistance_symm fold a b


/-! ## Saturating integer math -/

/-- C1 (the code misses the cap): with multiplier `5` and value `2^30` the product
`5 * 2^30` wraps around to `2^30`, passes the test `tempRetval >= temp`, and
`multiplyIntCapped` leaves `2^30` where `min(5 * 2^30, INT_MAX)` is `INT_MAX`; with
multiplier `0` and value `5` it leaves `INT_MAX` where the capped product is `0`. -/
theorem multiplyIntCapped_misses_cap :
    multiplyIntCapped 5 1073741824 = 1073741824
      ∧ min ((5 : Int) * 1073741824) S_INT_MAX = 2147483647
      ∧ multiplyIntCapped 0 5 = 2147483647
      ∧ min ((0 : Int) * 5) S_INT_MAX = 0 := by
  decide

/-- Below `TWO_31ST_DIV_255` the promotion by 255 is the capped product. -/
theorem capped255Mult_below (x : Int) (h0 : 0 ≤ x) (h1 : x < TWO_31ST_DIV_255) :
    capped255MultForFullMatchAccentsOrCapitalizationDifference x = min (255 * x) S_INT_MAX := by
  have hdiv : TWO_31ST_DIV_255 = 8421504 := by decide
  rw [hdiv] at h1
  unfold capped255MultForFullMatchAccentsOrCapitalizationDifference
  rw [hdiv, if_pos h1]
  unfold wrap32 S_INT_MAX
  omega

/-- Above `TWO_31ST_DIV_255` the product exceeds `INT_MAX` and the promotion by 255 is
the cap. -/
theorem capped255Mult_above (x : Int) (h1 : TWO_31ST_DIV_255 < x) :
    capped255MultForFullMatchAccentsOrCapitalizationDifference x = min (255 * x) S_INT_MAX := by
  have hdiv : TWO_31ST_DIV_255 = 8421504 := by decide
  rw [hdiv] at h1
  unfold capped255MultForFullMatchAccentsOrCapitalizationDifference
  rw [hdiv, if_neg (by omega)]
  unfold S_INT_MAX
  omega

/-- C3 (the code caps one value early): at `x = 8421504 = INT_MAX / 255` the product
`255 * x = 2147483520` still fits, yet the strict comparison `num < TWO_31ST_DIV_255`
fails and the function returns `INT_MAX`, not `min(255 * x, INT_MAX) = 2147483520`. -/
theorem capped255Mult_caps_early :
    capped255MultForFullMatchAccentsOrCapitalizationDifference 8421504 = 2147483647
      ∧ min ((255 : Int) * 8421504) S_INT_MAX = 2147483520 := by
  decide


/-! ## Ranking: rejection and the starting value -/

/-- C2 (the code does not cap the initial product): for the 25-letter candidate of
`longWordState`, which is not rejected, with base frequency `128` and
`TYPED_LETTER_MULTIPLIER = 2` the match weight is `2^25` and `int finalFreq = freq *
matchWeight` wraps around to `0`, where the capped product `min(128 * 2^25, INT_MAX)`
is `INT_MAX`; the score handed back is `0`. -/
theorem initialFinalFreq_wraps :
    RankingAlgorithm.isRejected longWordState = false
      ∧ (RankingAlgorithm.matchWeightAndProximity sampleDefines id 24
          longWordState.mEditDistanceTable longWordState).1 = 33554432
      ∧ RankingAlgorithm.initialFinalFreq sampleDefines id 24 128
          longWordState.mEditDistanceTable longWordState = 0
      ∧ min ((128 : Int) * 33554432) S_INT_MAX = 2147483647
      ∧ (longWordState.getFinalFreq sampleDefines id 128 none).freq = 0 := by
  decide

/-- C4: `getFinalFreq` returns `-1` whenever at least one rejection condition holds: the
candidate is the same as typed, the terminal output index is below `MIN_SUGGEST_DEPTH`,
`skipped_count >= L`, `L == 0`, a transposition is hinted and none was counted, or an
excessive character is hinted and none was counted. -/
theorem getFinalFreq_rejects (self : Correction) (d : Defines) (toBaseLowerCase : Nat → Nat)
    (freq : Int) (word : Option (Int → Nat))
    (h : self.mProximityInfo.sameAsTyped self.mWord (self.mTerminalOutputIndex + 1) = true
      ∨ self.mTerminalOutputIndex < d.MIN_SUGGEST_DEPTH
      ∨ self.mSkippedCount ≥ self.mInputLength
      ∨ self.mInputLength = 0
      ∨ (self.mTransposedPos ≥ 0 ∧ self.mTransposedCount = 0)
      ∨ (self.mExcessivePos ≥ 0 ∧ self.mExcessiveCount = 0)) :
    (self.getFinalFreq d toBaseLowerCase freq word).freq = -1 := by
  unfold Correction.getFinalFreq
  simp only []
  split_ifs with hearly
  · rfl
  · have hrej : RankingAlgorithm.isRejected self = true := by
      simp only [Bool.or_eq_true, decide_eq_true_eq, not_or, Bool.not_eq_true,
        decide_eq_false_iff_not] at hearly
      unfold RankingAlgorithm.isRejected Correction.getExcessivePos Correction.getTransposedPos
      simp only [Bool.or_eq_true, Bool.and_eq_true, decide_eq_true_eq]
      rcases h with h | h | h | h | h | h
      · rw [h] at hearly; exact absurd hearly.1 (by simp)
      · exact absurd h hearly.2
      · exact Or.inl (Or.inl (Or.inl h))
      · exact Or.inl (Or.inl (Or.inr h))
      · exact Or.inl (Or.inr h)
      · exact Or.inr h
    show RankingAlgorithm.calculateFinalFreq d toBaseLowerCase self.mTerminalInputIndex
      self.mTerminalOutputIndex freq self.mEditDistanceTable self = -1
    unfold RankingAlgorithm.calculateFinalFreq
    rw [if_pos hrej]

/-- C4, at a concrete state: the unused transposition of `unusedTranspositionState` is
rejected with `-1`. -/
theorem getFinalFreq_rejects_witness :
    (unusedTranspositionState.mTransposedPos ≥ 0 ∧ unusedTranspositionState.mTransposedCount = 0)
      ∧ (unusedTranspositionState.getFinalFreq sampleDefines id 100 none).freq = -1 :=
  ⟨by decide,
    getFinalFreq_rejects unusedTranspositionState sampleDefines id 100 none
      (Or.inr (Or.inr (Or.inr (Or.inr (Or.inl (by decide))))))⟩

/-- C5 (as stated, fails): the candidate of `unusedTranspositionState` is rejected by
the ranking with `-1`, the caller passes a null reference, and the reference handed
back is not null: `*word = mWord` is stored before the ranking rejects. -/
theorem getFinalFreq_rejection_keeps_word :
    (unusedTranspositionState.getFinalFreq sampleDefines id 100 none).freq = -1
      ∧ (unusedTranspositionState.getFinalFreq sampleDefines id 100 none).word.isSome = true := by
  decide

/-- C5 (amended): a rejection by `same_as_typed` or by `MIN_SUGGEST_DEPTH` returns `-1`
and leaves the word output as the caller passed it; a rejection by the ranking
(`skipped_count >= L`, `L == 0`, an unused transposition or excessive hint) returns
`-1` with the word output pointing to the candidate buffer. -/
theorem getFinalFreq_rejection_word (self : Correction) (d : Defines)
    (toBaseLowerCase : Nat → Nat) (freq : Int) (word : Option (Int → Nat)) :
    ((self.mProximityInfo.sameAsTyped self.mWord (self.mTerminalOutputIndex + 1) = true
        ∨ self.mTerminalOutputIndex < d.MIN_SUGGEST_DEPTH) →
      (self.getFinalFreq d toBaseLowerCase freq word).freq = -1
        ∧ (self.getFinalFreq d toBaseLowerCase freq word).word = word)
    ∧ (¬(self.mProximityInfo.sameAsTyped self.mWord (self.mTerminalOutputIndex + 1) = true
        ∨ self.mTerminalOutputIndex < d.MIN_SUGGEST_DEPTH) →
      (self.mSkippedCount ≥ self.mInputLength ∨ self.mInputLength = 0
        ∨ (self.mTransposedPos ≥ 0 ∧ self.mTransposedCount = 0)
        ∨ (self.mExcessivePos ≥ 0 ∧ self.mExcessiveCount = 0)) →
      (self.getFinalFreq d toBaseLowerCase freq word).freq = -1
        ∧ (self.getFinalFreq d toBaseLowerCase freq word).word = some self.mWord) := by
  refine ⟨?_, ?_⟩
  · intro hearly
    have hcond : (self.mProximityInfo.sameAsTyped self.mWord (self.mTerminalOutputIndex + 1)
        || decide (self.mTerminalOutputIndex < d.MIN_SUGGEST_DEPTH)) = true := by
      simpa [Bool.or_eq_true, decide_eq_true_eq] using hearly
    unfold Correction.getFinalFreq
    simp only []
    rw [if_pos hcond]
    exact ⟨rfl, rfl⟩
  · intro hearly hrank
    have hcond : ¬((self.mProximityInfo.sameAsTyped self.mWord (self.mTerminalOutputIndex + 1)
        || decide (self.mTerminalOutputIndex < d.MIN_SUGGEST_DEPTH)) = true) := by
      simpa [Bool.or_eq_true, decide_eq_true_eq] using hearly
    have hrej : RankingAlgorithm.isRejected self = true := by
      unfold RankingAlgorithm.isRejected Correction.getExcessivePos Correction.getTransposedPos
      simp only [Bool.or_eq_true, Bool.and_eq_true, decide_eq_true_eq]
      rcases hrank with h | h | h | h
      · exact Or.inl (Or.inl (Or.inl h))
      · exact Or.inl (Or.inl (Or.inr h))
      · exact Or.inl (Or.inr h)
      · exact Or.inr h
    unfold Correction.getFinalFreq
    simp only []
    rw [if_neg hcond]
    unfold RankingAlgorithm.calculateFinalFreq
    rw [if_pos hrej]
    exact ⟨rfl, rfl⟩

/-- C5 (amended), at concrete states: the word "hte" itself is rejected as typed and a
null reference stays null; the unused transposition is rejected by the ranking and
the reference handed back is the candidate buffer. -/
theorem getFinalFreq_rejection_word_witness :
    ((({ unusedTranspositionState with mWord := bufferAt 0 [104, 116, 101] } : Correction).getFinalFreq
          sampleDefines id 100 none).freq = -1
        ∧ (({ unusedTranspositionState with mWord := bufferAt 0 [104, 116, 101] } : Correction).getFinalFreq
          sampleDefines id 100 none).word = none)
      ∧ ((unusedTranspositionState.getFinalFreq sampleDefines id 100 none).freq = -1
        ∧ (unusedTranspositionState.getFinalFreq sampleDefines id 100 none).word
          = some unusedTranspositionState.mWord) :=
  ⟨(getFinalFreq_rejection_word
      ({ unusedTranspositionState with mWord := bufferAt 0 [104, 116, 101] } : Correction)
      sampleDefines id 100 none).1 (Or.inl (by decide)),
    (getFinalFreq_rejection_word unusedTranspositionState sampleDefines id 100 none).2
      (by decide) (Or.inr (Or.inr (Or.inl (by decide))))⟩


/-! ## Edit-distance kernel: the claims -/

/-- C6 (the code applies the transposition clause outside the matrix): for the input
"abac" and the output "a", where the cell in front of the output buffer holds 'c', the
clause fires at `i = 3`, `j = 0` (`input[3] = output[-1]` and `output[0] = input[2]`),
reads `dp[2 * lo - 1] = dp[1][1] = 0` and lowers `dp[4][1]` to `1`; the matrix of the
specification, which admits the clause only for `i ≥ 1` and `j ≥ 1`, has
`dp[4][1] = 3`. -/
theorem editDistance_transposes_outside_matrix :
    editDistance id (fun _ => 0) (bufferAt 0 [97, 98, 97, 99]) 4 (bufferAt 99 [97]) 1 = 1
      ∧ specEditDistance id [97, 98, 97, 99] [97] = 3 := by
  decide

/-- C7 (the code is not symmetric): with "abac" and "a" as above, the cell in front of
"a" holding 'c' and the memory of the table holding `9`, the distance from "abac" to
"a" is `1` and the distance from "a" to "abac" is `3`: in the first call the clause
at `j = 0` reads a cell of the matrix, in the second the clause at `i = 0` reads the
memory in front of the table. -/
theorem editDistance_not_symmetric :
    editDistance id (fun _ => 9) (bufferAt 0 [97, 98, 97, 99]) 4 (bufferAt 99 [97]) 1 = 1
      ∧ editDistance id (fun _ => 9) (bufferAt 99 [97]) 1 (bufferAt 0 [97, 98, 97, 99]) 4 = 3 := by
  decide

/-- The upper bound of the kernel: for code-unit sequences of lengths `Li` and `Lo`,
whatever the folding and whatever the buffers and the table hold around them (32-bit
integers), `editDistance` returns at most `max(Li, Lo)`. -/
theorem editDistance_le_max (toBaseLowerCase : Nat → Nat) (editDistanceTable : Int → Int)
    (input output : Int → Nat) (Li Lo : Nat) (htable : ∀ k, IsInt32 (editDistanceTable k)) :
    editDistance toBaseLowerCase editDistanceTable input (Li : Int) output (Lo : Int)
      ≤ max (Li : Int) (Lo : Int) := by
  have h := editDistanceFill_bounded toBaseLowerCase editDistanceTable input output Li Lo
    (fun k => (htable k).1)
  have hcell := h.2 Li Lo (le_refl Li) (le_refl Lo) (Or.inr (Or.inr (Or.inl (le_refl Li))))
  have hidx : ((Li : Int) + 1) * ((Lo : Int) + 1) - 1
      = (Li : Int) * ((Lo : Int) + 1) + (Lo : Int) := by ring
  unfold editDistance
  rw [hidx]
  exact hcell

theorem isInt32_zero : IsInt32 0 := by decide

/-- The upper bound at a concrete input: "shel" against "shell" over a zeroed table. -/
theorem editDistance_le_max_shell :
    editDistance id (fun _ => 0) (bufferAt 0 [115, 104, 101, 108]) ((4 : Nat) : Int)
        (bufferAt 0 [115, 104, 101, 108, 108]) ((5 : Nat) : Int)
      ≤ max ((4 : Nat) : Int) ((5 : Nat) : Int) :=
  editDistance_le_max id (fun _ => 0) (bufferAt 0 [115, 104, 101, 108])
    (bufferAt 0 [115, 104, 101, 108, 108]) 4 5 (fun _ => isInt32_zero)

/-- Inside the buffers the exponent is sound: when the cell in front of each buffer
folds to a code unit that occurs nowhere in the other word, the distance is between
`0` and `max(Li, Lo)`, and for a candidate at least as long as the typed word the
32-bit exponent `Lo - ed` of line 497 is the difference of the integers and is not
negative. -/
theorem editDistance_exponent_of_fronts (fold : Nat → Nat) (table : Int → Int)
    (input output : List Nat) (frontIn frontOut : Nat)
    (hLi : (input.length : Int) < S_INT_MAX) (hLo : (output.length : Int) < S_INT_MAX)
    (hfrontOut : ∀ k, k < input.length → fold (input.getD k 0) ≠ fold frontOut)
    (hfrontIn : ∀ k, k < output.length → fold (output.getD k 0) ≠ fold frontIn)
    (hlen : input.length ≤ output.length) :
    0 ≤ editDistance fold table (bufferAt frontIn input) (input.length : Int)
          (bufferAt frontOut output) (output.length : Int)
      ∧ wrap32 ((output.length : Int)
          - editDistance fold table (bufferAt frontIn input) (input.length : Int)
              (bufferAt frontOut output) (output.length : Int))
        = (output.length : Int)
          - editDistance fold table (bufferAt frontIn input) (input.length : Int)
              (bufferAt frontOut output) (output.length : Int)
      ∧ 0 ≤ wrap32 ((output.length : Int)
          - editDistance fold table (bufferAt frontIn input) (input.length : Int)
              (bufferAt frontOut output) (output.length : Int)) := by
  rw [editDistance_eq_spec_of_fronts fold table input output frontIn frontOut hLi hLo
    hfrontOut hfrontIn]
  have h0 : 0 ≤ specEditDistance fold input output := specDp_nonneg fold input output _ _
  have h1 : specEditDistance fold input output ≤ (output.length : Int) := by
    have := specDp_le_max fold input output input.length output.length
    have hmax : max (input.length : Int) (output.length : Int) = (output.length : Int) :=
      max_eq_right (by exact_mod_cast hlen)
    rw [hmax] at this
    exact this
  have hw : wrap32 ((output.length : Int) - specEditDistance fold input output)
      = (output.length : Int) - specEditDistance fold input output := by
    apply wrap32_of_range
    · unfold S_INT_MIN; omega
    · omega
  refine ⟨h0, hw, ?_⟩
  rw [hw]
  omega

/-- Claim C8 (the exponent can be negative): the distance is at most `max(|a|, |b|)`,
but it has no lower bound, because the transposition clause, guarded by
`li > 0 && lo > 0`, reads the table in front of the matrix. For "a" against "b", with
`b` in front of the first buffer, `a` in front of the second and `INT_MIN` in the cell
`dp[-3]`, `editDistance` returns `INT_MIN + 1`, and the 32-bit exponent `1 - ed` is
`-2147483648`. In the ranking: for the typed word "as" and the candidate "bs", a
terminal with one proximity match and a candidate as long as the typed word, which
passes the early returns, the call of line 495 returns `INT_MIN + 1` and the exponent
`outputIndex + 1 - ed` of line 497 is `-2147483647`. -/
theorem editDistance_exponent_negative :
    editDistance id (Function.update (fun _ => 0) (-3) S_INT_MIN) (bufferAt 98 [97]) 1
        (bufferAt 97 [98]) 1 = -2147483647
      ∧ (-2147483647 : Int) ≤ max 1 1
      ∧ wrap32 (0 + 1 - (-2147483647)) = -2147483648
      ∧ frontedWalk.1 = [CorrectionType.NOT_ON_TERMINAL, CorrectionType.ON_TERMINAL]
      ∧ frontedWalk.2.mInputLength = 2
      ∧ frontedWalk.2.mTerminalOutputIndex = 1
      ∧ frontedWalk.2.mProximityCount = 1
      ∧ frontedWalk.2.mProximityInfo.sameAsTyped frontedWalk.2.mWord
          (frontedWalk.2.mTerminalOutputIndex + 1) = false
      ∧ ¬ frontedWalk.2.mTerminalOutputIndex < sampleDefines.MIN_SUGGEST_DEPTH
      ∧ RankingAlgorithm.isRejected frontedWalk.2 = false
      ∧ editDistance id frontedWalk.2.mEditDistanceTable
          frontedWalk.2.mProximityInfo.getPrimaryInputWord frontedWalk.2.mInputLength
          frontedWalk.2.mWord (frontedWalk.2.mTerminalOutputIndex + 1) = -2147483647
      ∧ wrap32 (frontedWalk.2.mTerminalOutputIndex + 1
          - editDistance id frontedWalk.2.mEditDistanceTable
              frontedWalk.2.mProximityInfo.getPrimaryInputWord frontedWalk.2.mInputLength
              frontedWalk.2.mWord (frontedWalk.2.mTerminalOutputIndex + 1)) = -2147483647
      ∧ RankingAlgorithm.matchWeightAndProximity sampleDefines id
          frontedWalk.2.mTerminalOutputIndex frontedWalk.2.mEditDistanceTable frontedWalk.2
        = (powerIntCapped 3 (-2147483647), 0) := by
  decide

/-! ## Correction parameters -/

/-- C9 (as stated, fails): called with `skipPos = excessivePos = transposedPos = 0`,
`setCorrectionParams` leaves all three positions non-negative, and the debug assertion
of `checkState` fails in the resulting state. -/
theorem setCorrectionParams_not_single :
    ¬ SingleCorrection ((zeroCorrection [] 0).setCorrectionParams 0 0 0 (-1) (-1))
      ∧ ((zeroCorrection [] 0).setCorrectionParams 0 0 0 (-1) (-1)).checkState = false := by
  decide

/-- C9 (amended): `setCorrectionParams` stores the three positions as they are given, in
the working fields and in frame `0`, without checking them; after the call at most one
of them is non-negative exactly when at most one of the arguments is, and exactly then
the debug assertion of `checkState` holds. -/
theorem setCorrectionParams_stores (self : Correction)
    (skipPos excessivePos transposedPos spaceProximityPos missingSpacePos : Int) :
    let after := self.setCorrectionParams skipPos excessivePos transposedPos
      spaceProximityPos missingSpacePos
    (after.mSkipPos = skipPos ∧ after.mExcessivePos = excessivePos
        ∧ after.mTransposedPos = transposedPos)
      ∧ ((after.mCorrectionStates 0).mSkipPos = skipPos
        ∧ (after.mCorrectionStates 0).mExcessivePos = excessivePos
        ∧ (after.mCorrectionStates 0).mTransposedPos = transposedPos)
      ∧ (SingleCorrection after ↔
        (¬(0 ≤ skipPos ∧ 0 ≤ excessivePos) ∧ ¬(0 ≤ skipPos ∧ 0 ≤ transposedPos)
          ∧ ¬(0 ≤ excessivePos ∧ 0 ≤ transposedPos)))
      ∧ (after.checkState = true ↔ SingleCorrection after) := by
  intro after
  refine ⟨⟨rfl, rfl, rfl⟩, ?_, Iff.rfl, ?_⟩
  · simp [after, Correction.setCorrectionParams]
  · show decide (after.checkStateInputCount ≤ 1) = true ↔ SingleCorrection after
    have h1 : after.mSkipPos = skipPos := rfl
    have h2 : after.mExcessivePos = excessivePos := rfl
    have h3 : after.mTransposedPos = transposedPos := rfl
    unfold SingleCorrection Correction.checkStateInputCount
    rw [h1, h2, h3, decide_eq_true_eq]
    by_cases ha : 0 ≤ skipPos <;> by_cases hb : 0 ≤ excessivePos <;>
      by_cases hc : 0 ≤ transposedPos <;> simp [ha, hb, hc]


/-! ## Traversal: the counters -/

theorem frameSound_update (frames : Int → CorrectionState) (k : Int) (v : CorrectionState)
    (hframes : ∀ depth, FrameSound (frames depth)) (hv : FrameSound v) :
    ∀ depth, FrameSound (Function.update frames k v depth) := by
  intro depth
  by_cases h : depth = k
  · subst h; rw [Function.update_same]; exact hv
  · rw [Function.update_noteq h]; exact hframes depth

/-- Pushing a frame re-establishes the link between the top frame and the working
counters. -/
theorem countersSound_incrementOutputIndex (s : Correction) (h : StateSound s) :
    CountersSound s.incrementOutputIndex := by
  obtain ⟨hc, hpm, hfr⟩ := h
  refine ⟨⟨hc, hpm, ?_⟩, ?_⟩
  · exact frameSound_update _ _ _ hfr ⟨hc, hpm⟩
  · show (Function.update s.mCorrectionStates (s.mOutputIndex + 1) _
      (s.mOutputIndex + 1)).mProximityMatching = true → _
    rw [Function.update_same]
    exact hpm

theorem countersSound_processSkipChar (s : Correction) (c : Int) (isTerminal : Bool)
    (h : StateSound s) : CountersSound (s.processSkipChar c isTerminal).2 := by
  unfold Correction.processSkipChar
  simp only []
  split_ifs
  · exact countersSound_incrementOutputIndex _ h
  · exact countersSound_incrementOutputIndex _ h

theorem countersSound_emitAndAdvance (s : Correction) (c : Int) (isTerminal : Bool)
    (h : StateSound s) : CountersSound (s.emitAndAdvance c isTerminal).2 := by
  obtain ⟨⟨h1, h2, h3, h4⟩, hpm, hfr⟩ := h
  unfold Correction.emitAndAdvance
  simp only []
  apply countersSound_incrementOutputIndex
  unfold Correction.incrementInputIndex Correction.startToTraverseAllNodes
  split_ifs <;> exact ⟨⟨h1, h2, by first | exact h3 | (show (0 : Int) ≤ s.mExcessiveCount + 1; omega), h4⟩, hpm, hfr⟩


theorem countersSound_matchAndDispatch (s : Correction) (c : Int) (isTerminal : Bool)
    (secondTransposing : Bool) (h : CountersSound s) :
    CountersSound (s.matchAndDispatch c isTerminal secondTransposing).2 := by
  obtain ⟨⟨⟨h1, h2, h3, h4⟩, hpm, hfr⟩, hlink⟩ := h
  unfold Correction.matchAndDispatch
  simp only []
  split_ifs with hu ha ht hs hp hm hn
  · apply countersSound_emitAndAdvance
    exact ⟨⟨h1, by show (0 : Int) ≤ s.mTransposedCount + 1; omega, h3, h4⟩, hpm, hfr⟩
  · apply countersSound_emitAndAdvance
    exact ⟨⟨h1, h2, by show (0 : Int) ≤ s.mExcessiveCount + 1; omega, h4⟩, hpm, hfr⟩
  · apply countersSound_processSkipChar
    refine ⟨⟨h1, h2, h3, by show (0 : Int) ≤ s.mSkippedCount + 1; omega⟩, ?_, hfr⟩
    intro _ hz
    exfalso
    have hz' : s.mSkippedCount + 1 = 0 := hz
    omega
  · apply countersSound_processSkipChar
    simp only [Bool.and_eq_true, Bool.not_eq_true', Bool.or_eq_false_iff,
      decide_eq_false_iff_not, decide_eq_true_eq, not_lt] at hp
    obtain ⟨⟨⟨⟨⟨⟨hsk, _⟩, _⟩, _⟩, hfpm⟩, _⟩, _⟩ := hp
    have hzero : s.mSkippedCount = 0 := le_antisymm hsk h4
    have hprox := hlink hfpm hzero
    refine ⟨⟨by show (0 : Int) ≤ s.mProximityCount - 1; omega, h2, h3,
      by show (0 : Int) ≤ s.mSkippedCount + 1; omega⟩, ?_, hfr⟩
    intro _ hz
    exfalso
    have hz' : s.mSkippedCount + 1 = 0 := hz
    omega
  · exact ⟨⟨⟨h1, h2, h3, h4⟩, hpm, hfr⟩, hlink⟩
  · apply countersSound_emitAndAdvance
    exact ⟨⟨h1, h2, h3, h4⟩, hpm, hfr⟩
  · apply countersSound_emitAndAdvance
    refine ⟨⟨by show (0 : Int) ≤ s.mProximityCount + 1; omega, h2, h3, h4⟩, ?_, hfr⟩
    intro _ _
    show (1 : Int) ≤ s.mProximityCount + 1
    omega
  · apply countersSound_emitAndAdvance
    exact ⟨⟨h1, h2, h3, h4⟩, hpm, hfr⟩

theorem countersSound_updateExcessive (s : Correction) (h : CountersSound s) :
    CountersSound s.updateExcessive := by
  unfold Correction.updateExcessive
  simp only []
  split_ifs <;> exact h

theorem countersSound_updateSkip (s : Correction) (h : CountersSound s) :
    CountersSound s.updateSkip := by
  unfold Correction.updateSkip
  simp only []
  split_ifs <;> exact h

theorem countersSound_updateTransposed (s : Correction) (h : CountersSound s) :
    CountersSound s.updateTransposed := by
  unfold Correction.updateTransposed
  simp only []
  split_ifs <;> exact h

/-- A non-negative count with C remainder `1` modulo `2` is at least `1`. -/
theorem one_le_of_tmod_two (n : Int) (h0 : 0 ≤ n) (h : Int.tmod n 2 = 1) : 1 ≤ n := by
  rcases lt_or_ge 0 n with hpos | hle
  · omega
  · have : n = 0 := le_antisymm hle h0
    subst this
    exact absurd h (by decide)

theorem countersSound_processCharAndCalcState (s : Correction) (c : Int) (isTerminal : Bool)
    (h : CountersSound s) : CountersSound (s.processCharAndCalcState c isTerminal).2 := by
  have hs := countersSound_updateTransposed _
    (countersSound_updateSkip _ (countersSound_updateExcessive s h))
  unfold Correction.processCharAndCalcState
  simp only []
  generalize s.updateExcessive.updateSkip.updateTransposed = u at hs
  obtain ⟨⟨⟨h1, h2, h3, h4⟩, hpm, hfr⟩, hlink⟩ := hs
  split_ifs with hq hodd hsame hexc
  · exact countersSound_processSkipChar _ _ _ ⟨⟨h1, h2, h3, h4⟩, hpm, hfr⟩
  · apply countersSound_matchAndDispatch
    exact ⟨⟨⟨h1, by show (0 : Int) ≤ u.mTransposedCount + 1; omega, h3, h4⟩, hpm, hfr⟩, hlink⟩
  · apply countersSound_matchAndDispatch
    have := one_le_of_tmod_two _ h2 hodd
    exact ⟨⟨⟨h1, by show (0 : Int) ≤ u.mTransposedCount - 1; omega,
      by show (0 : Int) ≤ u.mExcessiveCount + 1; omega, h4⟩, hpm, hfr⟩, hlink⟩
  · have := one_le_of_tmod_two _ h2 hodd
    exact ⟨⟨⟨h1, by show (0 : Int) ≤ u.mTransposedCount - 1; omega, h3, h4⟩, hpm, hfr⟩, hlink⟩
  · exact countersSound_matchAndDispatch _ _ _ _ ⟨⟨⟨h1, h2, h3, h4⟩, hpm, hfr⟩, hlink⟩

theorem countersSound_initProcessState (s : Correction) (outputIndex : Int)
    (h : CountersSound s) : CountersSound (s.initProcessState outputIndex).2 := by
  unfold Correction.initProcessState
  split_ifs with hchild
  · exact h
  · obtain ⟨⟨_, _, hfr⟩, _⟩ := h
    have hframe := hfr outputIndex
    refine ⟨⟨hframe.1, ?_, ?_⟩, ?_⟩
    · intro hfalse _
      exact absurd hfalse (by simp)
    · exact frameSound_update _ _ _ hfr ⟨hframe.1, hframe.2⟩
    · show (Function.update s.mCorrectionStates outputIndex _ outputIndex).mProximityMatching
        = true → _
      rw [Function.update_same]
      exact hframe.2

theorem countersSound_goDownTree (s : Correction) (parentIndex childCount firstChildPos : Int)
    (h : CountersSound s) :
    CountersSound (s.goDownTree parentIndex childCount firstChildPos).2 := by
  obtain ⟨⟨hc, hpm, hfr⟩, hlink⟩ := h
  have hframe := hfr s.mOutputIndex
  refine ⟨⟨hc, hpm, ?_⟩, ?_⟩
  · exact frameSound_update _ _ _ hfr ⟨hframe.1, hframe.2⟩
  · show (Function.update s.mCorrectionStates s.mOutputIndex _ s.mOutputIndex).mProximityMatching
      = true → _
    rw [Function.update_same]
    exact hlink

theorem countersSound_initCorrectionState (s : Correction) (rootPos childCount : Int)
    (traverseAll : Bool) (h : CountersSound s) :
    CountersSound (s.initCorrectionState rootPos childCount traverseAll) := by
  obtain ⟨⟨hc, hpm, hfr⟩, hlink⟩ := h
  refine ⟨⟨hc, hpm, ?_⟩, ?_⟩
  · apply frameSound_update _ _ _ hfr
    refine ⟨⟨le_refl _, le_refl _, le_refl _, le_refl _⟩, ?_⟩
    intro hfalse _
    exact absurd hfalse (by simp [initCorrectionStateFrame])
  · show (Function.update s.mCorrectionStates 0 _ s.mOutputIndex).mProximityMatching = true → _
    by_cases h0 : s.mOutputIndex = 0
    · rw [h0, Function.update_same]
      intro hfalse _
      exact absurd hfalse (by simp [initCorrectionStateFrame])
    · rw [Function.update_noteq h0]
      exact hlink

theorem countersSound_step (s t : Correction) (hstep : DriverStep s t) (h : CountersSound s) :
    CountersSound t := by
  cases hstep with
  | initProcessState outputIndex => exact countersSound_initProcessState s outputIndex h
  | processCharAndCalcState c isTerminal =>
    exact countersSound_processCharAndCalcState s c isTerminal h
  | goDownTree parentIndex childCount firstChildPos =>
    exact countersSound_goDownTree s parentIndex childCount firstChildPos h

theorem countersNonneg_of_sound (s : Correction) (h : CountersSound s) : CountersNonneg s :=
  ⟨h.1.1, fun depth => (h.1.2.2 depth).1⟩


theorem countersSound_setCorrectionParams (s : Correction)
    (skipPos excessivePos transposedPos spaceProximityPos missingSpacePos : Int)
    (h : CountersSound s) :
    CountersSound (s.setCorrectionParams skipPos excessivePos transposedPos
      spaceProximityPos missingSpacePos) := by
  obtain ⟨⟨hc, hpm, hfr⟩, hlink⟩ := h
  have hframe := hfr 0
  refine ⟨⟨hc, hpm, ?_⟩, ?_⟩
  · exact frameSound_update _ _ _ hfr ⟨hframe.1, hframe.2⟩
  · show (Function.update s.mCorrectionStates 0 _ s.mOutputIndex).mProximityMatching = true → _
    by_cases h0 : s.mOutputIndex = 0
    · rw [h0, Function.update_same]
      rw [h0] at hlink
      exact hlink
    · rw [Function.update_noteq h0]
      exact hlink

theorem countersSound_initCorrection (s : Correction) (pi : ProximityInfo)
    (inputLength maxDepth : Int) (h : CountersSound s) :
    CountersSound (s.initCorrection pi inputLength maxDepth) := h

/-- A zeroed object is sound. -/
theorem countersSound_zeroCorrection (typed : List Nat) (maxDepth : Int) :
    CountersSound (zeroCorrection typed maxDepth) := by
  refine ⟨⟨⟨le_refl _, le_refl _, le_refl _, le_refl _⟩, ?_, ?_⟩, ?_⟩
  · intro hfalse _
    exact absurd hfalse (by simp [zeroCorrection])
  · intro depth
    refine ⟨⟨le_refl _, le_refl _, le_refl _, le_refl _⟩, ?_⟩
    intro hfalse _
    exact absurd hfalse (by simp [zeroCorrection, zeroFrame, initCorrectionStateFrame])
  · intro hfalse _
    exact absurd hfalse (by simp [zeroCorrection, zeroFrame, initCorrectionStateFrame])

/-- C10 (as stated, fails): in `unwrittenFrameStart`, the state after
`initCorrectionState` of an object whose counters are all zero, the walker calls
`initProcessState(1)` on a frame that no call has written and then
`processCharAndCalcState('a', false)`: the edge is unrelated to tap `1`, matches tap
`0`, the frame has `mProximityMatching` and `mSkipping` raised, and
`--mProximityCount` leaves the proximity count at `-1`. -/
theorem counters_negative_after_unwritten_frame :
    ReachableFrom unwrittenFrameStart
        ((unwrittenFrameStart.initProcessState 1).2.processCharAndCalcState 97 false).2
      ∧ CountersNonneg unwrittenFrameStart
      ∧ ((unwrittenFrameStart.initProcessState 1).2.processCharAndCalcState 97 false).2.mProximityCount
        = -1
      ∧ ¬ CountersNonneg
        ((unwrittenFrameStart.initProcessState 1).2.processCharAndCalcState 97 false).2 := by
  have hneg : ((unwrittenFrameStart.initProcessState 1).2.processCharAndCalcState 97
      false).2.mProximityCount = -1 := by decide
  refine ⟨?_, ?_, hneg, ?_⟩
  · exact ReachableFrom.step
      (ReachableFrom.step ReachableFrom.start (DriverStep.initProcessState _ 1))
      (DriverStep.processCharAndCalcState _ 97 false)
  · refine ⟨by decide, ?_⟩
    intro depth
    show FrameCountersNonneg (Function.update unwrittenFrameState.mCorrectionStates 0 _ depth)
    by_cases hd0 : depth = 0
    · subst hd0; rw [Function.update_same]; decide
    · rw [Function.update_noteq hd0]
      by_cases hd1 : depth = 1
      · subst hd1; decide
      · show FrameCountersNonneg (if depth = 1 then _ else zeroFrame)
        rw [if_neg hd1]; decide
  · intro hnn
    have h0 := hnn.1.1
    rw [hneg] at h0
    exact absurd h0 (by decide)

/-- C10 (amended): when `initCorrectionState` is called on a sound object (non-negative
counters in the working fields and in every frame, and `mProximityMatching`, wherever it
is raised with nothing skipped, backed by a proximity count of at least `1`), then in
every state reached by any sequence of `initProcessState`, `processCharAndCalcState` and
`goDownTree` calls the four counters are non-negative, the working ones and those of
every frame. -/
theorem counters_nonneg_reachable (s0 : Correction) (rootPos childCount : Int)
    (traverseAll : Bool) (h0 : CountersSound s0) (s : Correction)
    (hreach : ReachableFrom (s0.initCorrectionState rootPos childCount traverseAll) s) :
    CountersNonneg s := by
  apply countersNonneg_of_sound
  induction hreach with
  | start => exact countersSound_initCorrectionState s0 rootPos childCount traverseAll h0
  | step _ hstep ih => exact countersSound_step _ _ hstep ih

/-- C10 (amended), at a concrete run: from a zeroed object for the typed word "ab", after
`initCorrectionState(0, 1, false)`, `initProcessState(0)` and the edge 'a', the counters
are non-negative. -/
theorem counters_nonneg_reachable_witness :
    CountersSound (zeroCorrection [97, 98] 48)
      ∧ CountersNonneg
        ((((zeroCorrection [97, 98] 48).initCorrectionState 0 1 false).initProcessState
          0).2.processCharAndCalcState 97 false).2 :=
  ⟨countersSound_zeroCorrection [97, 98] 48,
    counters_nonneg_reachable (zeroCorrection [97, 98] 48) 0 1 false
      (countersSound_zeroCorrection [97, 98] 48) _
      (ReachableFrom.step
        (ReachableFrom.step ReachableFrom.start (DriverStep.initProcessState _ 0))
        (DriverStep.processCharAndCalcState _ 97 false))⟩

/-! ## Traversal: monotonicity of the counters -/

theorem incrementOutputIndex_counters (s : Correction) :
    s.incrementOutputIndex.mProximityCount = s.mProximityCount
      ∧ s.incrementOutputIndex.mTransposedCount = s.mTransposedCount
      ∧ s.incrementOutputIndex.mExcessiveCount = s.mExcessiveCount
      ∧ s.incrementOutputIndex.mSkippedCount = s.mSkippedCount
      ∧ s.incrementOutputIndex.mInputIndex = s.mInputIndex
      ∧ s.incrementOutputIndex.mOutputIndex = s.mOutputIndex + 1 :=
  ⟨rfl, rfl, rfl, rfl, rfl, rfl⟩

theorem processSkipChar_counters (s : Correction) (c : Int) (isTerminal : Bool) :
    (s.processSkipChar c isTerminal).2.mProximityCount = s.mProximityCount
      ∧ (s.processSkipChar c isTerminal).2.mTransposedCount = s.mTransposedCount
      ∧ (s.processSkipChar c isTerminal).2.mExcessiveCount = s.mExcessiveCount
      ∧ (s.processSkipChar c isTerminal).2.mSkippedCount = s.mSkippedCount
      ∧ (s.processSkipChar c isTerminal).2.mInputIndex = s.mInputIndex
      ∧ (s.processSkipChar c isTerminal).2.mOutputIndex = s.mOutputIndex + 1 := by
  unfold Correction.processSkipChar
  simp only []
  split_ifs <;> exact ⟨rfl, rfl, rfl, rfl, rfl, rfl⟩

theorem emitAndAdvance_counters (s : Correction) (c : Int) (isTerminal : Bool) :
    (s.emitAndAdvance c isTerminal).2.mProximityCount = s.mProximityCount
      ∧ (s.emitAndAdvance c isTerminal).2.mTransposedCount = s.mTransposedCount
      ∧ s.mExcessiveCount ≤ (s.emitAndAdvance c isTerminal).2.mExcessiveCount
      ∧ (s.emitAndAdvance c isTerminal).2.mSkippedCount = s.mSkippedCount := by
  unfold Correction.emitAndAdvance
  simp only []
  unfold Correction.incrementInputIndex Correction.startToTraverseAllNodes
    Correction.incrementOutputIndex
  split_ifs <;> refine ⟨rfl, rfl, ?_, rfl⟩ <;>
    first
      | exact le_refl _
      | (show s.mExcessiveCount ≤ s.mExcessiveCount + 1; omega)


theorem countersStep_of_eq (s u t : Correction) (h1 : u.mExcessiveCount = s.mExcessiveCount)
    (h2 : u.mSkippedCount = s.mSkippedCount) (h3 : u.mProximityCount = s.mProximityCount)
    (h4 : u.mTransposedCount = s.mTransposedCount) (h : CountersStep u t) :
    CountersStep s t := by
  unfold CountersStep at *
  rw [← h1, ← h2, ← h3, ← h4]
  exact h

/-- Emitting an edge keeps a state within one step of `s`. -/
theorem countersStep_emitAndAdvance (s v : Correction) (c : Int) (isTerminal : Bool)
    (h1 : s.mExcessiveCount ≤ v.mExcessiveCount) (h2 : s.mSkippedCount ≤ v.mSkippedCount)
    (h3 : s.mProximityCount + s.mSkippedCount ≤ v.mProximityCount + v.mSkippedCount)
    (h4 : s.mProximityCount - 1 ≤ v.mProximityCount)
    (h5 : s.mTransposedCount - 1 ≤ v.mTransposedCount) :
    CountersStep s (v.emitAndAdvance c isTerminal).2 := by
  obtain ⟨e1, e2, e3, e4⟩ := emitAndAdvance_counters v c isTerminal
  unfold CountersStep
  rw [e1, e2, e4]
  exact ⟨le_trans h1 e3, h2, h3, h4, h5⟩

theorem countersStep_processSkipChar (s v : Correction) (c : Int) (isTerminal : Bool)
    (h1 : s.mExcessiveCount ≤ v.mExcessiveCount) (h2 : s.mSkippedCount ≤ v.mSkippedCount)
    (h3 : s.mProximityCount + s.mSkippedCount ≤ v.mProximityCount + v.mSkippedCount)
    (h4 : s.mProximityCount - 1 ≤ v.mProximityCount)
    (h5 : s.mTransposedCount - 1 ≤ v.mTransposedCount) :
    CountersStep s (v.processSkipChar c isTerminal).2 := by
  obtain ⟨e1, e2, e3, e4, _, _⟩ := processSkipChar_counters v c isTerminal
  unfold CountersStep
  rw [e1, e2, e3, e4]
  exact ⟨h1, h2, h3, h4, h5⟩

/-- The dispatch on the proximity match: as `CountersStep`, and `transposed_count` does
not decrease. -/
theorem countersStep_matchAndDispatch (s : Correction) (c : Int) (isTerminal : Bool)
    (secondTransposing : Bool) :
    CountersStep s (s.matchAndDispatch c isTerminal secondTransposing).2
      ∧ s.mTransposedCount ≤ (s.matchAndDispatch c isTerminal secondTransposing).2.mTransposedCount := by
  have htr : ∀ v : Correction, s.mTransposedCount ≤ v.mTransposedCount →
      s.mTransposedCount ≤ (v.emitAndAdvance c isTerminal).2.mTransposedCount := by
    intro v hv; rw [(emitAndAdvance_counters v c isTerminal).2.1]; exact hv
  have hsk : ∀ v : Correction, s.mTransposedCount ≤ v.mTransposedCount →
      s.mTransposedCount ≤ (v.processSkipChar c isTerminal).2.mTransposedCount := by
    intro v hv; rw [(processSkipChar_counters v c isTerminal).2.1]; exact hv
  unfold Correction.matchAndDispatch
  simp only []
  split_ifs
  · refine ⟨countersStep_emitAndAdvance s _ c isTerminal (le_refl _) (le_refl _) (le_refl _)
      ?_ ?_, htr _ ?_⟩
    · show s.mProximityCount - 1 ≤ s.mProximityCount; omega
    · show s.mTransposedCount - 1 ≤ s.mTransposedCount + 1; omega
    · show s.mTransposedCount ≤ s.mTransposedCount + 1; omega
  · refine ⟨countersStep_emitAndAdvance s _ c isTerminal ?_ (le_refl _) (le_refl _)
      ?_ ?_, htr _ (le_refl _)⟩
    · show s.mExcessiveCount ≤ s.mExcessiveCount + 1; omega
    · show s.mProximityCount - 1 ≤ s.mProximityCount; omega
    · show s.mTransposedCount - 1 ≤ s.mTransposedCount; omega
  · refine ⟨countersStep_processSkipChar s _ c isTerminal (le_refl _) ?_ ?_ ?_ ?_,
      hsk _ (le_refl _)⟩
    · show s.mSkippedCount ≤ s.mSkippedCount + 1; omega
    · show s.mProximityCount + s.mSkippedCount ≤ s.mProximityCount + (s.mSkippedCount + 1)
      omega
    · show s.mProximityCount - 1 ≤ s.mProximityCount; omega
    · show s.mTransposedCount - 1 ≤ s.mTransposedCount; omega
  · refine ⟨countersStep_processSkipChar s _ c isTerminal (le_refl _) ?_ ?_ ?_ ?_,
      hsk _ (le_refl _)⟩
    · show s.mSkippedCount ≤ s.mSkippedCount + 1; omega
    · show s.mProximityCount + s.mSkippedCount
        ≤ (s.mProximityCount - 1) + (s.mSkippedCount + 1)
      omega
    · show s.mProximityCount - 1 ≤ s.mProximityCount - 1; omega
    · show s.mTransposedCount - 1 ≤ s.mTransposedCount; omega
  · refine ⟨⟨le_refl _, le_refl _, le_refl _, ?_, ?_⟩, le_refl _⟩
    · show s.mProximityCount - 1 ≤ s.mProximityCount; omega
    · show s.mTransposedCount - 1 ≤ s.mTransposedCount; omega
  · refine ⟨countersStep_emitAndAdvance s _ c isTerminal (le_refl _) (le_refl _) (le_refl _)
      ?_ ?_, htr _ (le_refl _)⟩
    · show s.mProximityCount - 1 ≤ s.mProximityCount; omega
    · show s.mTransposedCount - 1 ≤ s.mTransposedCount; omega
  · refine ⟨countersStep_emitAndAdvance s _ c isTerminal (le_refl _) (le_refl _) ?_
      ?_ ?_, htr _ (le_refl _)⟩
    · show s.mProximityCount + s.mSkippedCount ≤ (s.mProximityCount + 1) + s.mSkippedCount
      omega
    · show s.mProximityCount - 1 ≤ s.mProximityCount + 1; omega
    · show s.mTransposedCount - 1 ≤ s.mTransposedCount; omega
  · refine ⟨countersStep_emitAndAdvance s _ c isTerminal (le_refl _) (le_refl _) (le_refl _)
      ?_ ?_, htr _ (le_refl _)⟩
    · show s.mProximityCount - 1 ≤ s.mProximityCount; omega
    · show s.mTransposedCount - 1 ≤ s.mTransposedCount; omega

theorem updates_counters (s : Correction) :
    s.updateExcessive.updateSkip.updateTransposed.mExcessiveCount = s.mExcessiveCount
      ∧ s.updateExcessive.updateSkip.updateTransposed.mSkippedCount = s.mSkippedCount
      ∧ s.updateExcessive.updateSkip.updateTransposed.mProximityCount = s.mProximityCount
      ∧ s.updateExcessive.updateSkip.updateTransposed.mTransposedCount = s.mTransposedCount
      ∧ s.updateExcessive.updateSkip.updateTransposed.mInputIndex = s.mInputIndex
      ∧ s.updateExcessive.updateSkip.updateTransposed.mOutputIndex = s.mOutputIndex
      ∧ s.updateExcessive.updateSkip.updateTransposed.mNeedsToTraverseAllNodes
        = s.mNeedsToTraverseAllNodes
      ∧ s.updateExcessive.updateSkip.updateTransposed.mWord = s.mWord
      ∧ s.updateExcessive.updateSkip.updateTransposed.mProximityInfo = s.mProximityInfo := by
  have he : ∀ u : Correction, u.updateExcessive.mExcessiveCount = u.mExcessiveCount
      ∧ u.updateExcessive.mSkippedCount = u.mSkippedCount
      ∧ u.updateExcessive.mProximityCount = u.mProximityCount
      ∧ u.updateExcessive.mTransposedCount = u.mTransposedCount
      ∧ u.updateExcessive.mInputIndex = u.mInputIndex
      ∧ u.updateExcessive.mOutputIndex = u.mOutputIndex
      ∧ u.updateExcessive.mNeedsToTraverseAllNodes = u.mNeedsToTraverseAllNodes
      ∧ u.updateExcessive.mWord = u.mWord
      ∧ u.updateExcessive.mProximityInfo = u.mProximityInfo := by
    intro u; unfold Correction.updateExcessive; simp only []
    split_ifs <;> exact ⟨rfl, rfl, rfl, rfl, rfl, rfl, rfl, rfl, rfl⟩
  have hs : ∀ u : Correction, u.updateSkip.mExcessiveCount = u.mExcessiveCount
      ∧ u.updateSkip.mSkippedCount = u.mSkippedCount
      ∧ u.updateSkip.mProximityCount = u.mProximityCount
      ∧ u.updateSkip.mTransposedCount = u.mTransposedCount
      ∧ u.updateSkip.mInputIndex = u.mInputIndex
      ∧ u.updateSkip.mOutputIndex = u.mOutputIndex
      ∧ u.updateSkip.mNeedsToTraverseAllNodes = u.mNeedsToTraverseAllNodes
      ∧ u.updateSkip.mWord = u.mWord
      ∧ u.updateSkip.mProximityInfo = u.mProximityInfo := by
    intro u; unfold Correction.updateSkip; simp only []
    split_ifs <;> exact ⟨rfl, rfl, rfl, rfl, rfl, rfl, rfl, rfl, rfl⟩
  have ht : ∀ u : Correction, u.updateTransposed.mExcessiveCount = u.mExcessiveCount
      ∧ u.updateTransposed.mSkippedCount = u.mSkippedCount
      ∧ u.updateTransposed.mProximityCount = u.mProximityCount
      ∧ u.updateTransposed.mTransposedCount = u.mTransposedCount
      ∧ u.updateTransposed.mInputIndex = u.mInputIndex
      ∧ u.updateTransposed.mOutputIndex = u.mOutputIndex
      ∧ u.updateTransposed.mNeedsToTraverseAllNodes = u.mNeedsToTraverseAllNodes
      ∧ u.updateTransposed.mWord = u.mWord
      ∧ u.updateTransposed.mProximityInfo = u.mProximityInfo := by
    intro u; unfold Correction.updateTransposed; simp only []
    split_ifs <;> exact ⟨rfl, rfl, rfl, rfl, rfl, rfl, rfl, rfl, rfl⟩
  obtain ⟨a1, a2, a3, a4, a5, a6, a7, a8, a9⟩ := he s
  obtain ⟨b1, b2, b3, b4, b5, b6, b7, b8, b9⟩ := hs s.updateExcessive
  obtain ⟨c1, c2, c3, c4, c5, c6, c7, c8, c9⟩ := ht s.updateExcessive.updateSkip
  exact ⟨c1.trans (b1.trans a1), c2.trans (b2.trans a2), c3.trans (b3.trans a3),
    c4.trans (b4.trans a4), c5.trans (b5.trans a5), c6.trans (b6.trans a6),
    c7.trans (b7.trans a7), c8.trans (b8.trans a8), c9.trans (b9.trans a9)⟩

/-- C11 (amended): for every state and every per-edge call `processCharAndCalcState`,
`excessive_count` and `skipped_count` after the call are at least their value before;
`proximity_count` may decrease, by one, and only in the branch that books an earlier
proximity match as a skipped character, where `skipped_count` increases by one, so
that `proximity_count + skipped_count` does not decrease; `transposed_count` decreases
by at most one. -/
theorem processCharAndCalcState_counters (s : Correction) (c : Int) (isTerminal : Bool) :
    CountersStep s (s.processCharAndCalcState c isTerminal).2 := by
  obtain ⟨u1, u2, u3, u4, _, _, _, _, _⟩ := updates_counters s
  apply countersStep_of_eq s s.updateExcessive.updateSkip.updateTransposed _ u1 u2 u3 u4
  unfold Correction.processCharAndCalcState
  simp only []
  generalize s.updateExcessive.updateSkip.updateTransposed = u
  have key : ∀ (v : Correction) (st : Bool), u.mTransposedCount - 1 ≤ v.mTransposedCount →
      u.mExcessiveCount ≤ v.mExcessiveCount → v.mSkippedCount = u.mSkippedCount →
      v.mProximityCount = u.mProximityCount →
      CountersStep u (v.matchAndDispatch c isTerminal st).2 := by
    intro v st h1 h2 h3 h4
    obtain ⟨⟨m1, m2, m3, m4, _⟩, m6⟩ := countersStep_matchAndDispatch v c isTerminal st
    rw [h3] at m2 m3
    rw [h4] at m3 m4
    exact ⟨le_trans h2 m1, m2, m3, m4, le_trans h1 m6⟩
  split_ifs
  · exact countersStep_processSkipChar u u c isTerminal (le_refl _) (le_refl _) (le_refl _)
      (by omega) (by omega)
  · refine key _ true ?_ (le_refl _) rfl rfl
    show u.mTransposedCount - 1 ≤ u.mTransposedCount + 1
    omega
  · refine key _ false ?_ ?_ rfl rfl
    · show u.mTransposedCount - 1 ≤ u.mTransposedCount - 1
      exact le_refl _
    · show u.mExcessiveCount ≤ u.mExcessiveCount + 1
      omega
  · refine ⟨le_refl _, le_refl _, le_refl _, ?_, ?_⟩
    · show u.mProximityCount - 1 ≤ u.mProximityCount
      omega
    · show u.mTransposedCount - 1 ≤ u.mTransposedCount - 1
      exact le_refl _
  · exact key u false (by omega) (le_refl _) rfl rfl


/-- C11 (as stated, fails): in the session for the typed word "st" with `skip_pos = 0`,
on a keyboard where 'a' is a neighbour of 's', the candidate edge 'a' is taken as a
proximity match (`proximity_count = 1`); on the next edge 's', unrelated to the tap
't' and equal to the previous tap, the call books the earlier match as a skipped
character: `proximity_count` falls from `1` to `0` and `skipped_count` rises to `1`. -/
theorem proximity_count_decreases :
    ReachableFrom reclassifyStart reclassifyBefore
      ∧ reclassifyBefore.mProximityCount = 1
      ∧ (reclassifyBefore.processCharAndCalcState 115 false).2.mProximityCount = 0
      ∧ (reclassifyBefore.processCharAndCalcState 115 false).2.mSkippedCount = 1
      ∧ (reclassifyBefore.processCharAndCalcState 115 false).1
        = CorrectionType.TRAVERSE_ALL_NOT_ON_TERMINAL := by
  refine ⟨?_, by decide, by decide, by decide, by decide⟩
  exact ReachableFrom.step
    (ReachableFrom.step
      (ReachableFrom.step
        (ReachableFrom.step ReachableFrom.start (DriverStep.initProcessState _ 0))
        (DriverStep.processCharAndCalcState _ 97 false))
      (DriverStep.goDownTree _ 0 1 0))
    (DriverStep.initProcessState _ 1)

/-! ## Pruning -/

/-- C13 (as stated, fails): with `L = 3`, depth bound `3`, no transposition and
`output_index = 4`, the value `output_index - 1 = 3` does not exceed the bound `3` and
`proximity_count = 0` does not exceed `max_edit_distance = 2`, yet `needsToPrune`
returns true. -/
theorem needsToPrune_at_bound :
    ({ zeroCorrection [97, 98, 99] 3 with mOutputIndex := 4 } : Correction).needsToPrune = true
      ∧ ¬ (({ zeroCorrection [97, 98, 99] 3 with mOutputIndex := 4 } : Correction).mOutputIndex - 1
          > ({ zeroCorrection [97, 98, 99] 3 with mOutputIndex := 4 } : Correction).mMaxDepth)
      ∧ ({ zeroCorrection [97, 98, 99] 3 with mOutputIndex := 4 } : Correction).mTransposedPos < 0
      ∧ ¬ (({ zeroCorrection [97, 98, 99] 3 with mOutputIndex := 4 } : Correction).mProximityCount
          > ({ zeroCorrection [97, 98, 99] 3 with mOutputIndex := 4 } : Correction).mMaxEditDistance) := by
  decide

/-- C13 (amended): `needsToPrune` returns true exactly when `output_index - 1` has
reached the effective depth bound (is greater than or equal to `L - 1` if
`transposed_pos >= 0`, to `max_depth` otherwise) or `proximity_count >
max_edit_distance`; and `initCorrection` sets `max_edit_distance` to `2` if `L < 5`
and to `L / 2` otherwise. -/
theorem needsToPrune_iff (s : Correction) (pi : ProximityInfo) (inputLength maxDepth : Int) :
    (s.needsToPrune = true ↔
        (s.mOutputIndex - 1 ≥ (if s.mTransposedPos ≥ 0 then s.mInputLength - 1 else s.mMaxDepth)
          ∨ s.mProximityCount > s.mMaxEditDistance))
      ∧ (s.initCorrection pi inputLength maxDepth).mMaxEditDistance
        = (if inputLength < 5 then 2 else Int.tdiv inputLength 2)
      ∧ (s.initCorrection pi inputLength maxDepth).mInputLength = inputLength
      ∧ (s.initCorrection pi inputLength maxDepth).mMaxDepth = maxDepth := by
  refine ⟨?_, rfl, rfl, rfl⟩
  unfold Correction.needsToPrune
  simp only [Bool.or_eq_true, decide_eq_true_eq]

/-! ## Frames -/

/-- C14: when frame `d` has `child_count > 0`, after `initProcessState(d)` followed by
`incrementOutputIndex()` frame `d + 1` agrees with frame `d` (as `initProcessState`
left it, `child_count` decremented) on `parent_index`, `child_count`, `sibling_pos`,
`input_index`, `needs_to_traverse_all_nodes`, the four counters, the three positional
shadows and `last_char_exceeded`; its five edge flags are cleared; and frame `d` is
the frame from before the two calls with `child_count` decremented. -/
theorem initProcessState_incrementOutputIndex_frame (s : Correction) (d : Int)
    (hchild : (s.mCorrectionStates d).mChildCount > 0) :
    let after := (s.initProcessState d).2.incrementOutputIndex
    (s.initProcessState d).1 = true
      ∧ after.mOutputIndex = d + 1
      ∧ after.mCorrectionStates d
        = { s.mCorrectionStates d with mChildCount := (s.mCorrectionStates d).mChildCount - 1 }
      ∧ (after.mCorrectionStates (d + 1)).mParentIndex = (after.mCorrectionStates d).mParentIndex
      ∧ (after.mCorrectionStates (d + 1)).mChildCount = (after.mCorrectionStates d).mChildCount
      ∧ (after.mCorrectionStates (d + 1)).mSiblingPos = (after.mCorrectionStates d).mSiblingPos
      ∧ (after.mCorrectionStates (d + 1)).mInputIndex = (after.mCorrectionStates d).mInputIndex
      ∧ (after.mCorrectionStates (d + 1)).mNeedsToTraverseAllNodes
        = (after.mCorrectionStates d).mNeedsToTraverseAllNodes
      ∧ (after.mCorrectionStates (d + 1)).mProximityCount
        = (after.mCorrectionStates d).mProximityCount
      ∧ (after.mCorrectionStates (d + 1)).mTransposedCount
        = (after.mCorrectionStates d).mTransposedCount
      ∧ (after.mCorrectionStates (d + 1)).mExcessiveCount
        = (after.mCorrectionStates d).mExcessiveCount
      ∧ (after.mCorrectionStates (d + 1)).mSkippedCount
        = (after.mCorrectionStates d).mSkippedCount
      ∧ (after.mCorrectionStates (d + 1)).mSkipPos = (after.mCorrectionStates d).mSkipPos
      ∧ (after.mCorrectionStates (d + 1)).mTransposedPos
        = (after.mCorrectionStates d).mTransposedPos
      ∧ (after.mCorrectionStates (d + 1)).mExcessivePos
        = (after.mCorrectionStates d).mExcessivePos
      ∧ (after.mCorrectionStates (d + 1)).mLastCharExceeded
        = (after.mCorrectionStates d).mLastCharExceeded
      ∧ ((after.mCorrectionStates (d + 1)).mMatching = false
        ∧ (after.mCorrectionStates (d + 1)).mProximityMatching = false
        ∧ (after.mCorrectionStates (d + 1)).mTransposing = false
        ∧ (after.mCorrectionStates (d + 1)).mExceeding = false
        ∧ (after.mCorrectionStates (d + 1)).mSkipping = false) := by
  intro after
  have hne : d ≠ d + 1 := by omega
  have hnot : ¬ (s.mCorrectionStates d).mChildCount ≤ 0 := by omega
  have hinit : s.initProcessState d = (true,
      { s with
        mOutputIndex := d
        mCorrectionStates := Function.update s.mCorrectionStates d
          { s.mCorrectionStates d with mChildCount := (s.mCorrectionStates d).mChildCount - 1 }
        mInputIndex := (s.mCorrectionStates d).mInputIndex
        mNeedsToTraverseAllNodes := (s.mCorrectionStates d).mNeedsToTraverseAllNodes
        mProximityCount := (s.mCorrectionStates d).mProximityCount
        mTransposedCount := (s.mCorrectionStates d).mTransposedCount
        mExcessiveCount := (s.mCorrectionStates d).mExcessiveCount
        mSkippedCount := (s.mCorrectionStates d).mSkippedCount
        mLastCharExceeded := (s.mCorrectionStates d).mLastCharExceeded
        mTransposedPos := (s.mCorrectionStates d).mTransposedPos
        mExcessivePos := (s.mCorrectionStates d).mExcessivePos
        mSkipPos := (s.mCorrectionStates d).mSkipPos
        mMatching := false
        mProximityMatching := false
        mTransposing := false
        mExceeding := false
        mSkipping := false }) := by
    unfold Correction.initProcessState
    rw [if_neg hnot]
  have hd : after.mCorrectionStates d
      = { s.mCorrectionStates d with mChildCount := (s.mCorrectionStates d).mChildCount - 1 } := by
    simp only [after, hinit, Correction.incrementOutputIndex]
    rw [Function.update_noteq hne, Function.update_same]
  have hd1 : after.mCorrectionStates (d + 1)
      = { s.mCorrectionStates d with
          mChildCount := (s.mCorrectionStates d).mChildCount - 1
          mMatching := false
          mProximityMatching := false
          mTransposing := false
          mExceeding := false
          mSkipping := false } := by
    simp only [after, hinit, Correction.incrementOutputIndex]
    rw [Function.update_same, Function.update_same]
  refine ⟨by rw [hinit], by simp only [after, hinit, Correction.incrementOutputIndex], hd, ?_⟩
  rw [hd1, hd]
  exact ⟨rfl, rfl, rfl, rfl, rfl, rfl, rfl, rfl, rfl, rfl, rfl, rfl, rfl, rfl, rfl, rfl, rfl,
    rfl⟩

/-- C14, at a concrete state: frame `0` of a zeroed object with one child left. -/
theorem initProcessState_incrementOutputIndex_frame_witness :
    (((zeroCorrection [97] 48).initCorrectionState 0 1 false).mCorrectionStates 0).mChildCount
        > 0
      ∧ ((((zeroCorrection [97] 48).initCorrectionState 0 1 false).initProcessState
          0).2.incrementOutputIndex.mCorrectionStates (0 + 1)).mChildCount
        = ((((zeroCorrection [97] 48).initCorrectionState 0 1 false).initProcessState
          0).2.incrementOutputIndex.mCorrectionStates 0).mChildCount :=
  ⟨by decide,
    (initProcessState_incrementOutputIndex_frame
      ((zeroCorrection [97] 48).initCorrectionState 0 1 false) 0 (by decide)).2.2.2.2.1⟩


/-! ## Traversal: the quote and completion shortcut -/

/-- C20: in every state in which `needs_to_traverse_all_nodes` is set, or `c` is the
apostrophe while the primary typed character at `input_index` is not,
`processCharAndCalcState(c, is_terminal)` writes the code unit of `c` (which is `c`
itself for `0 ≤ c < 65536`) to `word[output_index]`, advances `output_index` by one,
leaves `input_index` and the four counters unchanged, and returns
`TRAVERSE_ALL_ON_TERMINAL` if completion mode is set and `is_terminal` holds,
`TRAVERSE_ALL_NOT_ON_TERMINAL` otherwise. -/
theorem processCharAndCalcState_free_skip (s : Correction) (c : Int) (isTerminal : Bool)
    (h : s.mNeedsToTraverseAllNodes = true
      ∨ (toUShort c = QUOTE ∧ s.mProximityInfo.getPrimaryCharAt s.mInputIndex ≠ QUOTE)) :
    (s.processCharAndCalcState c isTerminal).2.mWord s.mOutputIndex = toUShort c
      ∧ (0 ≤ c → c < 65536 →
        ((s.processCharAndCalcState c isTerminal).2.mWord s.mOutputIndex : Int) = c)
      ∧ (s.processCharAndCalcState c isTerminal).2.mOutputIndex = s.mOutputIndex + 1
      ∧ (s.processCharAndCalcState c isTerminal).2.mInputIndex = s.mInputIndex
      ∧ (s.processCharAndCalcState c isTerminal).2.mProximityCount = s.mProximityCount
      ∧ (s.processCharAndCalcState c isTerminal).2.mTransposedCount = s.mTransposedCount
      ∧ (s.processCharAndCalcState c isTerminal).2.mExcessiveCount = s.mExcessiveCount
      ∧ (s.processCharAndCalcState c isTerminal).2.mSkippedCount = s.mSkippedCount
      ∧ (s.processCharAndCalcState c isTerminal).1
        = (if s.mNeedsToTraverseAllNodes = true ∧ isTerminal = true then
            CorrectionType.TRAVERSE_ALL_ON_TERMINAL
          else CorrectionType.TRAVERSE_ALL_NOT_ON_TERMINAL) := by
  obtain ⟨u1, u2, u3, u4, u5, u6, u7, u8, u9⟩ := updates_counters s
  have hcond : (s.updateExcessive.updateSkip.updateTransposed.mNeedsToTraverseAllNodes
      || s.updateExcessive.updateSkip.updateTransposed.isQuote (toUShort c)) = true := by
    unfold Correction.isQuote
    rw [u7, u5, u9]
    rcases h with h | ⟨h1, h2⟩
    · rw [h]; rfl
    · simp [h1, h2]
  have hstep : s.processCharAndCalcState c isTerminal
      = s.updateExcessive.updateSkip.updateTransposed.processSkipChar c isTerminal := by
    unfold Correction.processCharAndCalcState
    simp only []
    rw [if_pos hcond]
  rw [hstep]
  generalize s.updateExcessive.updateSkip.updateTransposed = u at u1 u2 u3 u4 u5 u6 u7 u8 u9
  obtain ⟨p1, p2, p3, p4, p5, p6⟩ := processSkipChar_counters u c isTerminal
  have hword : (u.processSkipChar c isTerminal).2.mWord s.mOutputIndex = toUShort c := by
    unfold Correction.processSkipChar Correction.incrementOutputIndex
    simp only []
    split_ifs <;> (simp only []; rw [u6, Function.update_same])
  have htype : (u.processSkipChar c isTerminal).1
      = (if s.mNeedsToTraverseAllNodes = true ∧ isTerminal = true then
          CorrectionType.TRAVERSE_ALL_ON_TERMINAL
        else CorrectionType.TRAVERSE_ALL_NOT_ON_TERMINAL) := by
    unfold Correction.processSkipChar Correction.needsToTraverseAllNodes
    simp only []
    rw [u7]
    by_cases hb : s.mNeedsToTraverseAllNodes = true ∧ isTerminal = true
    · rw [if_pos hb]
      have : (s.mNeedsToTraverseAllNodes && isTerminal) = true := by simp [hb.1, hb.2]
      rw [if_pos this]
    · rw [if_neg hb]
      have : ¬ (s.mNeedsToTraverseAllNodes && isTerminal) = true := by
        intro hc; apply hb; simpa using hc
      rw [if_neg this]
  refine ⟨hword, ?_, by rw [p6, u6], by rw [p5, u5], by rw [p1, u3], by rw [p2, u4],
    by rw [p3, u1], by rw [p4, u2], htype⟩
  intro h0 h1
  rw [hword]
  unfold toUShort
  rw [Int.emod_eq_of_lt h0 h1]
  exact Int.toNat_of_nonneg h0

/-- C20, at a concrete state: an apostrophe edge in the session for the typed word "ab"
is a free skip. -/
theorem processCharAndCalcState_free_skip_witness :
    (toUShort 39 = QUOTE
        ∧ (zeroCorrection [97, 98] 48).mProximityInfo.getPrimaryCharAt
          (zeroCorrection [97, 98] 48).mInputIndex ≠ QUOTE)
      ∧ ((zeroCorrection [97, 98] 48).processCharAndCalcState 39 false).2.mOutputIndex
        = (zeroCorrection [97, 98] 48).mOutputIndex + 1
      ∧ ((zeroCorrection [97, 98] 48).processCharAndCalcState 39 false).2.mInputIndex
        = (zeroCorrection [97, 98] 48).mInputIndex :=
  ⟨by decide,
    (processCharAndCalcState_free_skip (zeroCorrection [97, 98] 48) 39 false
      (Or.inr (by decide))).2.2.1,
    (processCharAndCalcState_free_skip (zeroCorrection [97, 98] 48) 39 false
      (Or.inr (by decide))).2.2.2.1⟩


/-! ## Two-word split scoring: empty input -/

/-- C16 (as stated, fails): with `L = 0`, `space_proximity_pos = 1` and
`missing_space_pos = -1` the half lengths are `1` and `-2`, neither is zero, no divisor
is zero (`2`, `-1`, `1`, `-1`), and `getFreqForSplitTwoWords(1000, 1000)` evaluates the
formula and returns `INT_MAX`, not `0`. -/
theorem split_empty_input_not_zero :
    emptyInputSplitState.mInputLength = 0
      ∧ emptyInputSplitState.mSpaceProximityPos ≥ 0
      ∧ emptyInputSplitState.mMissingSpacePos < 0
      ∧ emptyInputSplitState.getFreqForSplitTwoWords sampleDefines 1000 1000 = 2147483647 := by
  decide

/-- C16 (amended): in a session with `L == 0` in which exactly one of
`space_proximity_pos` / `missing_space_pos` is non-negative, `getFreqForSplitTwoWords`
returns `0` for all frequencies, before any division, when that position is `0` (the
first half length is then `0`); when that position is positive both half lengths are
non-zero, one of them negative, and the formula is evaluated. -/
theorem split_empty_input_zero (s : Correction) (d : Defines) (firstFreq secondFreq : Int)
    (hL : s.mInputLength = 0)
    (hone : (s.mSpaceProximityPos ≥ 0 ∧ s.mMissingSpacePos < 0)
      ∨ (s.mSpaceProximityPos < 0 ∧ s.mMissingSpacePos ≥ 0)) :
    (max s.mSpaceProximityPos s.mMissingSpacePos = 0 →
        s.getFreqForSplitTwoWords d firstFreq secondFreq = 0)
      ∧ (max s.mSpaceProximityPos s.mMissingSpacePos ≠ 0 →
        (if s.mSpaceProximityPos ≥ 0 then s.mSpaceProximityPos else s.mMissingSpacePos) ≠ 0
          ∧ (if s.mSpaceProximityPos ≥ 0 then s.mInputLength - s.mSpaceProximityPos - 1
            else s.mInputLength - s.mMissingSpacePos) ≠ 0) := by
  refine ⟨?_, ?_⟩
  · intro hzero
    unfold Correction.getFreqForSplitTwoWords RankingAlgorithm.calcFreqForSplitTwoWords
    simp only []
    have hfirst : (if decide (s.mSpaceProximityPos ≥ 0) = true then s.mSpaceProximityPos
        else s.mMissingSpacePos) = 0 := by
      rcases hone with ⟨h1, h2⟩ | ⟨h1, h2⟩
      · have hd : decide (s.mSpaceProximityPos ≥ 0) = true := by
          rw [decide_eq_true_eq]; exact h1
        rw [if_pos hd]
        rw [max_eq_left (by omega)] at hzero
        exact hzero
      · have hd : ¬ decide (s.mSpaceProximityPos ≥ 0) = true := by
          rw [decide_eq_true_eq]; omega
        rw [if_neg hd]
        rw [max_eq_right (by omega)] at hzero
        exact hzero
    rw [if_pos (Or.inl hfirst)]
  · intro hne
    rw [hL]
    rcases hone with ⟨h1, h2⟩ | ⟨h1, h2⟩
    · rw [max_eq_left (by omega)] at hne
      rw [if_pos h1, if_pos h1]
      exact ⟨hne, by omega⟩
    · have hn : ¬ s.mSpaceProximityPos ≥ 0 := by omega
      rw [max_eq_right (by omega)] at hne
      rw [if_neg hn, if_neg hn]
      exact ⟨hne, by omega⟩

/-- C16 (amended), at a concrete session: the empty typed word with
`missing_space_pos = 0`. -/
theorem split_empty_input_zero_witness :
    (({ zeroCorrection [] 48 with mMissingSpacePos := 0 } : Correction).mInputLength = 0
        ∧ ({ zeroCorrection [] 48 with mMissingSpacePos := 0 } : Correction).mSpaceProximityPos < 0
        ∧ ({ zeroCorrection [] 48 with mMissingSpacePos := 0 } : Correction).mMissingSpacePos ≥ 0)
      ∧ ({ zeroCorrection [] 48 with mMissingSpacePos := 0 } : Correction).getFreqForSplitTwoWords
        sampleDefines 1000 1000 = 0 :=
  ⟨by decide,
    (split_empty_input_zero ({ zeroCorrection [] 48 with mMissingSpacePos := 0 } : Correction)
      sampleDefines 1000 1000 (by decide) (Or.inr (by decide))).1 (by decide)⟩


/-! ## Traversal under the driver protocol: at most one skipped character -/

theorem skipFramesSound_update (top : Int) (frames : Int → CorrectionState) (k : Int)
    (v : CorrectionState) (top1 : Int)
    (hframes : ∀ d, 0 ≤ d → d ≤ top → SkipFrameSound d (frames d))
    (hv : SkipFrameSound k v) (htop : ∀ d, d ≤ top1 → d ≠ k → d ≤ top) :
    ∀ d, 0 ≤ d → d ≤ top1 → SkipFrameSound d (Function.update frames k v d) := by
  intro d h0 h1
  by_cases h : d = k
  · subst h; rw [Function.update_same]; exact hv
  · rw [Function.update_noteq h]; exact hframes d h0 (htop d h1 h)

/-- Pushing a frame keeps the skip bookkeeping sound. -/
theorem skipSound_incrementOutputIndex (s : Correction) (top : Int)
    (hfr : SkipFramesSound top s) (h : SkipPushable top s) :
    SkipSound s.incrementOutputIndex (max top s.incrementOutputIndex.mOutputIndex) true := by
  obtain ⟨h1, h2, h3, h4, h5, h6, h7⟩ := h
  have hoi : s.incrementOutputIndex.mOutputIndex = s.mOutputIndex + 1 := rfl
  rw [hoi]
  refine ⟨by omega, ?_, ?_⟩
  · apply skipFramesSound_update top _ _ _ _ hfr
    · refine ⟨h3, h4, ?_, ?_⟩
      · intro hs
        have := h5 hs
        show s.mSkipPos < s.mOutputIndex + 1
        omega
      · intro hs
        have := h7 hs
        show s.mSkipPos < s.mOutputIndex + 1
        omega
    · intro d hd hne
      rcases le_max_iff.mp hd with h | h
      · exact h
      · omega
  · intro _
    refine ⟨by show (0 : Int) ≤ s.mOutputIndex + 1; omega, le_max_right _ _, h3, h4, ?_, h6, ?_⟩
    · intro hs
      have := h5 hs
      show s.mSkipPos < s.mOutputIndex + 1
      omega
    · show (Function.update s.mCorrectionStates (s.mOutputIndex + 1) _
        (s.mOutputIndex + 1)).mSkipping = true → s.mSkipPos ≤ s.mOutputIndex + 1
      rw [Function.update_same]
      intro hs
      have := h7 hs
      omega

/-- The fields on which the skip bookkeeping depends. -/
theorem skipPushable_congr (top : Int) (s v : Correction)
    (h1 : v.mOutputIndex = s.mOutputIndex) (h2 : v.mSkippedCount = s.mSkippedCount)
    (h3 : v.mSkipPos = s.mSkipPos) (h4 : v.mSkipping = s.mSkipping)
    (h : SkipPushable top s) : SkipPushable top v := by
  unfold SkipPushable at *
  rw [h1, h2, h3, h4]
  exact h

theorem skipFramesSound_congr (top : Int) (s v : Correction)
    (h5 : v.mCorrectionStates = s.mCorrectionStates)
    (h : SkipFramesSound top s) : SkipFramesSound top v := by
  unfold SkipFramesSound at *
  rw [h5]
  exact h

theorem emitAndAdvance_skip_view (s : Correction) (c : Int) (isTerminal : Bool) :
    ∃ v : Correction, (s.emitAndAdvance c isTerminal).2 = v.incrementOutputIndex
      ∧ v.mOutputIndex = s.mOutputIndex ∧ v.mSkippedCount = s.mSkippedCount
      ∧ v.mSkipPos = s.mSkipPos ∧ v.mSkipping = s.mSkipping
      ∧ v.mCorrectionStates = s.mCorrectionStates := by
  unfold Correction.emitAndAdvance Correction.startToTraverseAllNodes
    Correction.incrementInputIndex
  simp only []
  refine ⟨_, rfl, ?_, ?_, ?_, ?_, ?_⟩ <;> split_ifs <;> rfl

theorem processSkipChar_skip_view (s : Correction) (c : Int) (isTerminal : Bool) :
    ∃ v : Correction, (s.processSkipChar c isTerminal).2 = v.incrementOutputIndex
      ∧ v.mOutputIndex = s.mOutputIndex ∧ v.mSkippedCount = s.mSkippedCount
      ∧ v.mSkipPos = s.mSkipPos ∧ v.mSkipping = s.mSkipping
      ∧ v.mCorrectionStates = s.mCorrectionStates := by
  unfold Correction.processSkipChar
  simp only []
  split_ifs
  · exact ⟨_, rfl, rfl, rfl, rfl, rfl, rfl⟩
  · exact ⟨_, rfl, rfl, rfl, rfl, rfl, rfl⟩

theorem skipSound_emitAndAdvance (s : Correction) (c : Int) (isTerminal : Bool) (top : Int)
    (hfr : SkipFramesSound top s) (h : SkipPushable top s) :
    SkipSound (s.emitAndAdvance c isTerminal).2
      (max top (s.emitAndAdvance c isTerminal).2.mOutputIndex) true := by
  obtain ⟨v, hv, h1, h2, h3, h4, h5⟩ := emitAndAdvance_skip_view s c isTerminal
  rw [hv]
  exact skipSound_incrementOutputIndex v top (skipFramesSound_congr top s v h5 hfr)
    (skipPushable_congr top s v h1 h2 h3 h4 h)

theorem skipSound_processSkipChar (s : Correction) (c : Int) (isTerminal : Bool) (top : Int)
    (hfr : SkipFramesSound top s) (h : SkipPushable top s) :
    SkipSound (s.processSkipChar c isTerminal).2
      (max top (s.processSkipChar c isTerminal).2.mOutputIndex) true := by
  obtain ⟨v, hv, h1, h2, h3, h4, h5⟩ := processSkipChar_skip_view s c isTerminal
  rw [hv]
  exact skipSound_incrementOutputIndex v top (skipFramesSound_congr top s v h5 hfr)
    (skipPushable_congr top s v h1 h2 h3 h4 h)

theorem updateExcessive_skip_view (s : Correction) :
    s.updateExcessive.mOutputIndex = s.mOutputIndex
      ∧ s.updateExcessive.mSkippedCount = s.mSkippedCount
      ∧ s.updateExcessive.mSkipPos = s.mSkipPos
      ∧ s.updateExcessive.mSkipping = s.mSkipping
      ∧ s.updateExcessive.mCorrectionStates = s.mCorrectionStates := by
  unfold Correction.updateExcessive
  simp only []
  refine ⟨?_, ?_, ?_, ?_, ?_⟩ <;> split_ifs <;> rfl

theorem updateTransposed_skip_view (s : Correction) :
    s.updateTransposed.mOutputIndex = s.mOutputIndex
      ∧ s.updateTransposed.mSkippedCount = s.mSkippedCount
      ∧ s.updateTransposed.mSkipPos = s.mSkipPos
      ∧ s.updateTransposed.mSkipping = s.mSkipping
      ∧ s.updateTransposed.mCorrectionStates = s.mCorrectionStates := by
  unfold Correction.updateTransposed
  simp only []
  refine ⟨?_, ?_, ?_, ?_, ?_⟩ <;> split_ifs <;> rfl

theorem skipDrifted_congr (top : Int) (s v : Correction)
    (h1 : v.mOutputIndex = s.mOutputIndex) (h2 : v.mSkippedCount = s.mSkippedCount)
    (h3 : v.mSkipPos = s.mSkipPos) (h4 : v.mSkipping = s.mSkipping)
    (h5 : v.mCorrectionStates = s.mCorrectionStates)
    (h : SkipDrifted top s) : SkipDrifted top v := by
  unfold SkipDrifted at *
  rw [h1, h2, h3, h4, h5]
  exact h

theorem skipWorkingSound_congr (top : Int) (s v : Correction)
    (h1 : v.mOutputIndex = s.mOutputIndex) (h2 : v.mSkippedCount = s.mSkippedCount)
    (h3 : v.mSkipPos = s.mSkipPos) (h4 : v.mSkipping = s.mSkipping)
    (h5 : v.mCorrectionStates = s.mCorrectionStates)
    (h : SkipWorkingSound top s) : SkipWorkingSound top v := by
  unfold SkipWorkingSound at *
  rw [h1, h2, h3, h4, h5]
  exact h

/-- The drift of the skip position turns the invariant between two calls into the one
that holds inside `processCharAndCalcState`. -/
theorem skipDrifted_updateSkip (s : Correction) (top : Int) (h : SkipWorkingSound top s) :
    SkipDrifted top s.updateSkip ∧ s.updateSkip.mCorrectionStates = s.mCorrectionStates := by
  obtain ⟨h1, h2, h3, h4, h5, h6, h7⟩ := h
  unfold Correction.updateSkip
  simp only []
  by_cases hp : s.mSkipPos ≥ 0
  · rw [if_pos hp]
    by_cases hd : s.mSkippedCount = 0 ∧ s.mSkipPos < s.mOutputIndex
    · rw [if_pos hd]
      refine ⟨⟨h1, h2, h3, h4, ?_, ?_, ?_, ?_⟩, rfl⟩
      · intro hs
        have hs1 : s.mSkippedCount = 1 := hs
        omega
      · intro hs
        have hs1 : s.mSkipPos + 1 < 0 := hs
        omega
      · intro hs
        have hs1 : decide (s.mSkipPos + 1 = s.mOutputIndex) = true := hs
        exact of_decide_eq_true hs1
      · intro _
        show s.mSkipPos + 1 ≤ s.mOutputIndex
        omega
    · rw [if_neg hd]
      refine ⟨⟨h1, h2, h3, h4, ?_, ?_, ?_, ?_⟩, rfl⟩
      · intro hs
        have hs1 : s.mSkippedCount = 1 := hs
        have := h5 hs1
        refine ⟨this, ?_⟩
        show decide (s.mSkipPos = s.mOutputIndex) = false
        exact decide_eq_false (by omega)
      · intro hs
        have hs1 : s.mSkipPos < 0 := hs
        omega
      · intro hs
        have hs1 : decide (s.mSkipPos = s.mOutputIndex) = true := hs
        exact of_decide_eq_true hs1
      · intro hs
        exact h7 hs
  · rw [if_neg hp]
    have hneg : s.mSkipPos < 0 := by omega
    have hfalse := h6 hneg
    refine ⟨⟨h1, h2, h3, h4, ?_, h6, ?_, h7⟩, rfl⟩
    · intro hs
      exact ⟨h5 hs, hfalse⟩
    · intro hs
      rw [hfalse] at hs
      exact absurd hs (by decide)

theorem skipDrifted_updates (s : Correction) (top : Int) (hfr : SkipFramesSound top s)
    (h : SkipWorkingSound top s) :
    SkipDrifted top s.updateExcessive.updateSkip.updateTransposed
      ∧ SkipFramesSound top s.updateExcessive.updateSkip.updateTransposed := by
  obtain ⟨e1, e2, e3, e4, e5⟩ := updateExcessive_skip_view s
  obtain ⟨t1, t2, t3, t4, t5⟩ := updateTransposed_skip_view s.updateExcessive.updateSkip
  have hw := skipWorkingSound_congr top s s.updateExcessive e1 e2 e3 e4 e5 h
  obtain ⟨hd, hf⟩ := skipDrifted_updateSkip s.updateExcessive top hw
  refine ⟨skipDrifted_congr top _ _ t1 t2 t3 t4 t5 hd, ?_⟩
  apply skipFramesSound_congr top s
  · rw [t5, hf, e5]
  · exact hfr

theorem skipPushable_of_drifted (top : Int) (u v : Correction)
    (h1 : v.mOutputIndex = u.mOutputIndex) (h2 : v.mSkippedCount = u.mSkippedCount)
    (h3 : v.mSkipPos = u.mSkipPos) (h4 : v.mSkipping = u.mSkipping)
    (h : SkipDrifted top u) : SkipPushable top v := by
  obtain ⟨d1, d2, d3, d4, d5, d6, d7, _⟩ := h
  unfold SkipPushable
  rw [h1, h2, h3, h4]
  refine ⟨d1, d2, d3, d4, ?_, d6, d7⟩
  intro hs
  have := (d5 hs).1
  omega

theorem skipPushable_of_skip (top : Int) (u v : Correction)
    (h1 : v.mOutputIndex = u.mOutputIndex) (h2 : v.mSkippedCount = u.mSkippedCount + 1)
    (h3 : v.mSkipPos = u.mSkipPos) (h4 : v.mSkipping = u.mSkipping)
    (hcond : u.mSkipping = true
      ∨ (u.mSkippedCount ≤ 0 ∧ (u.mCorrectionStates u.mOutputIndex).mSkipping = true))
    (h : SkipDrifted top u) : SkipPushable top v := by
  obtain ⟨d1, d2, d3, d4, d5, d6, d7, d8⟩ := h
  unfold SkipPushable
  rw [h1, h2, h3, h4]
  have hzero : u.mSkippedCount = 0 := by
    rcases hcond with hc | hc
    · by_contra hne
      have h1 : u.mSkippedCount = 1 := by omega
      have hf := (d5 h1).2
      rw [hf] at hc
      exact absurd hc (by decide)
    · omega
  refine ⟨d1, d2, by omega, by omega, ?_, d6, d7⟩
  intro _
  rcases hcond with hc | hc
  · have := d7 hc
    omega
  · exact d8 hc.2

theorem skipSound_of_drifted (top : Int) (u v : Correction)
    (h1 : v.mOutputIndex = u.mOutputIndex) (h2 : v.mSkippedCount = u.mSkippedCount)
    (h3 : v.mSkipPos = u.mSkipPos) (h4 : v.mSkipping = u.mSkipping)
    (h5 : v.mCorrectionStates = u.mCorrectionStates)
    (hfr : SkipFramesSound top u) (h : SkipDrifted top u) :
    SkipSound v (max top v.mOutputIndex) true := by
  obtain ⟨d1, d2, d3, d4, d5, d6, d7, d8⟩ := h
  have hmax : max top v.mOutputIndex = top := by rw [h1]; exact max_eq_left d2
  rw [hmax]
  refine ⟨by omega, skipFramesSound_congr top u v h5 hfr, ?_⟩
  intro _
  unfold SkipWorkingSound
  rw [h1, h2, h3, h4, h5]
  exact ⟨d1, d2, d3, d4, fun hs => (d5 hs).1, d6, d8⟩

/-- The dispatch on the proximity match keeps the skip bookkeeping sound. -/
theorem skipSound_matchAndDispatch (u : Correction) (c : Int) (isTerminal st : Bool)
    (top : Int) (hfr : SkipFramesSound top u) (h : SkipDrifted top u) :
    SkipSound (u.matchAndDispatch c isTerminal st).2
      (max top (u.matchAndDispatch c isTerminal st).2.mOutputIndex) true := by
  have plain : ∀ v : Correction, v.mOutputIndex = u.mOutputIndex →
      v.mSkippedCount = u.mSkippedCount → v.mSkipPos = u.mSkipPos →
      v.mSkipping = u.mSkipping → v.mCorrectionStates = u.mCorrectionStates →
      SkipSound (v.emitAndAdvance c isTerminal).2
        (max top (v.emitAndAdvance c isTerminal).2.mOutputIndex) true := by
    intro v h1 h2 h3 h4 h5
    exact skipSound_emitAndAdvance v c isTerminal top (skipFramesSound_congr top u v h5 hfr)
      (skipPushable_of_drifted top u v h1 h2 h3 h4 h)
  have skip : ∀ v : Correction, v.mOutputIndex = u.mOutputIndex →
      v.mSkippedCount = u.mSkippedCount + 1 → v.mSkipPos = u.mSkipPos →
      v.mSkipping = u.mSkipping → v.mCorrectionStates = u.mCorrectionStates →
      (u.mSkipping = true
        ∨ (u.mSkippedCount ≤ 0 ∧ (u.mCorrectionStates u.mOutputIndex).mSkipping = true)) →
      SkipSound (v.processSkipChar c isTerminal).2
        (max top (v.processSkipChar c isTerminal).2.mOutputIndex) true := by
    intro v h1 h2 h3 h4 h5 hc
    exact skipSound_processSkipChar v c isTerminal top (skipFramesSound_congr top u v h5 hfr)
      (skipPushable_of_skip top u v h1 h2 h3 h4 hc h)
  unfold Correction.matchAndDispatch
  simp only []
  split_ifs with c1 c2 c3 c4 c5 c6 c7
  · exact plain _ rfl rfl rfl rfl rfl
  · exact plain _ rfl rfl rfl rfl rfl
  · refine skip _ rfl rfl rfl rfl rfl (Or.inl ?_)
    simp only [Bool.and_eq_true] at c4
    exact c4.1
  · refine skip _ rfl rfl rfl rfl rfl (Or.inr ?_)
    simp only [Bool.and_eq_true, Bool.not_eq_true', Bool.or_eq_false_iff,
      decide_eq_false_iff_not, decide_eq_true_eq] at c5
    exact ⟨by omega, c5.1.2⟩
  · exact skipSound_of_drifted top u _ rfl rfl rfl rfl rfl hfr h
  · exact plain _ rfl rfl rfl rfl rfl
  · exact plain _ rfl rfl rfl rfl rfl
  · exact plain _ rfl rfl rfl rfl rfl

theorem skipSound_processCharAndCalcState (s : Correction) (c : Int) (isTerminal : Bool)
    (top : Int) (h : SkipSound s top true) :
    SkipSound (s.processCharAndCalcState c isTerminal).2
      (max top (s.processCharAndCalcState c isTerminal).2.mOutputIndex) true := by
  obtain ⟨_, hfr, hw⟩ := h
  obtain ⟨hd, hf⟩ := skipDrifted_updates s top hfr (hw rfl)
  unfold Correction.processCharAndCalcState
  simp only []
  generalize s.updateExcessive.updateSkip.updateTransposed = u at hd hf
  have dispatch : ∀ (v : Correction) (st : Bool), v.mOutputIndex = u.mOutputIndex →
      v.mSkippedCount = u.mSkippedCount → v.mSkipPos = u.mSkipPos →
      v.mSkipping = u.mSkipping → v.mCorrectionStates = u.mCorrectionStates →
      SkipSound (v.matchAndDispatch c isTerminal st).2
        (max top (v.matchAndDispatch c isTerminal st).2.mOutputIndex) true := by
    intro v st h1 h2 h3 h4 h5
    exact skipSound_matchAndDispatch v c isTerminal st top
      (skipFramesSound_congr top u v h5 hf) (skipDrifted_congr top u v h1 h2 h3 h4 h5 hd)
  split_ifs
  · exact skipSound_processSkipChar u c isTerminal top hf
      (skipPushable_of_drifted top u u rfl rfl rfl rfl hd)
  · exact dispatch _ true rfl rfl rfl rfl rfl
  · exact dispatch _ false rfl rfl rfl rfl rfl
  · exact skipSound_of_drifted top u _ rfl rfl rfl rfl rfl hf hd
  · exact dispatch u false rfl rfl rfl rfl rfl

theorem skipFrameSound_congr (d : Int) (f g : CorrectionState)
    (h1 : g.mSkippedCount = f.mSkippedCount) (h2 : g.mSkipPos = f.mSkipPos)
    (h3 : g.mSkipping = f.mSkipping) (h : SkipFrameSound d f) : SkipFrameSound d g := by
  unfold SkipFrameSound at *
  rw [h1, h2, h3]
  exact h

theorem skipSound_initProcessState (s : Correction) (top : Int) (loaded : Bool)
    (outputIndex : Int) (h : SkipSound s top loaded) (h0 : 0 ≤ outputIndex)
    (h1 : outputIndex ≤ top) :
    SkipSound (s.initProcessState outputIndex).2 top
      (loaded || (s.initProcessState outputIndex).1) := by
  obtain ⟨ht, hfr, hw⟩ := h
  unfold Correction.initProcessState
  simp only []
  split_ifs with hc
  · refine ⟨ht, hfr, ?_⟩
    intro hl
    apply hw
    simpa using hl
  · obtain ⟨f1, f2, f3, f4⟩ := hfr outputIndex h0 h1
    refine ⟨ht, ?_, ?_⟩
    · apply skipFramesSound_update top _ _ _ top hfr
      · exact skipFrameSound_congr outputIndex _ _ rfl rfl rfl ⟨f1, f2, f3, f4⟩
      · intro d hd _
        exact hd
    · intro _
      refine ⟨h0, h1, f1, f2, f3, fun _ => rfl, ?_⟩
      show (Function.update s.mCorrectionStates outputIndex _ outputIndex).mSkipping = true →
        (s.mCorrectionStates outputIndex).mSkipPos ≤ outputIndex
      rw [Function.update_same]
      intro hs
      have := f4 hs
      omega

theorem skipSound_goDownTree (s : Correction) (top : Int)
    (parentIndex childCount firstChildPos : Int) (h : SkipSound s top true) :
    SkipSound (s.goDownTree parentIndex childCount firstChildPos).2 top true := by
  obtain ⟨ht, hfr, hw⟩ := h
  obtain ⟨w1, w2, w3, w4, w5, w6, w7⟩ := hw rfl
  unfold Correction.goDownTree
  refine ⟨ht, ?_, ?_⟩
  · apply skipFramesSound_update top _ _ _ top hfr
    · exact skipFrameSound_congr s.mOutputIndex _ _ rfl rfl rfl (hfr s.mOutputIndex w1 w2)
    · intro d hd _
      exact hd
  · intro _
    refine ⟨w1, w2, w3, w4, w5, w6, ?_⟩
    show (Function.update s.mCorrectionStates s.mOutputIndex _ s.mOutputIndex).mSkipping = true →
      s.mSkipPos ≤ s.mOutputIndex
    rw [Function.update_same]
    exact w7

theorem skipSound_sessionStart (object : Correction) (pi : ProximityInfo)
    (inputLength maxDepth skipPos excessivePos transposedPos spaceProximityPos
      missingSpacePos rootPos childCount : Int) (traverseAll : Bool) :
    SkipSound (sessionStart object pi inputLength maxDepth skipPos excessivePos transposedPos
      spaceProximityPos missingSpacePos rootPos childCount traverseAll) 0 false := by
  refine ⟨le_refl _, ?_, fun h => absurd h (by decide)⟩
  intro d h0 h1
  have hd : d = 0 := by omega
  subst hd
  have key : ∀ t : Correction, SkipFrameSound 0
      ((t.initCorrectionState rootPos childCount traverseAll).mCorrectionStates 0) := by
    intro t
    unfold Correction.initCorrectionState
    simp only [Function.update_same]
    refine ⟨le_refl _, ?_, ?_, ?_⟩
    · show (0 : Int) ≤ 1
      decide
    · intro hs
      have hs1 : (0 : Int) = 1 := hs
      exact absurd hs1 (by decide)
    · intro hs
      have hs1 : false = true := hs
      exact absurd hs1 (by decide)
  exact key _

/-- The skip bookkeeping is sound in every state of the driver protocol. -/
theorem skipSound_driverProtocol (start s : Correction) (top : Int) (loaded : Bool)
    (h0 : SkipSound start 0 false) (h : DriverProtocol start s top loaded) :
    SkipSound s top loaded := by
  induction h with
  | start => exact h0
  | initProcessState outputIndex _ hlo hhi ih =>
    exact skipSound_initProcessState _ _ _ outputIndex ih hlo hhi
  | processCharAndCalcState c isTerminal _ ih =>
    exact skipSound_processCharAndCalcState _ c isTerminal _ ih
  | goDownTree parentIndex childCount firstChildPos _ ih =>
    exact skipSound_goDownTree _ _ parentIndex childCount firstChildPos ih

/-- Claim C12, as stated, fails: the working `skipped_count` is not written by
`initCorrection`, `setCorrectionParams` or `initCorrectionState`, so in the state in
which the traversal of a session with `L = 1` starts it still has the value the object
held before (here `5`), which exceeds `L`. -/
theorem skipped_count_stale_at_session_start :
    DriverProtocol unloadedStart unloadedStart 0 false
      ∧ unloadedStart.mInputLength = 1
      ∧ unloadedStart.mSkippedCount = 5
      ∧ ¬ unloadedStart.mSkippedCount ≤ unloadedStart.mInputLength := by
  refine ⟨DriverProtocol.start, rfl, rfl, ?_⟩
  decide

/-- Claim C12, amended: for every object and every session with input length `L ≥ 1`,
in every state the driver protocol reaches once `initProcessState` has loaded a frame
(frames are loaded only at depths the session has written), `skipped_count` is `0` or
`1`, hence at most `L`. -/
theorem skipped_count_le_input_length (object : Correction) (pi : ProximityInfo)
    (inputLength maxDepth skipPos excessivePos transposedPos spaceProximityPos
      missingSpacePos rootPos childCount : Int) (traverseAll : Bool)
    (s : Correction) (top : Int) (hL : 1 ≤ inputLength)
    (h : DriverProtocol (sessionStart object pi inputLength maxDepth skipPos excessivePos
      transposedPos spaceProximityPos missingSpacePos rootPos childCount traverseAll)
      s top true) :
    0 ≤ s.mSkippedCount ∧ s.mSkippedCount ≤ 1 ∧ s.mSkippedCount ≤ inputLength := by
  obtain ⟨_, _, hw⟩ := skipSound_driverProtocol _ s top true
    (skipSound_sessionStart object pi inputLength maxDepth skipPos excessivePos transposedPos
      spaceProximityPos missingSpacePos rootPos childCount traverseAll) h
  obtain ⟨_, _, w3, w4, _⟩ := hw rfl
  exact ⟨w3, w4, by omega⟩

theorem skipSessionState_protocol :
    DriverProtocol skipSessionStart skipSessionState 2 true := by
  have p0 : DriverProtocol skipSessionStart skipSessionStart 0 false := DriverProtocol.start
  have p1 : DriverProtocol skipSessionStart (skipSessionStart.initProcessState 0).2 0 true :=
    DriverProtocol.initProcessState 0 p0 (by decide) (by decide)
  have p2 : DriverProtocol skipSessionStart
      ((skipSessionStart.initProcessState 0).2.processCharAndCalcState 97 false).2 1 true :=
    DriverProtocol.processCharAndCalcState 97 false p1
  have p3 := DriverProtocol.goDownTree 0 1 0 p2
  have p4 : DriverProtocol skipSessionStart
      ((((skipSessionStart.initProcessState 0).2.processCharAndCalcState 97 false).2.goDownTree
        0 1 0).2.initProcessState 1).2 1 true :=
    DriverProtocol.initProcessState 1 p3 (by decide) (by decide)
  exact DriverProtocol.processCharAndCalcState 98 false p4

theorem skipped_count_le_input_length_witness :
    (1 : Int) ≤ 2
      ∧ DriverProtocol skipSessionStart skipSessionState 2 true
      ∧ skipSessionState.mSkippedCount = 1
      ∧ (0 ≤ skipSessionState.mSkippedCount ∧ skipSessionState.mSkippedCount ≤ 1
        ∧ skipSessionState.mSkippedCount ≤ 2) :=
  ⟨by decide, skipSessionState_protocol, by decide,
    skipped_count_le_input_length (zeroCorrection [97, 99] 48) (exactProximityInfo [97, 99])
      2 48 1 (-1) (-1) (-1) (-1) 0 1 false skipSessionState 2 (by decide)
      skipSessionState_protocol⟩


/-! ## Scoring of a terminal: the steps that apply under given counters -/

/-- The value `getFinalFreq` returns for a candidate that passes the early returns. -/
theorem getFinalFreq_freq_of_accepted (self : Correction) (d : Defines)
    (toBaseLowerCase : Nat → Nat) (freq : Int) (word : Option (Int → Nat))
    (h1 : self.mProximityInfo.sameAsTyped self.mWord (self.mTerminalOutputIndex + 1) = false)
    (h2 : d.MIN_SUGGEST_DEPTH ≤ self.mTerminalOutputIndex)
    (h3 : RankingAlgorithm.isRejected self = false) :
    (self.getFinalFreq d toBaseLowerCase freq word).freq
      = RankingAlgorithm.promoteAndDemote d self.mTerminalInputIndex self.mTerminalOutputIndex
          (RankingAlgorithm.matchWeightAndProximity d toBaseLowerCase self.mTerminalOutputIndex
            self.mEditDistanceTable self).2 self
          (RankingAlgorithm.initialFinalFreq d toBaseLowerCase self.mTerminalOutputIndex freq
            self.mEditDistanceTable self) := by
  unfold Correction.getFinalFreq
  simp only []
  have hearly : (self.mProximityInfo.sameAsTyped self.mWord (self.mTerminalOutputIndex + 1)
      || decide (self.mTerminalOutputIndex < d.MIN_SUGGEST_DEPTH)) = false := by
    rw [h1, Bool.false_or]
    exact decide_eq_false (by omega)
  rw [hearly]
  show RankingAlgorithm.calculateFinalFreq d toBaseLowerCase self.mTerminalInputIndex
    self.mTerminalOutputIndex freq self.mEditDistanceTable self = _
  unfold RankingAlgorithm.calculateFinalFreq
  rw [h3]
  rfl

/-- Without proximity match and skip, or with a transposition or excessive position,
the match weight is the multiplier to the power `matchCount`, and the proximity count
is left as it is. -/
theorem matchWeightAndProximity_plain (d : Defines) (toBaseLowerCase : Nat → Nat)
    (outputIndex : Int) (table : Int → Int) (c : Correction)
    (h : 0 ≤ c.mExcessivePos ∨ 0 ≤ c.mTransposedPos
      ∨ (c.mProximityCount ≤ 0 ∧ c.mSkippedCount ≤ 0)) :
    RankingAlgorithm.matchWeightAndProximity d toBaseLowerCase outputIndex table c
      = (powerIntCapped c.TYPED_LETTER_MULTIPLIER (RankingAlgorithm.matchCount c),
          c.mProximityCount) := by
  unfold RankingAlgorithm.matchWeightAndProximity Correction.getExcessivePos
    Correction.getTransposedPos
  simp only []
  have hcond : (decide (c.mExcessivePos < 0) && decide (c.mTransposedPos < 0)
      && (decide (c.mProximityCount > 0) || decide (c.mSkippedCount > 0))) = false := by
    rcases h with h | h | h
    · have : decide (c.mExcessivePos < 0) = false := decide_eq_false (by omega)
      rw [this]; rfl
    · have : decide (c.mTransposedPos < 0) = false := decide_eq_false (by omega)
      rw [this, Bool.and_false]; rfl
    · have h1 : decide (c.mProximityCount > 0) = false := decide_eq_false (by omega)
      have h2 : decide (c.mSkippedCount > 0) = false := decide_eq_false (by omega)
      rw [h1, h2]; simp
  rw [hcond]
  rfl

/-- The steps of the ranking for a candidate with an excessive position, nothing
skipped, no transposition position, no proximity match, of the typed length: the
excessive-character demotion, the out-of-proximity demotion when the oracle finds no
adjacent proximity character at the terminal input index, the error-count step at
rate `100` and the full-word multiplier. -/
theorem promoteAndDemote_excessive (d : Defines) (inputIndex outputIndex : Int)
    (c : Correction) (f : Int)
    (hex : 0 ≤ c.mExcessivePos) (htr : c.mTransposedPos < 0) (hsk : c.mSkippedCount = 0)
    (hpr : c.mProximityCount = 0) (hlast : c.mLastCharExceeded = false)
    (hlen : c.mInputLength = inputIndex + 1) :
    RankingAlgorithm.promoteAndDemote d inputIndex outputIndex 0 c f
      = multiplyIntCapped c.FULL_WORD_MULTIPLIER
          (multiplyRate 100
            (if c.mProximityInfo.existsAdjacentProximityChars inputIndex = true then
              multiplyRate d.WORDS_WITH_EXCESSIVE_CHARACTER_DEMOTION_RATE f
            else
              multiplyRate d.WORDS_WITH_EXCESSIVE_CHARACTER_OUT_OF_PROXIMITY_DEMOTION_RATE
                (multiplyRate d.WORDS_WITH_EXCESSIVE_CHARACTER_DEMOTION_RATE f))) := by
  unfold RankingAlgorithm.promoteAndDemote RankingAlgorithm.matchCount
  simp only []
  have e1 : c.getExcessivePos = c.mExcessivePos := rfl
  have e2 : c.getTransposedPos = c.mTransposedPos := rfl
  have hex1 : ¬ c.mExcessivePos < 0 := by omega
  have htr1 : ¬ c.mTransposedPos ≥ 0 := by omega
  have hex2 : c.mExcessivePos ≥ 0 := hex
  have hne : ¬ (inputIndex + 1 - 1 = inputIndex + 1) := by omega
  cases hadj : c.mProximityInfo.existsAdjacentProximityChars inputIndex <;>
  simp only [e1, e2, hsk, hpr, hlast, hlen, hex1, htr1, htr, hex2, hne, hadj, gt_iff_lt,
    lt_self_iff_false, decide_False, decide_True, if_true, if_false, Bool.false_eq_true,
    Bool.and_false, Bool.false_and, Bool.and_true, Bool.true_and, Bool.not_false,
    Bool.not_true, ite_self, Int.toNat_zero, RankingAlgorithm.proximityPromotionLoop,
    add_zero, mul_zero, Int.zero_tdiv, sub_zero, if_false, if_true]

/-- The traversal facts of the scenario "woord" / "word", for every pair of adjacency
answers. -/
theorem excessiveWalk_facts (a1 a4 : Bool) :
    (excessiveWalk a1 a4).1 = [CorrectionType.NOT_ON_TERMINAL, CorrectionType.NOT_ON_TERMINAL,
        CorrectionType.NOT_ON_TERMINAL, CorrectionType.ON_TERMINAL]
      ∧ [1, 2, 3, 4].map (fun k => ((excessiveWalk a1 a4).2.mCorrectionStates k).mExcessiveCount)
          = [0, 0, 1, 1]
      ∧ (∀ k ∈ [1, 2, 3, 4],
          ((excessiveWalk a1 a4).2.mCorrectionStates k).mLastCharExceeded = false)
      ∧ (excessiveWalk a1 a4).2.mExcessiveCount = 1
      ∧ (excessiveWalk a1 a4).2.mExcessivePos = 2
      ∧ (excessiveWalk a1 a4).2.mTerminalInputIndex = 4
      ∧ (excessiveWalk a1 a4).2.mTerminalOutputIndex = 3 := by
  cases a1 <;> cases a4 <;> decide

/-- Claim C18 (the out-of-proximity demotion looks at the wrong tap): for typed "woord"
and candidate "word" walked with `excessive_pos = 1`, the excessive tap has no adjacent
proximity character (the oracle answers false at the indices `1` and `2`), yet the
candidate gets the excessive demotion without the out-of-proximity demotion (`2400`,
not `1800`, for frequency `100` at the sample constants): line 534 asks the oracle at
the terminal input index, `4`, where it answers true. `excessive_count` is raised on
the third edge, and `mLastCharExceeded` is false on every edge. -/
theorem excessive_scenario_adjacency_at_terminal :
    (excessiveStart false true).mProximityInfo.existsAdjacentProximityChars 1 = false
      ∧ (excessiveStart false true).mProximityInfo.existsAdjacentProximityChars 2 = false
      ∧ (excessiveStart false true).mProximityInfo.existsAdjacentProximityChars 4 = true
      ∧ (excessiveWalk false true).1.getLast? = some CorrectionType.ON_TERMINAL
      ∧ (excessiveWalk false true).2.mTerminalInputIndex = 4
      ∧ ((excessiveWalk false true).2.getFinalFreq sampleDefines id 100 none).freq = 2400
      ∧ multiplyIntCapped 2 (multiplyRate 100
          (multiplyRate sampleDefines.WORDS_WITH_EXCESSIVE_CHARACTER_DEMOTION_RATE 1600)) = 2400
      ∧ multiplyIntCapped 2 (multiplyRate 100
          (multiplyRate sampleDefines.WORDS_WITH_EXCESSIVE_CHARACTER_OUT_OF_PROXIMITY_DEMOTION_RATE
            (multiplyRate sampleDefines.WORDS_WITH_EXCESSIVE_CHARACTER_DEMOTION_RATE 1600)))
          = 1800
      ∧ [1, 2, 3, 4].map
          (fun k => ((excessiveWalk false true).2.mCorrectionStates k).mExcessiveCount)
          = [0, 0, 1, 1]
      ∧ (∀ k ∈ [1, 2, 3, 4],
          ((excessiveWalk false true).2.mCorrectionStates k).mLastCharExceeded = false) := by
  decide

/-- What the code computes in the scenario "woord" / "word" with `excessive_pos = 1`,
for every frequency, every configuration and every pair of adjacency answers: the three
inner edges return `NOT_ON_TERMINAL` and the terminal edge `ON_TERMINAL`;
`excessive_count` becomes `1` on the third edge, `r`, `mLastCharExceeded` being false
on every edge; the terminal input index is `4`; and the score carries the excessive
demotion, and the out-of-proximity demotion according to the oracle's answer at the
terminal input index. -/
theorem excessive_scenario (d : Defines) (toBaseLowerCase : Nat → Nat) (freq : Int)
    (word : Option (Int → Nat)) (a1 a4 : Bool) (hdepth : d.MIN_SUGGEST_DEPTH ≤ 3) :
    (excessiveWalk a1 a4).1 = [CorrectionType.NOT_ON_TERMINAL, CorrectionType.NOT_ON_TERMINAL,
        CorrectionType.NOT_ON_TERMINAL, CorrectionType.ON_TERMINAL]
      ∧ [1, 2, 3, 4].map (fun k => ((excessiveWalk a1 a4).2.mCorrectionStates k).mExcessiveCount)
          = [0, 0, 1, 1]
      ∧ (∀ k ∈ [1, 2, 3, 4],
          ((excessiveWalk a1 a4).2.mCorrectionStates k).mLastCharExceeded = false)
      ∧ (excessiveWalk a1 a4).2.mTerminalInputIndex = 4
      ∧ ((excessiveWalk a1 a4).2.getFinalFreq d toBaseLowerCase freq word).freq
          = multiplyIntCapped (excessiveWalk a1 a4).2.FULL_WORD_MULTIPLIER
              (multiplyRate 100
                (if a4 = true then
                  multiplyRate d.WORDS_WITH_EXCESSIVE_CHARACTER_DEMOTION_RATE
                    (wrap32 (freq * powerIntCapped (excessiveWalk a1 a4).2.TYPED_LETTER_MULTIPLIER 4))
                else
                  multiplyRate d.WORDS_WITH_EXCESSIVE_CHARACTER_OUT_OF_PROXIMITY_DEMOTION_RATE
                    (multiplyRate d.WORDS_WITH_EXCESSIVE_CHARACTER_DEMOTION_RATE
                      (wrap32 (freq
                        * powerIntCapped (excessiveWalk a1 a4).2.TYPED_LETTER_MULTIPLIER 4))))) := by
  obtain ⟨h1, h2, h3, _, _, h6, h7⟩ := excessiveWalk_facts a1 a4
  refine ⟨h1, h2, h3, h6, ?_⟩
  have hsame : (excessiveWalk a1 a4).2.mProximityInfo.sameAsTyped (excessiveWalk a1 a4).2.mWord
      ((excessiveWalk a1 a4).2.mTerminalOutputIndex + 1) = false := by
    cases a1 <;> cases a4 <;> decide
  have hrej : RankingAlgorithm.isRejected (excessiveWalk a1 a4).2 = false := by
    cases a1 <;> cases a4 <;> decide
  have hfields : 0 ≤ (excessiveWalk a1 a4).2.mExcessivePos
      ∧ (excessiveWalk a1 a4).2.mTransposedPos < 0
      ∧ (excessiveWalk a1 a4).2.mSkippedCount = 0
      ∧ (excessiveWalk a1 a4).2.mProximityCount = 0
      ∧ (excessiveWalk a1 a4).2.mLastCharExceeded = false
      ∧ (excessiveWalk a1 a4).2.mInputLength = (excessiveWalk a1 a4).2.mTerminalInputIndex + 1
      ∧ RankingAlgorithm.matchCount (excessiveWalk a1 a4).2 = 4
      ∧ (excessiveWalk a1 a4).2.mProximityInfo.existsAdjacentProximityChars
          (excessiveWalk a1 a4).2.mTerminalInputIndex = a4 := by
    cases a1 <;> cases a4 <;> decide
  obtain ⟨f1, f2, f3, f4, f5, f6, f7, f8⟩ := hfields
  rw [getFinalFreq_freq_of_accepted (excessiveWalk a1 a4).2 d toBaseLowerCase freq word
    hsame (by rw [h7]; exact hdepth) hrej]
  unfold RankingAlgorithm.initialFinalFreq
  rw [matchWeightAndProximity_plain d toBaseLowerCase _ _ (excessiveWalk a1 a4).2 (Or.inl f1)]
  simp only [f4, f7]
  rw [promoteAndDemote_excessive d _ _ (excessiveWalk a1 a4).2 _ f1 f2 f3 f4 f5 f6, f8]

/-- The scenario "woord" / "word" at the sample constants, with an adjacent proximity
character at index `1` but none at index `4`: the candidate of frequency `100` scores
`1800`. -/
theorem excessive_scenario_witness :
    sampleDefines.MIN_SUGGEST_DEPTH ≤ 3
      ∧ ((excessiveWalk true false).2.getFinalFreq sampleDefines id 100 none).freq = 1800 := by
  have h := excessive_scenario sampleDefines id 100 none true false (by decide)
  refine ⟨by decide, ?_⟩
  rw [h.2.2.2.2]
  decide

/-- The steps of the ranking for a candidate without correction that is longer than
the typed word and whose letter at `matchCount` repeats the one before: the error-count
step at rate `100`, the full-match promotion and the match-skip promotion; the
full-word multiplier is not applied. -/
theorem promoteAndDemote_completion (d : Defines) (inputIndex outputIndex : Int)
    (c : Correction) (f : Int)
    (hex : c.mExcessivePos < 0) (htr : c.mTransposedPos < 0) (hsk : c.mSkippedCount = 0)
    (hpr : c.mProximityCount = 0) (hlast : c.mLastCharExceeded = false)
    (hlen : c.mInputLength ≠ inputIndex + 1) (hout : c.mInputLength ≠ outputIndex + 1)
    (htwo : 2 ≤ c.mInputLength)
    (hms : c.mWord c.mInputLength = c.mWord (c.mInputLength - 1)) :
    RankingAlgorithm.promoteAndDemote d inputIndex outputIndex 0 c f
      = multiplyRate d.WORDS_WITH_MATCH_SKIP_PROMOTION_RATE
          (multiplyRate d.FULL_MATCHED_WORDS_PROMOTION_RATE (multiplyRate 100 f)) := by
  unfold RankingAlgorithm.promoteAndDemote RankingAlgorithm.matchCount
  simp only []
  have e1 : c.getExcessivePos = c.mExcessivePos := rfl
  have e2 : c.getTransposedPos = c.mTransposedPos := rfl
  have hex1 : ¬ c.mExcessivePos ≥ 0 := by omega
  have htr1 : ¬ c.mTransposedPos ≥ 0 := by omega
  have htwo1 : c.mInputLength ≥ 2 := htwo
  simp only [e1, e2, hsk, hpr, hlast, hlen, hout, hex1, htr1, htr, hex, hms, htwo1, gt_iff_lt,
    lt_self_iff_false, decide_False, decide_True, if_true, if_false, Bool.false_eq_true,
    Bool.and_false, Bool.false_and, Bool.and_true, Bool.true_and, Bool.not_false,
    Bool.not_true, ite_self, Int.toNat_zero, RankingAlgorithm.proximityPromotionLoop,
    add_zero, mul_zero, Int.zero_tdiv, sub_zero, if_false, if_true]

/-- The traversal facts of the scenario "shel" / "shell", for every skip position of
the typed word. -/
theorem missingCharWalk_facts (skipPos : Int) (h0 : 0 ≤ skipPos) (h4 : skipPos ≤ 4) :
    (missingCharWalk skipPos).1 = [CorrectionType.NOT_ON_TERMINAL,
        CorrectionType.NOT_ON_TERMINAL, CorrectionType.NOT_ON_TERMINAL,
        CorrectionType.NOT_ON_TERMINAL, CorrectionType.TRAVERSE_ALL_ON_TERMINAL]
      ∧ (missingCharWalk skipPos).2.mSkippedCount = 0
      ∧ RankingAlgorithm.matchCount (missingCharWalk skipPos).2 = 4
      ∧ (missingCharWalk skipPos).2.mTerminalOutputIndex = 4
      ∧ (missingCharWalk skipPos).2.mTerminalInputIndex = 4
      ∧ (missingCharWalk skipPos).2.mInputLength = 4
      ∧ (missingCharWalk skipPos).2.mProximityCount = 0
      ∧ (missingCharWalk skipPos).2.mExcessivePos < 0
      ∧ (missingCharWalk skipPos).2.mTransposedPos < 0
      ∧ (missingCharWalk skipPos).2.mLastCharExceeded = false
      ∧ (missingCharWalk skipPos).2.mWord 4 = (missingCharWalk skipPos).2.mWord 3
      ∧ (missingCharWalk skipPos).2.mProximityInfo.sameAsTyped (missingCharWalk skipPos).2.mWord
          ((missingCharWalk skipPos).2.mTerminalOutputIndex + 1) = false
      ∧ RankingAlgorithm.isRejected (missingCharWalk skipPos).2 = false := by
  interval_cases skipPos <;> decide

/-- Claim C17, as stated, fails: for typed "shel" and candidate "shell", whatever the
skip position `0..4`, the four typed letters match, the fifth edge is taken in
completion mode (`TRAVERSE_ALL_ON_TERMINAL`) and `skipped_count` is `0`, not `1`; for
frequency `100` at the sample constants the score is `2016`, which is the full-match
promotion and the match-skip promotion of `1600` without any missing-character
demotion. -/
theorem missing_char_scenario_no_skip :
    (∀ skipPos ∈ ([0, 1, 2, 3, 4] : List Int),
        (missingCharWalk skipPos).1.getLast? = some CorrectionType.TRAVERSE_ALL_ON_TERMINAL
          ∧ (missingCharWalk skipPos).2.mSkippedCount = 0
          ∧ ¬ (missingCharWalk skipPos).2.mSkippedCount = 1
          ∧ ((missingCharWalk skipPos).2.getFinalFreq sampleDefines id 100 none).freq = 2016)
      ∧ multiplyRate sampleDefines.WORDS_WITH_MATCH_SKIP_PROMOTION_RATE
          (multiplyRate sampleDefines.FULL_MATCHED_WORDS_PROMOTION_RATE
            (multiplyRate 100 1600)) = 2016 := by
  decide

/-- Claim C17, amended: for typed "shel" and candidate "shell" walked edge by edge with
a skip position `0..4`, the four typed letters return `NOT_ON_TERMINAL` and the fifth
edge `TRAVERSE_ALL_ON_TERMINAL`; at the terminal `skipped_count = 0`,
`match_count = L = 4` and `output_index + 1 = 5`; `getFinalFreq` applies no
missing-character demotion: it applies the error-count step at rate `100`, the
full-match promotion and the match-skip promotion (`word[4] == word[3]`) to
`freq * TYPED_LETTER_MULTIPLIER ^ 4`, and not the full-word multiplier. -/
theorem missing_char_scenario (d : Defines) (toBaseLowerCase : Nat → Nat) (freq : Int)
    (word : Option (Int → Nat)) (skipPos : Int) (h0 : 0 ≤ skipPos) (h4 : skipPos ≤ 4)
    (hdepth : d.MIN_SUGGEST_DEPTH ≤ 4) :
    (missingCharWalk skipPos).1 = [CorrectionType.NOT_ON_TERMINAL,
        CorrectionType.NOT_ON_TERMINAL, CorrectionType.NOT_ON_TERMINAL,
        CorrectionType.NOT_ON_TERMINAL, CorrectionType.TRAVERSE_ALL_ON_TERMINAL]
      ∧ (missingCharWalk skipPos).2.mSkippedCount = 0
      ∧ RankingAlgorithm.matchCount (missingCharWalk skipPos).2
          = (missingCharWalk skipPos).2.mInputLength
      ∧ (missingCharWalk skipPos).2.mInputLength = 4
      ∧ (missingCharWalk skipPos).2.mTerminalOutputIndex + 1 = 5
      ∧ (missingCharWalk skipPos).2.mWord 4 = (missingCharWalk skipPos).2.mWord 3
      ∧ ((missingCharWalk skipPos).2.getFinalFreq d toBaseLowerCase freq word).freq
          = multiplyRate d.WORDS_WITH_MATCH_SKIP_PROMOTION_RATE
              (multiplyRate d.FULL_MATCHED_WORDS_PROMOTION_RATE
                (multiplyRate 100
                  (wrap32 (freq
                    * powerIntCapped (missingCharWalk skipPos).2.TYPED_LETTER_MULTIPLIER 4)))) := by
  obtain ⟨f1, f2, f3, f4, f5, f6, f7, f8, f9, f10, f11, f12, f13⟩ :=
    missingCharWalk_facts skipPos h0 h4
  refine ⟨f1, f2, by rw [f3, f6], f6, by rw [f4]; rfl, f11, ?_⟩
  rw [getFinalFreq_freq_of_accepted (missingCharWalk skipPos).2 d toBaseLowerCase freq word
    f12 (by rw [f4]; exact hdepth) f13]
  unfold RankingAlgorithm.initialFinalFreq
  rw [matchWeightAndProximity_plain d toBaseLowerCase _ _ (missingCharWalk skipPos).2
    (Or.inr (Or.inr ⟨by omega, by omega⟩))]
  simp only [f7, f3]
  exact promoteAndDemote_completion d _ _ (missingCharWalk skipPos).2 _ f8 f9 f2 f7 f10
    (by rw [f6, f5]; decide) (by rw [f6, f4]; decide) (by rw [f6]; decide)
    (by rw [f6]; exact f11)

/-- Claim C17, amended, at the sample constants and the skip position `3`: a candidate
of frequency `100` scores `2016`. -/
theorem missing_char_scenario_witness :
    (0 : Int) ≤ 3 ∧ (3 : Int) ≤ 4 ∧ sampleDefines.MIN_SUGGEST_DEPTH ≤ 4
      ∧ ((missingCharWalk 3).2.getFinalFreq sampleDefines id 100 none).freq = 2016 := by
  have h := missing_char_scenario sampleDefines id 100 none 3 (by decide) (by decide)
    (by decide)
  refine ⟨by decide, by decide, by decide, ?_⟩
  rw [h.2.2.2.2.2.2]
  decide


/-! ## The split formula: the code against the words of the specification -/

/-- For every non-empty input and output, whatever the buffers hold, `editDistance`
reads `output[-1]`: at `i = 0`, `j = 0` the guard `li > 0 && lo > 0` holds and the
first comparison of the transposition clause is evaluated. -/
theorem editDistanceReads_output_front (toBaseLowerCase : Nat → Nat) (input output : Int → Nat)
    (inputLength outputLength : Int) (hi : 1 ≤ inputLength) (ho : 1 ≤ outputLength) :
    EdRead.output (-1)
      ∈ editDistanceReads toBaseLowerCase input inputLength output outputLength := by
  unfold editDistanceReads
  simp only []
  apply List.mem_append_left
  rw [List.mem_flatMap]
  refine ⟨0, List.mem_range.mpr (by omega), ?_⟩
  rw [List.mem_flatMap]
  refine ⟨0, List.mem_range.mpr (by omega), ?_⟩
  unfold editDistanceCellReads
  simp only []
  apply List.mem_append_right
  have hg : inputLength + 1 > 0 ∧ outputLength + 1 > 0 := ⟨by omega, by omega⟩
  rw [if_pos hg]
  exact List.mem_cons_self _ _

/-- Claim C21 (the code reads outside the buffers): for the input "a" and the output
"b", the reads of `editDistance` are those of the cell `(0, 0)` followed by
`output[-1]`: the transposition clause is evaluated at `i = 0`, `j = 0`. When the cell
in front of the output holds 'a' and the cell in front of the input holds 'b', the
clause goes on to read `input[-1]` and the table at the flat index `-3`. -/
theorem editDistance_reads_out_of_bounds :
    editDistanceReads id (bufferAt 0 [97]) 1 (bufferAt 0 [98]) 1
        = [EdRead.input 0, EdRead.output 0, EdRead.table 1, EdRead.table 2, EdRead.table 0,
            EdRead.output (-1), EdRead.table 3]
      ∧ ¬ EdRead.InBounds 1 1 (EdRead.output (-1))
      ∧ editDistanceReads id (bufferAt 98 [97]) 1 (bufferAt 97 [98]) 1
        = [EdRead.input 0, EdRead.output 0, EdRead.table 1, EdRead.table 2, EdRead.table 0,
            EdRead.output (-1), EdRead.input (-1), EdRead.table 3, EdRead.table (-3),
            EdRead.table 3]
      ∧ (editDistanceReads id (bufferAt 98 [97]) 1 (bufferAt 97 [98]) 1).filter
          (fun r => !decide (EdRead.InBounds 1 1 r))
        = [EdRead.output (-1), EdRead.input (-1), EdRead.table (-3)] := by
  decide


/-! ## Traversal under the driver protocol: the skip drift is at most one -/

theorem driftFramesSound_update (top : Int) (frames : Int → CorrectionState) (k : Int)
    (v : CorrectionState) (top1 : Int)
    (hframes : ∀ d, 0 ≤ d → d ≤ top → DriftFrameSound d (frames d))
    (hv : DriftFrameSound k v) (htop : ∀ d, d ≤ top1 → d ≠ k → d ≤ top) :
    ∀ d, 0 ≤ d → d ≤ top1 → DriftFrameSound d (Function.update frames k v d) := by
  intro d h0 h1
  by_cases h : d = k
  · subst h; rw [Function.update_same]; exact hv
  · rw [Function.update_noteq h]; exact hframes d h0 (htop d h1 h)

theorem driftFramesSound_congr (top : Int) (s v : Correction)
    (h5 : v.mCorrectionStates = s.mCorrectionStates)
    (h : DriftFramesSound top s) : DriftFramesSound top v := by
  unfold DriftFramesSound at *
  rw [h5]
  exact h

theorem driftDone_congr (top : Int) (s v : Correction)
    (h1 : v.mOutputIndex = s.mOutputIndex) (h2 : v.mSkippedCount = s.mSkippedCount)
    (h3 : v.mSkipPos = s.mSkipPos) (h : DriftDone top s) : DriftDone top v := by
  unfold DriftDone at *
  rw [h1, h2, h3]
  exact h

/-- Pushing a frame after the drift keeps the invariant. -/
theorem driftSound_incrementOutputIndex (s : Correction) (top : Int)
    (hfr : DriftFramesSound top s) (h : DriftDone top s) :
    DriftSound s.incrementOutputIndex (max top s.incrementOutputIndex.mOutputIndex) true := by
  obtain ⟨h1, h2, h3, h4⟩ := h
  have hoi : s.incrementOutputIndex.mOutputIndex = s.mOutputIndex + 1 := rfl
  rw [hoi]
  refine ⟨by omega, ?_, ?_⟩
  · apply driftFramesSound_update top _ _ _ _ hfr
    · refine ⟨h3, ?_⟩
      intro hs hp
      have := h4 hs hp
      show s.mOutputIndex + 1 - 1 ≤ s.mSkipPos
      omega
    · intro d hd hne
      rcases le_max_iff.mp hd with h | h
      · exact h
      · omega
  · intro _
    refine ⟨by show (0 : Int) ≤ s.mOutputIndex + 1; omega, le_max_right _ _, h3, ?_⟩
    intro hs hp
    have := h4 hs hp
    show s.mOutputIndex + 1 - 1 ≤ s.mSkipPos
    omega

theorem driftSound_emitAndAdvance (s : Correction) (c : Int) (isTerminal : Bool) (top : Int)
    (hfr : DriftFramesSound top s) (h : DriftDone top s) :
    DriftSound (s.emitAndAdvance c isTerminal).2
      (max top (s.emitAndAdvance c isTerminal).2.mOutputIndex) true := by
  obtain ⟨v, hv, h1, h2, h3, _, h5⟩ := emitAndAdvance_skip_view s c isTerminal
  rw [hv]
  exact driftSound_incrementOutputIndex v top (driftFramesSound_congr top s v h5 hfr)
    (driftDone_congr top s v h1 h2 h3 h)

theorem driftSound_processSkipChar (s : Correction) (c : Int) (isTerminal : Bool) (top : Int)
    (hfr : DriftFramesSound top s) (h : DriftDone top s) :
    DriftSound (s.processSkipChar c isTerminal).2
      (max top (s.processSkipChar c isTerminal).2.mOutputIndex) true := by
  obtain ⟨v, hv, h1, h2, h3, _, h5⟩ := processSkipChar_skip_view s c isTerminal
  rw [hv]
  exact driftSound_incrementOutputIndex v top (driftFramesSound_congr top s v h5 hfr)
    (driftDone_congr top s v h1 h2 h3 h)

/-- A character skipped after the drift keeps `DriftDone`: the count is no longer
zero. -/
theorem driftDone_of_skip (top : Int) (u v : Correction)
    (h1 : v.mOutputIndex = u.mOutputIndex) (h2 : v.mSkippedCount = u.mSkippedCount + 1)
    (h : DriftDone top u) : DriftDone top v := by
  obtain ⟨d1, d2, d3, _⟩ := h
  unfold DriftDone
  rw [h1, h2]
  refine ⟨d1, d2, by omega, ?_⟩
  intro hs
  omega

theorem driftSound_of_done (top : Int) (u v : Correction)
    (h1 : v.mOutputIndex = u.mOutputIndex) (h2 : v.mSkippedCount = u.mSkippedCount)
    (h3 : v.mSkipPos = u.mSkipPos) (h5 : v.mCorrectionStates = u.mCorrectionStates)
    (hfr : DriftFramesSound top u) (h : DriftDone top u) :
    DriftSound v (max top v.mOutputIndex) true := by
  obtain ⟨d1, d2, d3, d4⟩ := h
  have hmax : max top v.mOutputIndex = top := by rw [h1]; exact max_eq_left d2
  rw [hmax]
  refine ⟨by omega, driftFramesSound_congr top u v h5 hfr, ?_⟩
  intro _
  unfold DriftWorkingSound
  rw [h1, h2, h3]
  refine ⟨d1, d2, d3, ?_⟩
  intro hs hp
  have := d4 hs hp
  omega

theorem driftSound_matchAndDispatch (u : Correction) (c : Int) (isTerminal st : Bool)
    (top : Int) (hfr : DriftFramesSound top u) (h : DriftDone top u) :
    DriftSound (u.matchAndDispatch c isTerminal st).2
      (max top (u.matchAndDispatch c isTerminal st).2.mOutputIndex) true := by
  have plain : ∀ v : Correction, v.mOutputIndex = u.mOutputIndex →
      v.mSkippedCount = u.mSkippedCount → v.mSkipPos = u.mSkipPos →
      v.mCorrectionStates = u.mCorrectionStates →
      DriftSound (v.emitAndAdvance c isTerminal).2
        (max top (v.emitAndAdvance c isTerminal).2.mOutputIndex) true := by
    intro v h1 h2 h3 h5
    exact driftSound_emitAndAdvance v c isTerminal top (driftFramesSound_congr top u v h5 hfr)
      (driftDone_congr top u v h1 h2 h3 h)
  have skip : ∀ v : Correction, v.mOutputIndex = u.mOutputIndex →
      v.mSkippedCount = u.mSkippedCount + 1 →
      v.mCorrectionStates = u.mCorrectionStates →
      DriftSound (v.processSkipChar c isTerminal).2
        (max top (v.processSkipChar c isTerminal).2.mOutputIndex) true := by
    intro v h1 h2 h5
    exact driftSound_processSkipChar v c isTerminal top (driftFramesSound_congr top u v h5 hfr)
      (driftDone_of_skip top u v h1 h2 h)
  unfold Correction.matchAndDispatch
  simp only []
  split_ifs
  · exact plain _ rfl rfl rfl rfl
  · exact plain _ rfl rfl rfl rfl
  · exact skip _ rfl rfl rfl
  · exact skip _ rfl rfl rfl
  · exact driftSound_of_done top u _ rfl rfl rfl rfl hfr h
  · exact plain _ rfl rfl rfl rfl
  · exact plain _ rfl rfl rfl rfl
  · exact plain _ rfl rfl rfl rfl

/-- The skip drift on a state of the protocol: the assertion of the source holds, and
afterwards the skip position is not behind the output index. -/
theorem driftDone_updateSkip (s : Correction) (top : Int) (h : DriftWorkingSound top s) :
    s.skipDriftAssertion = true ∧ DriftDone top s.updateSkip
      ∧ s.updateSkip.mCorrectionStates = s.mCorrectionStates := by
  obtain ⟨h1, h2, h3, h4⟩ := h
  unfold Correction.skipDriftAssertion Correction.updateSkip
  simp only []
  by_cases hp : s.mSkipPos ≥ 0
  · rw [if_pos hp]
    by_cases hd : s.mSkippedCount = 0 ∧ s.mSkipPos < s.mOutputIndex
    · have hall : s.mSkipPos ≥ 0 ∧ s.mSkippedCount = 0 ∧ s.mSkipPos < s.mOutputIndex :=
        ⟨hp, hd.1, hd.2⟩
      have hinv := h4 hd.1 hp
      rw [if_pos hall, if_pos hd]
      refine ⟨decide_eq_true (by omega), ⟨h1, h2, h3, ?_⟩, rfl⟩
      intro _ _
      show s.mOutputIndex ≤ s.mSkipPos + 1
      omega
    · have hall : ¬ (s.mSkipPos ≥ 0 ∧ s.mSkippedCount = 0 ∧ s.mSkipPos < s.mOutputIndex) :=
        fun hc => hd ⟨hc.2.1, hc.2.2⟩
      rw [if_neg hall, if_neg hd]
      refine ⟨rfl, ⟨h1, h2, h3, ?_⟩, rfl⟩
      intro hs hpos
      have hs1 : s.mSkippedCount = 0 := hs
      show s.mOutputIndex ≤ s.mSkipPos
      by_contra hlt
      exact hd ⟨hs1, by omega⟩
  · have hall : ¬ (s.mSkipPos ≥ 0 ∧ s.mSkippedCount = 0 ∧ s.mSkipPos < s.mOutputIndex) :=
      fun hc => hp hc.1
    rw [if_neg hall, if_neg hp]
    refine ⟨rfl, ⟨h1, h2, h3, ?_⟩, rfl⟩
    intro _ hpos
    omega

theorem driftWorkingSound_congr (top : Int) (s v : Correction)
    (h1 : v.mOutputIndex = s.mOutputIndex) (h2 : v.mSkippedCount = s.mSkippedCount)
    (h3 : v.mSkipPos = s.mSkipPos) (h : DriftWorkingSound top s) :
    DriftWorkingSound top v := by
  unfold DriftWorkingSound at *
  rw [h1, h2, h3]
  exact h

theorem driftSound_processCharAndCalcState (s : Correction) (c : Int) (isTerminal : Bool)
    (top : Int) (h : DriftSound s top true) :
    DriftSound (s.processCharAndCalcState c isTerminal).2
      (max top (s.processCharAndCalcState c isTerminal).2.mOutputIndex) true := by
  obtain ⟨_, hfr, hw⟩ := h
  obtain ⟨e1, e2, e3, _, e5⟩ := updateExcessive_skip_view s
  obtain ⟨t1, t2, t3, _, t5⟩ := updateTransposed_skip_view s.updateExcessive.updateSkip
  obtain ⟨_, hdone, hfs⟩ := driftDone_updateSkip s.updateExcessive top
    (driftWorkingSound_congr top s s.updateExcessive e1 e2 e3 (hw rfl))
  have hd : DriftDone top s.updateExcessive.updateSkip.updateTransposed :=
    driftDone_congr top _ _ t1 t2 t3 hdone
  have hf : DriftFramesSound top s.updateExcessive.updateSkip.updateTransposed := by
    apply driftFramesSound_congr top s
    · rw [t5, hfs, e5]
    · exact hfr
  unfold Correction.processCharAndCalcState
  simp only []
  generalize s.updateExcessive.updateSkip.updateTransposed = u at hd hf
  have dispatch : ∀ (v : Correction) (st : Bool), v.mOutputIndex = u.mOutputIndex →
      v.mSkippedCount = u.mSkippedCount → v.mSkipPos = u.mSkipPos →
      v.mCorrectionStates = u.mCorrectionStates →
      DriftSound (v.matchAndDispatch c isTerminal st).2
        (max top (v.matchAndDispatch c isTerminal st).2.mOutputIndex) true := by
    intro v st h1 h2 h3 h5
    exact driftSound_matchAndDispatch v c isTerminal st top
      (driftFramesSound_congr top u v h5 hf) (driftDone_congr top u v h1 h2 h3 hd)
  split_ifs
  · exact driftSound_processSkipChar u c isTerminal top hf hd
  · exact dispatch _ true rfl rfl rfl rfl
  · exact dispatch _ false rfl rfl rfl rfl
  · exact driftSound_of_done top u _ rfl rfl rfl rfl hf hd
  · exact dispatch u false rfl rfl rfl rfl

theorem driftFrameSound_congr (d : Int) (f g : CorrectionState)
    (h1 : g.mSkippedCount = f.mSkippedCount) (h2 : g.mSkipPos = f.mSkipPos)
    (h : DriftFrameSound d f) : DriftFrameSound d g := by
  unfold DriftFrameSound at *
  rw [h1, h2]
  exact h

theorem driftSound_initProcessState (s : Correction) (top : Int) (loaded : Bool)
    (outputIndex : Int) (h : DriftSound s top loaded) (h0 : 0 ≤ outputIndex)
    (h1 : outputIndex ≤ top) :
    DriftSound (s.initProcessState outputIndex).2 top
      (loaded || (s.initProcessState outputIndex).1) := by
  obtain ⟨ht, hfr, hw⟩ := h
  unfold Correction.initProcessState
  simp only []
  split_ifs with hc
  · refine ⟨ht, hfr, ?_⟩
    intro hl
    apply hw
    simpa using hl
  · obtain ⟨f1, f2⟩ := hfr outputIndex h0 h1
    refine ⟨ht, ?_, ?_⟩
    · apply driftFramesSound_update top _ _ _ top hfr
      · exact driftFrameSound_congr outputIndex _ _ rfl rfl ⟨f1, f2⟩
      · intro d hd _
        exact hd
    · intro _
      exact ⟨h0, h1, f1, f2⟩

theorem driftSound_goDownTree (s : Correction) (top : Int)
    (parentIndex childCount firstChildPos : Int) (h : DriftSound s top true) :
    DriftSound (s.goDownTree parentIndex childCount firstChildPos).2 top true := by
  obtain ⟨ht, hfr, hw⟩ := h
  obtain ⟨w1, w2, w3, w4⟩ := hw rfl
  unfold Correction.goDownTree
  refine ⟨ht, ?_, ?_⟩
  · apply driftFramesSound_update top _ _ _ top hfr
    · exact driftFrameSound_congr s.mOutputIndex _ _ rfl rfl (hfr s.mOutputIndex w1 w2)
    · intro d hd _
      exact hd
  · intro _
    exact ⟨w1, w2, w3, w4⟩

theorem driftSound_sessionStart (object : Correction) (pi : ProximityInfo)
    (inputLength maxDepth skipPos excessivePos transposedPos spaceProximityPos
      missingSpacePos rootPos childCount : Int) (traverseAll : Bool) :
    DriftSound (sessionStart object pi inputLength maxDepth skipPos excessivePos transposedPos
      spaceProximityPos missingSpacePos rootPos childCount traverseAll) 0 false := by
  refine ⟨le_refl _, ?_, fun h => absurd h (by decide)⟩
  intro d h0 h1
  have hd : d = 0 := by omega
  subst hd
  have key : ∀ t : Correction, DriftFrameSound 0
      ((t.initCorrectionState rootPos childCount traverseAll).mCorrectionStates 0) := by
    intro t
    unfold Correction.initCorrectionState
    simp only [Function.update_same]
    refine ⟨le_refl _, ?_⟩
    intro _ hp
    have hp1 : 0 ≤ t.mSkipPos := hp
    show (0 : Int) - 1 ≤ t.mSkipPos
    omega
  exact key _

/-- The skip drift is sound in every state of the driver protocol. -/
theorem driftSound_driverProtocol (start s : Correction) (top : Int) (loaded : Bool)
    (h0 : DriftSound start 0 false) (h : DriverProtocol start s top loaded) :
    DriftSound s top loaded := by
  induction h with
  | start => exact h0
  | initProcessState outputIndex _ hlo hhi ih =>
    exact driftSound_initProcessState _ _ _ outputIndex ih hlo hhi
  | processCharAndCalcState c isTerminal _ ih =>
    exact driftSound_processCharAndCalcState _ c isTerminal _ ih
  | goDownTree parentIndex childCount firstChildPos _ ih =>
    exact driftSound_goDownTree _ _ parentIndex childCount firstChildPos ih

/-- The skip position after the drift. -/
theorem updateSkip_mSkipPos (v : Correction) :
    v.updateSkip.mSkipPos
      = if v.mSkipPos ≥ 0 ∧ v.mSkippedCount = 0 ∧ v.mSkipPos < v.mOutputIndex then
          v.mSkipPos + 1
        else v.mSkipPos := by
  unfold Correction.updateSkip
  simp only []
  by_cases hp : v.mSkipPos ≥ 0
  · by_cases hd : v.mSkippedCount = 0 ∧ v.mSkipPos < v.mOutputIndex
    · rw [if_pos hp, if_pos hd, if_pos ⟨hp, hd.1, hd.2⟩]
    · rw [if_pos hp, if_neg hd, if_neg (fun hc => hd ⟨hc.2.1, hc.2.2⟩)]
  · rw [if_neg hp, if_neg (fun hc => hp hc.1)]

/-- Claim C22: on every state the driver protocol reaches once a frame is loaded, for
every object and every session, the call `processCharAndCalcState` finds the debug
assertion of the skip drift true; the drift moves `skip_pos` by at most one; and when
the drift is applied (`skip_pos >= 0`, `skipped_count == 0`,
`skip_pos < output_index`) then `skip_pos == output_index - 1` before it and
`skip_pos == output_index` after it. -/
theorem skip_drift_assertion_holds (object : Correction) (pi : ProximityInfo)
    (inputLength maxDepth skipPos excessivePos transposedPos spaceProximityPos
      missingSpacePos rootPos childCount : Int) (traverseAll : Bool)
    (s : Correction) (top : Int)
    (h : DriverProtocol (sessionStart object pi inputLength maxDepth skipPos excessivePos
      transposedPos spaceProximityPos missingSpacePos rootPos childCount traverseAll)
      s top true) :
    s.updateExcessive.skipDriftAssertion = true
      ∧ (s.updateExcessive.updateSkip.mSkipPos = s.mSkipPos
        ∨ s.updateExcessive.updateSkip.mSkipPos = s.mSkipPos + 1)
      ∧ (s.mSkipPos ≥ 0 ∧ s.mSkippedCount = 0 ∧ s.mSkipPos < s.mOutputIndex →
          s.mSkipPos = s.mOutputIndex - 1
            ∧ s.updateExcessive.updateSkip.mSkipPos = s.mOutputIndex) := by
  obtain ⟨_, _, hw⟩ := driftSound_driverProtocol _ s top true
    (driftSound_sessionStart object pi inputLength maxDepth skipPos excessivePos transposedPos
      spaceProximityPos missingSpacePos rootPos childCount traverseAll) h
  obtain ⟨e1, e2, e3, _, _⟩ := updateExcessive_skip_view s
  have hwe := driftWorkingSound_congr top s s.updateExcessive e1 e2 e3 (hw rfl)
  obtain ⟨hassert, _, _⟩ := driftDone_updateSkip s.updateExcessive top hwe
  obtain ⟨_, _, _, w4⟩ := hw rfl
  have hpos := updateSkip_mSkipPos s.updateExcessive
  rw [e1, e2, e3] at hpos
  refine ⟨hassert, ?_, ?_⟩
  · rw [hpos]
    split_ifs
    · right; rfl
    · left; rfl
  · intro hdrift
    have hinv := w4 hdrift.2.1 hdrift.1
    refine ⟨by omega, ?_⟩
    rw [hpos, if_pos hdrift]
    omega

/-- Claim C22 at a state where the drift is applied: in the session for "ab" with
`skip_pos = 0`, after the edge `a` the frame at depth `1` holds `skip_pos = 0`, and
the next call moves it to `1`. -/
theorem skip_drift_assertion_holds_witness :
    DriverProtocol driftSessionStart driftSessionState 1 true
      ∧ (driftSessionState.mSkipPos ≥ 0 ∧ driftSessionState.mSkippedCount = 0
        ∧ driftSessionState.mSkipPos < driftSessionState.mOutputIndex)
      ∧ driftSessionState.updateExcessive.skipDriftAssertion = true
      ∧ driftSessionState.updateExcessive.updateSkip.mSkipPos = 1 := by
  have p0 : DriverProtocol driftSessionStart driftSessionStart 0 false := DriverProtocol.start
  have p1 : DriverProtocol driftSessionStart (driftSessionStart.initProcessState 0).2 0 true :=
    DriverProtocol.initProcessState 0 p0 (by decide) (by decide)
  have p2 : DriverProtocol driftSessionStart
      ((driftSessionStart.initProcessState 0).2.processCharAndCalcState 97 false).2 1 true :=
    DriverProtocol.processCharAndCalcState 97 false p1
  have p3 := DriverProtocol.goDownTree 0 1 0 p2
  have p4 : DriverProtocol driftSessionStart driftSessionState 1 true :=
    DriverProtocol.initProcessState 1 p3 (by decide) (by decide)
  have h := skip_drift_assertion_holds (zeroCorrection [97, 98] 48)
    (exactProximityInfo [97, 98]) 2 48 0 (-1) (-1) (-1) (-1) 0 1 false driftSessionState 1 p4
  exact ⟨p4, by decide, h.1, by decide⟩


/-! ## Sessions with an excessive position: proximity matching is disabled -/

theorem emitAndAdvance_excessive_view (s : Correction) (c : Int) (isTerminal : Bool) :
    ∃ v : Correction, (s.emitAndAdvance c isTerminal).2 = v.incrementOutputIndex
      ∧ v.mOutputIndex = s.mOutputIndex ∧ v.mExcessivePos = s.mExcessivePos
      ∧ v.mProximityCount = s.mProximityCount ∧ v.mProximityInfo = s.mProximityInfo
      ∧ v.mInputLength = s.mInputLength ∧ v.mCorrectionStates = s.mCorrectionStates := by
  unfold Correction.emitAndAdvance Correction.startToTraverseAllNodes
    Correction.incrementInputIndex
  simp only []
  refine ⟨_, rfl, ?_, ?_, ?_, ?_, ?_, ?_⟩ <;> split_ifs <;> rfl

theorem processSkipChar_excessive_view (s : Correction) (c : Int) (isTerminal : Bool) :
    ∃ v : Correction, (s.processSkipChar c isTerminal).2 = v.incrementOutputIndex
      ∧ v.mOutputIndex = s.mOutputIndex ∧ v.mExcessivePos = s.mExcessivePos
      ∧ v.mProximityCount = s.mProximityCount ∧ v.mProximityInfo = s.mProximityInfo
      ∧ v.mInputLength = s.mInputLength ∧ v.mCorrectionStates = s.mCorrectionStates := by
  unfold Correction.processSkipChar
  simp only []
  split_ifs
  · exact ⟨_, rfl, rfl, rfl, rfl, rfl, rfl, rfl⟩
  · exact ⟨_, rfl, rfl, rfl, rfl, rfl, rfl, rfl⟩

theorem excessiveFrames_update (top : Int) (frames : Int → CorrectionState) (k : Int)
    (v : CorrectionState) (top1 : Int)
    (hframes : ∀ d, 0 ≤ d → d ≤ top → ExcessiveFrameSound (frames d))
    (hv : ExcessiveFrameSound v) (htop : ∀ d, d ≤ top1 → d ≠ k → d ≤ top) :
    ∀ d, 0 ≤ d → d ≤ top1 → ExcessiveFrameSound (Function.update frames k v d) := by
  intro d h0 h1
  by_cases h : d = k
  · subst h; rw [Function.update_same]; exact hv
  · rw [Function.update_noteq h]; exact hframes d h0 (htop d h1 h)

/-- Pushing a frame keeps the invariant of a session with an excessive position. -/
theorem excessiveSound_incrementOutputIndex (pi : ProximityInfo) (inputLength : Int)
    (s : Correction) (top : Int) (hpi : s.mProximityInfo = pi)
    (hlen : s.mInputLength = inputLength)
    (hfr : ∀ d, 0 ≤ d → d ≤ top → ExcessiveFrameSound (s.mCorrectionStates d))
    (h : ExcessiveWorkingSound top s) :
    ExcessiveSound pi inputLength s.incrementOutputIndex
      (max top s.incrementOutputIndex.mOutputIndex) true := by
  obtain ⟨h1, h2, h3, h4⟩ := h
  have hoi : s.incrementOutputIndex.mOutputIndex = s.mOutputIndex + 1 := rfl
  rw [hoi]
  refine ⟨by omega, hpi, hlen, ?_, ?_⟩
  · apply excessiveFrames_update top _ _ _ _ hfr
    · exact ⟨h3, h4⟩
    · intro d hd hne
      rcases le_max_iff.mp hd with h | h
      · exact h
      · omega
  · intro _
    exact ⟨by show (0 : Int) ≤ s.mOutputIndex + 1; omega, le_max_right _ _, h3, h4⟩

/-- The fields on which the invariant depends. -/
theorem excessiveSound_push_of_view (pi : ProximityInfo) (inputLength : Int)
    (u v : Correction) (top : Int)
    (h1 : v.mOutputIndex = u.mOutputIndex) (h2 : v.mExcessivePos = u.mExcessivePos)
    (h3 : v.mProximityCount = u.mProximityCount) (h4 : v.mProximityInfo = u.mProximityInfo)
    (h5 : v.mInputLength = u.mInputLength) (h6 : v.mCorrectionStates = u.mCorrectionStates)
    (hpi : u.mProximityInfo = pi) (hlen : u.mInputLength = inputLength)
    (hfr : ∀ d, 0 ≤ d → d ≤ top → ExcessiveFrameSound (u.mCorrectionStates d))
    (h : ExcessiveWorkingSound top u) :
    ExcessiveSound pi inputLength v.incrementOutputIndex
      (max top v.incrementOutputIndex.mOutputIndex) true := by
  apply excessiveSound_incrementOutputIndex pi inputLength v top (by rw [h4]; exact hpi)
    (by rw [h5]; exact hlen) (by rw [h6]; exact hfr)
  unfold ExcessiveWorkingSound at *
  rw [h1, h2, h3]
  exact h

theorem excessiveSound_emitAndAdvance (pi : ProximityInfo) (inputLength : Int)
    (u v : Correction) (c : Int) (isTerminal : Bool) (top : Int)
    (h1 : v.mOutputIndex = u.mOutputIndex) (h2 : v.mExcessivePos = u.mExcessivePos)
    (h3 : v.mProximityCount = u.mProximityCount) (h4 : v.mProximityInfo = u.mProximityInfo)
    (h5 : v.mInputLength = u.mInputLength) (h6 : v.mCorrectionStates = u.mCorrectionStates)
    (hpi : u.mProximityInfo = pi) (hlen : u.mInputLength = inputLength)
    (hfr : ∀ d, 0 ≤ d → d ≤ top → ExcessiveFrameSound (u.mCorrectionStates d))
    (h : ExcessiveWorkingSound top u) :
    ExcessiveSound pi inputLength (v.emitAndAdvance c isTerminal).2
      (max top (v.emitAndAdvance c isTerminal).2.mOutputIndex) true := by
  obtain ⟨w, hw, w1, w2, w3, w4, w5, w6⟩ := emitAndAdvance_excessive_view v c isTerminal
  rw [hw]
  exact excessiveSound_push_of_view pi inputLength u w top (w1.trans h1) (w2.trans h2)
    (w3.trans h3) (w4.trans h4) (w5.trans h5) (w6.trans h6) hpi hlen hfr h

theorem excessiveSound_processSkipChar (pi : ProximityInfo) (inputLength : Int)
    (u v : Correction) (c : Int) (isTerminal : Bool) (top : Int)
    (h1 : v.mOutputIndex = u.mOutputIndex) (h2 : v.mExcessivePos = u.mExcessivePos)
    (h3 : v.mProximityCount = u.mProximityCount) (h4 : v.mProximityInfo = u.mProximityInfo)
    (h5 : v.mInputLength = u.mInputLength) (h6 : v.mCorrectionStates = u.mCorrectionStates)
    (hpi : u.mProximityInfo = pi) (hlen : u.mInputLength = inputLength)
    (hfr : ∀ d, 0 ≤ d → d ≤ top → ExcessiveFrameSound (u.mCorrectionStates d))
    (h : ExcessiveWorkingSound top u) :
    ExcessiveSound pi inputLength (v.processSkipChar c isTerminal).2
      (max top (v.processSkipChar c isTerminal).2.mOutputIndex) true := by
  obtain ⟨w, hw, w1, w2, w3, w4, w5, w6⟩ := processSkipChar_excessive_view v c isTerminal
  rw [hw]
  exact excessiveSound_push_of_view pi inputLength u w top (w1.trans h1) (w2.trans h2)
    (w3.trans h3) (w4.trans h4) (w5.trans h5) (w6.trans h6) hpi hlen hfr h

theorem excessiveSound_same_depth (pi : ProximityInfo) (inputLength : Int)
    (u v : Correction) (top : Int)
    (h1 : v.mOutputIndex = u.mOutputIndex) (h2 : v.mExcessivePos = u.mExcessivePos)
    (h3 : v.mProximityCount = u.mProximityCount) (h4 : v.mProximityInfo = u.mProximityInfo)
    (h5 : v.mInputLength = u.mInputLength) (h6 : v.mCorrectionStates = u.mCorrectionStates)
    (hpi : u.mProximityInfo = pi) (hlen : u.mInputLength = inputLength)
    (hfr : ∀ d, 0 ≤ d → d ≤ top → ExcessiveFrameSound (u.mCorrectionStates d))
    (h : ExcessiveWorkingSound top u) :
    ExcessiveSound pi inputLength v (max top v.mOutputIndex) true := by
  have hmax : max top v.mOutputIndex = top := by rw [h1]; exact max_eq_left h.2.1
  rw [hmax]
  refine ⟨by have := h.1; have := h.2.1; omega, by rw [h4]; exact hpi, by rw [h5]; exact hlen,
    by rw [h6]; exact hfr, ?_⟩
  intro _
  unfold ExcessiveWorkingSound at *
  rw [h1, h2, h3]
  exact h

/-- With a non-negative excessive position the dispatch asks the oracle without the
proximity check, so neither the proximity branch nor the branch that re-books a
proximity match is taken, and the invariant is kept. -/
theorem excessiveSound_matchAndDispatch (pi : ProximityInfo) (inputLength : Int)
    (horacle : OracleExactWithoutCheck pi)
    (u v : Correction) (c : Int) (isTerminal st : Bool) (top : Int)
    (h1 : v.mOutputIndex = u.mOutputIndex) (h2 : v.mExcessivePos = u.mExcessivePos)
    (h3 : v.mProximityCount = u.mProximityCount) (h4 : v.mProximityInfo = u.mProximityInfo)
    (h5 : v.mInputLength = u.mInputLength) (h6 : v.mCorrectionStates = u.mCorrectionStates)
    (hpi : u.mProximityInfo = pi) (hlen : u.mInputLength = inputLength)
    (hfr : ∀ d, 0 ≤ d → d ≤ top → ExcessiveFrameSound (u.mCorrectionStates d))
    (h : ExcessiveWorkingSound top u) :
    ExcessiveSound pi inputLength (v.matchAndDispatch c isTerminal st).2
      (max top (v.matchAndDispatch c isTerminal st).2.mOutputIndex) true := by
  have hpos : 0 ≤ v.mExcessivePos := by rw [h2]; exact h.2.2.1
  have hcheck : (!(decide (v.mSkippedCount > 0) || decide (v.mExcessivePos ≥ 0)
      || decide (v.mTransposedPos ≥ 0))) = false := by
    have : decide (v.mExcessivePos ≥ 0) = true := decide_eq_true hpos
    rw [this]
    simp
  have hvpi : v.mProximityInfo = pi := by rw [h4]; exact hpi
  have emit : ∀ w : Correction, w.mOutputIndex = v.mOutputIndex →
      w.mExcessivePos = v.mExcessivePos → w.mProximityCount = v.mProximityCount →
      w.mProximityInfo = v.mProximityInfo → w.mInputLength = v.mInputLength →
      w.mCorrectionStates = v.mCorrectionStates →
      ExcessiveSound pi inputLength (w.emitAndAdvance c isTerminal).2
        (max top (w.emitAndAdvance c isTerminal).2.mOutputIndex) true := by
    intro w w1 w2 w3 w4 w5 w6
    exact excessiveSound_emitAndAdvance pi inputLength u w c isTerminal top (w1.trans h1)
      (w2.trans h2) (w3.trans h3) (w4.trans h4) (w5.trans h5) (w6.trans h6) hpi hlen hfr h
  have skip : ∀ w : Correction, w.mOutputIndex = v.mOutputIndex →
      w.mExcessivePos = v.mExcessivePos → w.mProximityCount = v.mProximityCount →
      w.mProximityInfo = v.mProximityInfo → w.mInputLength = v.mInputLength →
      w.mCorrectionStates = v.mCorrectionStates →
      ExcessiveSound pi inputLength (w.processSkipChar c isTerminal).2
        (max top (w.processSkipChar c isTerminal).2.mOutputIndex) true := by
    intro w w1 w2 w3 w4 w5 w6
    exact excessiveSound_processSkipChar pi inputLength u w c isTerminal top (w1.trans h1)
      (w2.trans h2) (w3.trans h3) (w4.trans h4) (w5.trans h5) (w6.trans h6) hpi hlen hfr h
  unfold Correction.matchAndDispatch
  simp only []
  rw [hcheck]
  split_ifs with c1 c2 c3 c4 c5 c6 c7
  · exact emit _ rfl rfl rfl rfl rfl rfl
  · exact emit _ rfl rfl rfl rfl rfl rfl
  · exact skip _ rfl rfl rfl rfl rfl rfl
  · simp at c5
  · exact excessiveSound_same_depth pi inputLength u v top h1 h2 h3 h4 h5 h6 hpi hlen hfr h
  · exact emit _ rfl rfl rfl rfl rfl rfl
  · exfalso
    have hnear := of_decide_eq_true c7
    rw [hvpi] at hnear
    exact horacle _ _ hnear.symm
  · exact emit _ rfl rfl rfl rfl rfl rfl

theorem updates_excessive_view (s : Correction) :
    s.updateExcessive.updateSkip.updateTransposed.mOutputIndex = s.mOutputIndex
      ∧ (0 ≤ s.mExcessivePos → 0 ≤ s.updateExcessive.updateSkip.updateTransposed.mExcessivePos)
      ∧ s.updateExcessive.updateSkip.updateTransposed.mProximityCount = s.mProximityCount
      ∧ s.updateExcessive.updateSkip.updateTransposed.mProximityInfo = s.mProximityInfo
      ∧ s.updateExcessive.updateSkip.updateTransposed.mInputLength = s.mInputLength
      ∧ s.updateExcessive.updateSkip.updateTransposed.mCorrectionStates
          = s.mCorrectionStates := by
  have he : ∀ u : Correction, u.updateExcessive.mOutputIndex = u.mOutputIndex
      ∧ (0 ≤ u.mExcessivePos → 0 ≤ u.updateExcessive.mExcessivePos)
      ∧ u.updateExcessive.mProximityCount = u.mProximityCount
      ∧ u.updateExcessive.mProximityInfo = u.mProximityInfo
      ∧ u.updateExcessive.mInputLength = u.mInputLength
      ∧ u.updateExcessive.mCorrectionStates = u.mCorrectionStates := by
    intro u
    unfold Correction.updateExcessive
    simp only []
    refine ⟨?_, ?_, ?_, ?_, ?_, ?_⟩
    · split_ifs <;> rfl
    · intro hp
      split_ifs <;> first
        | exact hp
        | (show (0 : Int) ≤ u.mExcessivePos + 1; omega)
    · split_ifs <;> rfl
    · split_ifs <;> rfl
    · split_ifs <;> rfl
    · split_ifs <;> rfl
  have hs : ∀ u : Correction, u.updateSkip.mOutputIndex = u.mOutputIndex
      ∧ u.updateSkip.mExcessivePos = u.mExcessivePos
      ∧ u.updateSkip.mProximityCount = u.mProximityCount
      ∧ u.updateSkip.mProximityInfo = u.mProximityInfo
      ∧ u.updateSkip.mInputLength = u.mInputLength
      ∧ u.updateSkip.mCorrectionStates = u.mCorrectionStates := by
    intro u
    unfold Correction.updateSkip
    simp only []
    refine ⟨?_, ?_, ?_, ?_, ?_, ?_⟩ <;> split_ifs <;> rfl
  have ht : ∀ u : Correction, u.updateTransposed.mOutputIndex = u.mOutputIndex
      ∧ u.updateTransposed.mExcessivePos = u.mExcessivePos
      ∧ u.updateTransposed.mProximityCount = u.mProximityCount
      ∧ u.updateTransposed.mProximityInfo = u.mProximityInfo
      ∧ u.updateTransposed.mInputLength = u.mInputLength
      ∧ u.updateTransposed.mCorrectionStates = u.mCorrectionStates := by
    intro u
    unfold Correction.updateTransposed
    simp only []
    refine ⟨?_, ?_, ?_, ?_, ?_, ?_⟩ <;> split_ifs <;> rfl
  obtain ⟨a1, a2, a3, a4, a5, a6⟩ := he s
  obtain ⟨b1, b2, b3, b4, b5, b6⟩ := hs s.updateExcessive
  obtain ⟨c1, c2, c3, c4, c5, c6⟩ := ht s.updateExcessive.updateSkip
  refine ⟨by rw [c1, b1, a1], ?_, by rw [c3, b3, a3], by rw [c4, b4, a4], by rw [c5, b5, a5],
    by rw [c6, b6, a6]⟩
  intro hp
  rw [c2, b2]
  exact a2 hp

theorem excessiveSound_processCharAndCalcState (pi : ProximityInfo) (inputLength : Int)
    (horacle : OracleExactWithoutCheck pi) (s : Correction) (c : Int) (isTerminal : Bool)
    (top : Int) (h : ExcessiveSound pi inputLength s top true) :
    ExcessiveSound pi inputLength (s.processCharAndCalcState c isTerminal).2
      (max top (s.processCharAndCalcState c isTerminal).2.mOutputIndex) true := by
  obtain ⟨_, hpi, hlen, hfr, hw⟩ := h
  obtain ⟨w1, w2, w3, w4⟩ := hw rfl
  obtain ⟨u1, u2, u3, u4, u5, u6⟩ := updates_excessive_view s
  have hupi : s.updateExcessive.updateSkip.updateTransposed.mProximityInfo = pi := by
    rw [u4]; exact hpi
  have hulen : s.updateExcessive.updateSkip.updateTransposed.mInputLength = inputLength := by
    rw [u5]; exact hlen
  have hufr : ∀ d, 0 ≤ d → d ≤ top → ExcessiveFrameSound
      (s.updateExcessive.updateSkip.updateTransposed.mCorrectionStates d) := by
    rw [u6]; exact hfr
  have huw : ExcessiveWorkingSound top s.updateExcessive.updateSkip.updateTransposed := by
    unfold ExcessiveWorkingSound
    rw [u1, u3]
    exact ⟨w1, w2, u2 w3, w4⟩
  unfold Correction.processCharAndCalcState
  simp only []
  generalize s.updateExcessive.updateSkip.updateTransposed = u at hupi hulen hufr huw
  split_ifs
  · exact excessiveSound_processSkipChar pi inputLength u u c isTerminal top rfl rfl rfl rfl
      rfl rfl hupi hulen hufr huw
  · exact excessiveSound_matchAndDispatch pi inputLength horacle u _ c isTerminal true top
      rfl rfl rfl rfl rfl rfl hupi hulen hufr huw
  · exact excessiveSound_matchAndDispatch pi inputLength horacle u _ c isTerminal false top
      rfl rfl rfl rfl rfl rfl hupi hulen hufr huw
  · exact excessiveSound_same_depth pi inputLength u _ top rfl rfl rfl rfl rfl rfl hupi hulen
      hufr huw
  · exact excessiveSound_matchAndDispatch pi inputLength horacle u u c isTerminal false top
      rfl rfl rfl rfl rfl rfl hupi hulen hufr huw

theorem excessiveSound_initProcessState (pi : ProximityInfo) (inputLength : Int)
    (s : Correction) (top : Int) (loaded : Bool) (outputIndex : Int)
    (h : ExcessiveSound pi inputLength s top loaded) (h0 : 0 ≤ outputIndex)
    (h1 : outputIndex ≤ top) :
    ExcessiveSound pi inputLength (s.initProcessState outputIndex).2 top
      (loaded || (s.initProcessState outputIndex).1) := by
  obtain ⟨ht, hpi, hlen, hfr, hw⟩ := h
  unfold Correction.initProcessState
  simp only []
  split_ifs with hc
  · refine ⟨ht, hpi, hlen, hfr, ?_⟩
    intro hl
    apply hw
    simpa using hl
  · obtain ⟨f1, f2⟩ := hfr outputIndex h0 h1
    refine ⟨ht, hpi, hlen, ?_, ?_⟩
    · apply excessiveFrames_update top _ _ _ top hfr
      · exact ⟨f1, f2⟩
      · intro d hd _
        exact hd
    · intro _
      exact ⟨h0, h1, f1, f2⟩

theorem excessiveSound_goDownTree (pi : ProximityInfo) (inputLength : Int)
    (s : Correction) (top : Int) (parentIndex childCount firstChildPos : Int)
    (h : ExcessiveSound pi inputLength s top true) :
    ExcessiveSound pi inputLength (s.goDownTree parentIndex childCount firstChildPos).2 top
      true := by
  obtain ⟨ht, hpi, hlen, hfr, hw⟩ := h
  obtain ⟨w1, w2, w3, w4⟩ := hw rfl
  unfold Correction.goDownTree
  refine ⟨ht, hpi, hlen, ?_, ?_⟩
  · apply excessiveFrames_update top _ _ _ top hfr
    · exact hfr s.mOutputIndex w1 w2
    · intro d hd _
      exact hd
  · intro _
    exact ⟨w1, w2, w3, w4⟩

theorem excessiveSound_sessionStart (object : Correction) (pi : ProximityInfo)
    (inputLength maxDepth skipPos excessivePos transposedPos spaceProximityPos
      missingSpacePos rootPos childCount : Int) (traverseAll : Bool)
    (hex : 0 ≤ excessivePos) :
    ExcessiveSound pi inputLength
      (sessionStart object pi inputLength maxDepth skipPos excessivePos transposedPos
        spaceProximityPos missingSpacePos rootPos childCount traverseAll) 0 false := by
  refine ⟨le_refl _, rfl, rfl, ?_, fun h => absurd h (by decide)⟩
  intro d h0 h1
  have hd : d = 0 := by omega
  subst hd
  have key : ∀ t : Correction, 0 ≤ t.mExcessivePos → ExcessiveFrameSound
      ((t.initCorrectionState rootPos childCount traverseAll).mCorrectionStates 0) := by
    intro t ht
    unfold Correction.initCorrectionState
    simp only [Function.update_same]
    exact ⟨ht, rfl⟩
  exact key _ hex

/-- The invariant of a session with an excessive position holds in every state of the
driver protocol. -/
theorem excessiveSound_driverProtocol (pi : ProximityInfo) (inputLength : Int)
    (horacle : OracleExactWithoutCheck pi) (start s : Correction) (top : Int) (loaded : Bool)
    (h0 : ExcessiveSound pi inputLength start 0 false)
    (h : DriverProtocol start s top loaded) :
    ExcessiveSound pi inputLength s top loaded := by
  induction h with
  | start => exact h0
  | initProcessState outputIndex _ hlo hhi ih =>
    exact excessiveSound_initProcessState pi inputLength _ _ _ outputIndex ih hlo hhi
  | processCharAndCalcState c isTerminal _ ih =>
    exact excessiveSound_processCharAndCalcState pi inputLength horacle _ c isTerminal _ ih
  | goDownTree parentIndex childCount firstChildPos _ ih =>
    exact excessiveSound_goDownTree pi inputLength _ _ parentIndex childCount firstChildPos ih

/-- The exact-match oracle never answers `NEAR_PROXIMITY_CHAR`. -/
theorem oracleExact_exactProximityInfo (typed : List Nat) :
    OracleExactWithoutCheck (exactProximityInfo typed) := by
  intro i c
  unfold exactProximityInfo
  simp only []
  split_ifs <;> decide

/-- Claim C23, as stated, fails: `initCorrection`, `setCorrectionParams` and
`initCorrectionState` do not write the working `proximity_count`. On an object whose
earlier session counted a proximity match, the session for the typed word "s" with
`excessive_pos = 0` and the exact-match oracle starts with `proximity_count = 1`, and
`match_count = L - proximity_count - 1` is `-1` in that state. -/
theorem proximity_count_stale_at_session_start :
    DriverProtocol usedObjectStart usedObjectStart 0 false
      ∧ OracleExactWithoutCheck usedObjectStart.mProximityInfo
      ∧ usedObjectStart.mExcessivePos = 0
      ∧ usedObjectStart.mInputLength = 1
      ∧ usedObjectStart.mProximityCount = 1
      ∧ RankingAlgorithm.matchCount usedObjectStart = -1 := by
  refine ⟨DriverProtocol.start, oracleExact_exactProximityInfo [115], ?_, ?_, ?_, ?_⟩ <;> decide

/-- Claim C23, amended: in every session whose excessive position is non-negative and
whose oracle answers only SAME or UNRELATED without the proximity check, on every
object, in every state the driver protocol reaches once `initProcessState` has loaded a
frame, `proximity_count` is `0`; so the ranking's `match_count` is `L - 1`, which is
non-negative for `L >= 1`. -/
theorem proximity_count_zero_with_excessive (object : Correction) (pi : ProximityInfo)
    (inputLength maxDepth skipPos excessivePos transposedPos spaceProximityPos
      missingSpacePos rootPos childCount : Int) (traverseAll : Bool)
    (s : Correction) (top : Int)
    (horacle : OracleExactWithoutCheck pi) (hex : 0 ≤ excessivePos) (hL : 1 ≤ inputLength)
    (h : DriverProtocol (sessionStart object pi inputLength maxDepth skipPos excessivePos
      transposedPos spaceProximityPos missingSpacePos rootPos childCount traverseAll)
      s top true) :
    s.mProximityCount = 0
      ∧ RankingAlgorithm.matchCount s = inputLength - 1
      ∧ 0 ≤ RankingAlgorithm.matchCount s := by
  obtain ⟨_, _, hlen, _, hw⟩ := excessiveSound_driverProtocol pi inputLength horacle _ s top true
    (excessiveSound_sessionStart object pi inputLength maxDepth skipPos excessivePos
      transposedPos spaceProximityPos missingSpacePos rootPos childCount traverseAll hex) h
  obtain ⟨_, _, w3, w4⟩ := hw rfl
  have hmc : RankingAlgorithm.matchCount s = inputLength - 1 := by
    unfold RankingAlgorithm.matchCount Correction.getExcessivePos
    have hge : s.mExcessivePos ≥ 0 := w3
    rw [if_pos hge, hlen, w4]
    omega
  exact ⟨w4, hmc, by omega⟩

/-- Claim C23, amended, on the object of the counterexample: once the frame at depth
`0` is loaded and the edge `s` is taken, `proximity_count` is `0` and `match_count` is
`0`. -/
theorem proximity_count_zero_with_excessive_witness :
    OracleExactWithoutCheck (exactProximityInfo [115])
      ∧ DriverProtocol usedObjectStart usedObjectState 1 true
      ∧ usedObjectState.mProximityCount = 0
      ∧ RankingAlgorithm.matchCount usedObjectState = 1 - 1
      ∧ 0 ≤ RankingAlgorithm.matchCount usedObjectState := by
  have p0 : DriverProtocol usedObjectStart usedObjectStart 0 false := DriverProtocol.start
  have p1 : DriverProtocol usedObjectStart (usedObjectStart.initProcessState 0).2 0 true :=
    DriverProtocol.initProcessState 0 p0 (by decide) (by decide)
  have p2 : DriverProtocol usedObjectStart usedObjectState 1 true :=
    DriverProtocol.processCharAndCalcState 115 true p1
  exact ⟨oracleExact_exactProximityInfo [115], p2,
    proximity_count_zero_with_excessive usedObject (exactProximityInfo [115]) 1 48 (-1) 0 (-1)
      (-1) (-1) 0 1 false usedObjectState 1 (oracleExact_exactProximityInfo [115])
      (by decide) (by decide) p2⟩


/-! ## The score and the cells of the word buffer behind the candidate -/

theorem sessionConstants_processSkipChar (s : Correction) (c : Int) (isTerminal : Bool) :
    sessionConstants (s.processSkipChar c isTerminal).2 = sessionConstants s := by
  unfold Correction.processSkipChar
  simp only []
  split_ifs <;> rfl

theorem sessionConstants_emitAndAdvance (s : Correction) (c : Int) (isTerminal : Bool) :
    sessionConstants (s.emitAndAdvance c isTerminal).2 = sessionConstants s := by
  unfold Correction.emitAndAdvance Correction.startToTraverseAllNodes
    Correction.incrementInputIndex Correction.incrementOutputIndex sessionConstants
  simp only []
  split_ifs <;> rfl

theorem sessionConstants_updates (s : Correction) :
    sessionConstants s.updateExcessive.updateSkip.updateTransposed = sessionConstants s := by
  have he : ∀ u : Correction, sessionConstants u.updateExcessive = sessionConstants u := by
    intro u
    unfold Correction.updateExcessive
    simp only []
    split_ifs <;> rfl
  have hs : ∀ u : Correction, sessionConstants u.updateSkip = sessionConstants u := by
    intro u
    unfold Correction.updateSkip
    simp only []
    split_ifs <;> rfl
  have ht : ∀ u : Correction, sessionConstants u.updateTransposed = sessionConstants u := by
    intro u
    unfold Correction.updateTransposed
    simp only []
    split_ifs <;> rfl
  rw [ht, hs, he]

theorem sessionConstants_matchAndDispatch (s : Correction) (c : Int) (isTerminal st : Bool) :
    sessionConstants (s.matchAndDispatch c isTerminal st).2 = sessionConstants s := by
  have emit : ∀ v : Correction, sessionConstants v = sessionConstants s →
      sessionConstants (v.emitAndAdvance c isTerminal).2 = sessionConstants s := by
    intro v hv
    rw [sessionConstants_emitAndAdvance, hv]
  have skip : ∀ v : Correction, sessionConstants v = sessionConstants s →
      sessionConstants (v.processSkipChar c isTerminal).2 = sessionConstants s := by
    intro v hv
    rw [sessionConstants_processSkipChar, hv]
  unfold Correction.matchAndDispatch
  simp only []
  split_ifs
  · exact emit _ rfl
  · exact emit _ rfl
  · exact skip _ rfl
  · exact skip _ rfl
  · rfl
  · exact emit _ rfl
  · exact emit _ rfl
  · exact emit _ rfl

theorem sessionConstants_processCharAndCalcState (s : Correction) (c : Int)
    (isTerminal : Bool) :
    sessionConstants (s.processCharAndCalcState c isTerminal).2 = sessionConstants s := by
  have hu := sessionConstants_updates s
  unfold Correction.processCharAndCalcState
  simp only []
  generalize s.updateExcessive.updateSkip.updateTransposed = u at hu
  have dispatch : ∀ (v : Correction) (st : Bool), sessionConstants v = sessionConstants u →
      sessionConstants (v.matchAndDispatch c isTerminal st).2 = sessionConstants s := by
    intro v st hv
    rw [sessionConstants_matchAndDispatch, hv, hu]
  split_ifs
  · rw [sessionConstants_processSkipChar, hu]
  · exact dispatch _ true rfl
  · exact dispatch _ false rfl
  · exact hu
  · exact dispatch u false rfl

theorem sessionConstants_initProcessState (s : Correction) (outputIndex : Int) :
    sessionConstants (s.initProcessState outputIndex).2 = sessionConstants s := by
  unfold Correction.initProcessState
  simp only []
  split_ifs <;> rfl

/-- A walk along a path of the trie leaves the session constants alone. -/
theorem sessionConstants_walkPath (edges : List (Int × Bool)) :
    ∀ (s : Correction) (depth : Int),
      sessionConstants (walkPath s depth edges).2 = sessionConstants s := by
  induction edges with
  | nil => intro s depth; rfl
  | cons edge rest ih =>
    intro s depth
    have hstep : sessionConstants
        ((s.initProcessState depth).2.processCharAndCalcState edge.1 edge.2).2
        = sessionConstants s := by
      rw [sessionConstants_processCharAndCalcState, sessionConstants_initProcessState]
    unfold walkPath
    simp only []
    split_ifs
    · exact hstep
    · cases rest with
      | nil => exact hstep
      | cons next more =>
        simp only []
        rw [ih]
        exact hstep

/-- Equal session constants: the oracles, the tables and the multipliers agree. -/
theorem sessionConstants_fields (a b : Correction)
    (h : sessionConstants a = sessionConstants b) :
    a.mProximityInfo = b.mProximityInfo ∧ a.mEditDistanceTable = b.mEditDistanceTable
      ∧ a.TYPED_LETTER_MULTIPLIER = b.TYPED_LETTER_MULTIPLIER
      ∧ a.FULL_WORD_MULTIPLIER = b.FULL_WORD_MULTIPLIER := by
  unfold sessionConstants at h
  exact ⟨congrArg Prod.fst h, congrArg (fun p => p.2.1) h, congrArg (fun p => p.2.2.1) h,
    congrArg (fun p => p.2.2.2.1) h⟩

/-- The session constants at the start of a session. -/
theorem sessionConstants_sessionStart (object : Correction) (pi : ProximityInfo)
    (inputLength maxDepth skipPos excessivePos transposedPos spaceProximityPos
      missingSpacePos rootPos childCount : Int) (traverseAll : Bool) :
    sessionConstants (sessionStart object pi inputLength maxDepth skipPos excessivePos
        transposedPos spaceProximityPos missingSpacePos rootPos childCount traverseAll)
      = (pi, object.mEditDistanceTable, object.TYPED_LETTER_MULTIPLIER,
          object.FULL_WORD_MULTIPLIER, inputLength) := rfl

/-- Claim C24 (the score reads a cell behind the candidate): in the session for the
typed word "hte" with `transposed_pos = 0`, the candidate "the" is scored in two
states that agree on everything the ranking is meant to read, its characters
`word[0..2]` included. In the second one an earlier pass over the same typed word has
walked the path "htee" and left `word[3] = 'e'`; there the test
`word[matchCount] == word[matchCount - 1]` of the match-skip promotion, with
`matchCount = 3`, compares the left-over cell with the last letter, and the score is
`1008` instead of `960`. -/
theorem score_depends_on_stale_cell :
    transpositionWalk.1.getLast? = some CorrectionType.ON_TERMINAL
      ∧ stalePassWalk.1.getLast? = some CorrectionType.ON_TERMINAL
      ∧ ScoringAgree transpositionWalk.2 stalePassWalk.2
      ∧ transpositionWalk.2.mTerminalOutputIndex = 2
      ∧ RankingAlgorithm.matchCount transpositionWalk.2 = 3
      ∧ transpositionWalk.2.mWord 3 = 0
      ∧ stalePassWalk.2.mWord 3 = 101
      ∧ (transpositionWalk.2.getFinalFreq sampleDefines id 100 none).freq = 960
      ∧ (stalePassWalk.2.getFinalFreq sampleDefines id 100 none).freq = 1008 := by
  have h0 : sessionConstants earlierPassObject
      = sessionConstants (zeroCorrection [104, 116, 101] 48) := by
    unfold earlierPassObject
    rw [sessionConstants_walkPath, sessionConstants_sessionStart]
    rfl
  obtain ⟨_, o2, o3, o4⟩ := sessionConstants_fields _ _ h0
  have h1 : sessionConstants transpositionWalk.2
      = sessionConstants (zeroCorrection [104, 116, 101] 48) := by
    unfold transpositionWalk transpositionStart
    rw [sessionConstants_walkPath, sessionConstants_sessionStart]
    rfl
  have h2 : sessionConstants stalePassWalk.2
      = sessionConstants (zeroCorrection [104, 116, 101] 48) := by
    unfold stalePassWalk stalePassStart
    rw [sessionConstants_walkPath, sessionConstants_sessionStart]
    rw [o2, o3, o4]
    rfl
  obtain ⟨hpi, htable, _, _⟩ := sessionConstants_fields _ _ (h1.trans h2.symm)
  refine ⟨by decide, by decide, ?_, by decide, by decide, by decide, by decide, by decide,
    by decide⟩
  exact ⟨by decide, by decide, by decide, by decide, by decide, by decide, by decide,
    by decide, by decide, by decide, by decide, by decide, by decide, hpi, by decide,
    by decide, htable, by decide⟩


end latinime
